import Mathlib

/-!
# kafka-go-serdes: Confluent Schema Registry wire format for protobuf

A shallow embedding of `serdes/protobufserializer.go` and
`serdes/protobufdeserializer.go`.

Conventions of the embedding

* A byte is a `Nat` below 256 and a byte slice is a `List Nat`.
* Go's `int` and `int64` are `Int`; conversions to `uint64` / `uint32` are
  written with an explicit `% 2 ^ 64` / `% 2 ^ 32` (`int` is taken to be 64 bits
  wide, as on amd64 and arm64).
* A Go `error` is an `Option (GoError ε)` (`none` is `nil`): an error is either
  made by `fmt.Errorf` in this package, and is then its message, or it is a
  value of the type `ε` of the errors that a collaborator returned.
* A run of Go code that can panic returns a `Run`, whose `panic` constructor
  carries the kind of the runtime error.
* The functions of `encoding/binary` that the two files call (`PutUvarint`,
  `PutVarint`, `Uvarint`, `Varint`, `BigEndian.PutUint32`) are transcribed from
  the Go standard library.
* The collaborators the repository only calls (the protobuf codec, the schema
  registry client, the naming strategies) are parameters.
-/

namespace Serdes

/-! ## Results of running Go code -/

/-- The outcome of running a piece of Go code: it returns a value, or the
goroutine panics with a runtime error. -/
inductive Run (α : Type) where
  | ret (a : α)
  | panic (msg : String)
  deriving DecidableEq, Repr

deriving instance DecidableEq for Except

/-- Sequencing of Go statements: a panic aborts everything that follows. -/
def Run.bind {α β : Type} (r : Run α) (f : α → Run β) : Run β :=
  match r with
  | Run.ret a => f a
  | Run.panic m => Run.panic m

/-- A non-nil Go `error` seen by this package: one it made itself with
`fmt.Errorf`, or one that a collaborator (codec, registry client) returned. -/
inductive GoError (ε : Type) where
  | errorf (msg : String)
  | foreign (e : ε)
  deriving DecidableEq, Repr

/-- The runtime error of an out-of-range index expression. -/
def indexOutOfRange : String := "runtime error: index out of range"

/-- The runtime error of an out-of-range slice expression. -/
def sliceOutOfRange : String := "runtime error: slice bounds out of range"

/-- The runtime error of `make` with a length the runtime refuses. -/
def makesliceLenOutOfRange : String := "runtime error: makeslice: len out of range"

/-! ## encoding/binary -/

/-- The conversion `uint64(x)` of a signed 64-bit integer. -/
def toUint64 (x : Int) : Nat := (x % 2 ^ 64).toNat

/-- The conversion `int64(ux)` of an unsigned 64-bit integer. -/
def toInt64 (ux : Nat) : Int :=
  if ux % 2 ^ 64 < 2 ^ 63 then ((ux % 2 ^ 64 : Nat) : Int) else ((ux % 2 ^ 64 : Nat) : Int) - 2 ^ 64

/-- The loop of `binary.PutUvarint(buf, x)`, on the part of `buf` from the
current index `i` on:
```go
for x >= 0x80 { buf[i] = byte(x) | 0x80; x >>= 7; i++ }
buf[i] = byte(x)
return i + 1
```
It returns the rewritten part of the buffer and the number of bytes written;
writing at an index past the end of `buf` panics. -/
def PutUvarint : List Nat → Nat → Run (List Nat × Nat)
  | [], _ => Run.panic indexOutOfRange
  | _ :: rest, x =>
    if x ≥ 0x80 then
      (PutUvarint rest (x >>> 7)).bind fun r =>
        Run.ret (((x % 256) ||| 0x80) :: r.1, r.2 + 1)
    else
      Run.ret ((x % 256) :: rest, 1)

/-- The function `binary.PutVarint(buf, x)`: zig-zag, then `PutUvarint`.
```go
ux := uint64(x) << 1
if x < 0 { ux = ^ux }
return PutUvarint(buf, ux)
``` -/
def PutVarint (buf : List Nat) (x : Int) : Run (List Nat × Nat) :=
  let ux := (toUint64 x <<< 1) % 2 ^ 64
  let ux := if x < 0 then 2 ^ 64 - 1 - ux else ux
  PutUvarint buf ux

/-- The constant `binary.MaxVarintLen64`. -/
def MaxVarintLen64 : Nat := 10

/-- The loop of `binary.Uvarint(buf)`, on the part of `buf` from index `i` on,
with the accumulator `x` and the shift `s`:
```go
for i, b := range buf {
    if i == MaxVarintLen64 { return 0, -(i + 1) }
    if b < 0x80 {
        if i == MaxVarintLen64-1 && b > 1 { return 0, -(i + 1) }
        return x | uint64(b)<<s, i + 1
    }
    x |= uint64(b&0x7f) << s
    s += 7
}
return 0, 0
``` -/
def uvarintLoop : List Nat → Nat → Nat → Nat → Nat × Int
  | [], _, _, _ => (0, 0)
  | b :: rest, i, x, s =>
    if i = MaxVarintLen64 then (0, -((i : Int) + 1))
    else if b < 0x80 then
      if i = MaxVarintLen64 - 1 ∧ b > 1 then (0, -((i : Int) + 1))
      else (x ||| ((b <<< s) % 2 ^ 64), (i : Int) + 1)
    else uvarintLoop rest (i + 1) (x ||| (((b &&& 0x7f) <<< s) % 2 ^ 64)) (s + 7)

/-- The function `binary.Uvarint(buf)`: the decoded value and the number of
bytes read (0 when the buffer ends early, negative on overflow). -/
def Uvarint (buf : List Nat) : Nat × Int := uvarintLoop buf 0 0 0

/-- The function `binary.Varint(buf)`: `Uvarint`, then the zig-zag inverse.
```go
ux, n := Uvarint(buf)
x := int64(ux >> 1)
if ux&1 != 0 { x = ^x }
return x, n
``` -/
def Varint (buf : List Nat) : Int × Int :=
  let r := Uvarint buf
  let x := toInt64 (r.1 >>> 1)
  let x := if r.1 &&& 1 ≠ 0 then -x - 1 else x
  (x, r.2)

/-- The conversion `uint32(x)` of an `int`. -/
def toUint32 (x : Int) : Nat := (x % 2 ^ 32).toNat

/-- The function `binary.BigEndian.PutUint32(b, v)` on a 4-byte slice. -/
def PutUint32 (v : Nat) : List Nat :=
  [(v >>> 24) % 256, (v >>> 16) % 256, (v >>> 8) % 256, v % 256]

/-- The function `binary.BigEndian.Uint32(b)`. -/
def Uint32 (b : List Nat) : Nat :=
  b.getD 3 0 ||| (b.getD 2 0 <<< 8) ||| (b.getD 1 0 <<< 16) ||| (b.getD 0 0 <<< 24)

/-! ## protobufserializer.go: the message index header -/

/-- The constant `defaultIndex`. -/
def defaultIndex : Int := 0

/-- The statement `length += binary.PutVarint(varBytes[length:], int64(index))`
of `createMsgIndexBytes`: the slice expression panics past the capacity, the
write goes to the shared backing array. -/
def putVarintAt (varBytes : List Nat) (length : Nat) (index : Int) : Run (List Nat × Nat) :=
  if length > varBytes.length then Run.panic sliceOutOfRange
  else
    (PutVarint (varBytes.drop length) index).bind fun r =>
      Run.ret (varBytes.take length ++ r.1, length + r.2)

/-- The loop `for _, index := range msgIndex` of `createMsgIndexBytes`. -/
def putIndexes : List Int → List Nat → Nat → Run (List Nat × Nat)
  | [], varBytes, length => Run.ret (varBytes, length)
  | index :: rest, varBytes, length =>
    (putVarintAt varBytes length index).bind fun r => putIndexes rest r.1 r.2

/-- The function `createMsgIndexBytes(msgIndex []int) []byte`. -/
def createMsgIndexBytes (msgIndex : List Int) : Run (List Nat) :=
  if msgIndex.length = 1 ∧ msgIndex.head? = some defaultIndex then
    -- optimization, just 0 in this case
    let varBytes := List.replicate 1 0
    (PutVarint varBytes defaultIndex).bind fun r =>
      Run.ret (r.1.take r.2)
  else
    let msgIndexLength := msgIndex.length
    -- make a sufficiently large buffer
    let varBytes := List.replicate 100 0
    (PutVarint varBytes (msgIndexLength : Int)).bind fun r =>
      (putIndexes msgIndex r.1 r.2).bind fun r =>
        Run.ret (r.1.take r.2)

/-! ## protobufdeserializer.go -/

/-- The constant `wireFormatLen` of `Deserialize`: magic byte + schema ID. -/
def wireFormatLen : Nat := 5

/-- The constant `minBytesLen` of `Deserialize`: SR wire protocol + msg_index length. -/
def minBytesLen : Nat := 6

/-- The constant `magicByte` of `Deserialize`. -/
def magicByte : Nat := 0

/-- The message of the error returned for a buffer shorter than `minBytesLen`. -/
def tooSmallErrMsg : String :=
  "message too small. This message was not produced with a Confluent Schema Registry serializer"

/-- The message of the error returned for a first byte other than `magicByte`. -/
def magicByteErrMsg : String :=
  "unknown magic byte. This message was not produced with a Confluent Schema Registry serializer"

/-- The constant `msgIndexErrMsg` of `Deserialize`. -/
def msgIndexErrMsg : String := "unable to decode message index array"

/-- The message of the error returned when an element of the index array does
not decode. -/
def msgIndexValueErrMsg : String := "unable to decode value in message index array"

/-- The largest allocation the Go runtime grants on a 64-bit platform
(`maxAlloc` of `runtime/malloc.go`, 48 address bits). -/
def maxAlloc : Nat := 2 ^ 48

/-- The expression `make([]int64, n)`: the runtime panics when `n` is negative or
`8 * n` bytes exceed `maxAlloc`, and otherwise gives `n` zeroes (an allocation
within that bound is taken to succeed). -/
def makeInt64Slice (n : Int) : Run (List Int) :=
  if n < 0 ∨ (maxAlloc : Int) < 8 * n then Run.panic makesliceLenOutOfRange
  else Run.ret (List.replicate n.toNat 0)

/-- The loop of `Deserialize` that decodes the elements of the index array, with
`n` iterations left:
```go
for i := int64(0); i < arrayLen; i++ {
    idx, bytesRead := binary.Varint(bytes[wireFormatLen+totalBytesRead:])
    if bytesRead <= 0 { return fmt.Errorf("unable to decode value in message index array") }
    totalBytesRead += bytesRead
    msgIndexArray[i] = idx
}
```
It returns the message of the error of the early return, or the final
`msgIndexArray` and `totalBytesRead`. -/
def decodeIndexes (bytes : List Nat) :
    Nat → Nat → Nat → List Int → Run (Except String (List Int × Nat))
  | 0, _, totalBytesRead, msgIndexArray => Run.ret (Except.ok (msgIndexArray, totalBytesRead))
  | n + 1, i, totalBytesRead, msgIndexArray =>
    if wireFormatLen + totalBytesRead > bytes.length then Run.panic sliceOutOfRange
    else
      let r := Varint (bytes.drop (wireFormatLen + totalBytesRead))
      if r.2 ≤ 0 then Run.ret (Except.error msgIndexValueErrMsg)
      else if i ≥ msgIndexArray.length then Run.panic indexOutOfRange
      else decodeIndexes bytes n (i + 1) (totalBytesRead + r.2.toNat) (msgIndexArray.set i r.1)

/-- The part of `Deserialize` that decodes the index array (from "decode the
number of elements in the array of message indexes" to the end of the loop), for
a buffer that passed the length check: the message of the error of an early
return, or `msgIndexArray` and `totalBytesRead`. -/
def decodeMsgIndexArray (bytes : List Nat) : Run (Except String (List Int × Nat)) :=
  if wireFormatLen > bytes.length then Run.panic sliceOutOfRange
  else
    let r := Varint (bytes.drop wireFormatLen)
    let arrayLen := r.1
    let bytesRead := r.2
    if arrayLen < 0 then Run.ret (Except.error msgIndexErrMsg)
    else if bytesRead ≤ 0 then Run.ret (Except.error msgIndexErrMsg)
    else
      let totalBytesRead := bytesRead.toNat
      (makeInt64Slice arrayLen).bind fun msgIndexArray =>
        decodeIndexes bytes arrayLen.toNat 0 totalBytesRead msgIndexArray

/-- The method `(*ProtobufDeserializer).Deserialize(bytes, pb)`. The codec call
`proto.Unmarshal(b, pb)` is the parameter `Unmarshal`, which gives the error it
returns and the message it leaves in `pb`; the result is the returned error and
the final `pb`. -/
def Deserialize {μ ε : Type} (Unmarshal : List Nat → μ → Option ε × μ)
    (bytes : List Nat) (pb : μ) : Run (Option (GoError ε) × μ) :=
  if bytes.length < minBytesLen then Run.ret (some (GoError.errorf tooSmallErrMsg), pb)
  else if bytes.head? ≠ some magicByte then Run.ret (some (GoError.errorf magicByteErrMsg), pb)
  else
    (decodeMsgIndexArray bytes).bind fun d =>
      match d with
      | Except.error msg => Run.ret (some (GoError.errorf msg), pb)
      | Except.ok (_, totalBytesRead) =>
        -- Move the reader cursor past the index
        if wireFormatLen + totalBytesRead > bytes.length then Run.panic sliceOutOfRange
        else
          let r := Unmarshal (bytes.drop (wireFormatLen + totalBytesRead)) pb
          match r.1 with
          | some err => Run.ret (some (GoError.foreign err), r.2)
          | none => Run.ret (none, r.2)

/-- The error that `Deserialize` returns for what `proto.Unmarshal` returned:
nil for nil, and the codec's own error otherwise. -/
def codecError {ε : Type} (err : Option ε) : Option (GoError ε) := err.map GoError.foreign

/-! ## protobufserializer.go: descriptors, registry client, serializer -/

/-- The constant `MessageFieldKey`. -/
def MessageFieldKey : String := "key"

/-- The constant `MessageFieldValue`. -/
def MessageFieldValue : String := "value"

/-- The struct `SerializationContext`. -/
structure SerializationContext where
  Topic : String
  Field : String
  deriving DecidableEq, Repr

/-- A `protoreflect.FileDescriptor`, as far as the serializer looks at it: its
path and the files it imports, in declaration order (`fd.Imports()`; a
`protoreflect.FileImport` embeds the descriptor of the imported file). -/
inductive FileDescriptor where
  | mk (path : String) (imports : List FileDescriptor)
  deriving Repr

/-- The method `Path()` of a file descriptor. -/
def FileDescriptor.Path : FileDescriptor → String
  | FileDescriptor.mk path _ => path

/-- The method `Imports()` of a file descriptor. -/
def FileDescriptor.Imports : FileDescriptor → List FileDescriptor
  | FileDescriptor.mk _ imports => imports

/-- A `protoreflect.Descriptor` on the way from a message up to its file: a file
(whose `Parent()` is nil), or a message with its full name, its `Index()` among
its siblings and its `Parent()`. -/
inductive Descriptor where
  | file (fd : FileDescriptor)
  | message (fullName : String) (index : Int) (parent : Descriptor)
  deriving Repr

/-- The method `FullName()` of a message descriptor. -/
def Descriptor.FullName : Descriptor → String
  | Descriptor.file _ => ""
  | Descriptor.message fullName _ _ => fullName

/-- The method `ParentFile()`: the file at the root of the ancestry. -/
def Descriptor.ParentFile : Descriptor → FileDescriptor
  | Descriptor.file fd => fd
  | Descriptor.message _ _ parent => parent.ParentFile

/-- The interface `SubjectNameStrategy`: its method `Subject(ctx, recordName)`. -/
abbrev SubjectNameStrategy := SerializationContext → String → String

/-- The method `TopicSubjectNameStrategy.Subject`. -/
def TopicSubjectNameStrategy : SubjectNameStrategy :=
  fun ctx _ => ctx.Topic ++ "-" ++ ctx.Field

/-- The method `TopicRecordSubjectNameStrategy.Subject`. -/
def TopicRecordSubjectNameStrategy : SubjectNameStrategy :=
  fun ctx recordName => ctx.Topic ++ "-" ++ recordName

/-- The method `RecordSubjectNameStrategy.Subject`. -/
def RecordSubjectNameStrategy : SubjectNameStrategy :=
  fun _ recordName => recordName

/-- The interface `SubjectNameStrategyForReferences`: its method
`Subject(ctx, schemaRef)`. -/
abbrev SubjectNameStrategyForReferences := SerializationContext → FileDescriptor → String

/-- The method `ReferenceSubjectNameStrategy.Subject`. -/
def ReferenceSubjectNameStrategy : SubjectNameStrategyForReferences :=
  fun _ schemaRef => schemaRef.Path

/-- A `srclient.Schema`, as far as the serializer looks at it: `ID()` and
`Version()`. -/
structure Schema where
  id : Int
  version : Int
  deriving DecidableEq, Repr

/-- The struct `srclient.Reference`. -/
structure Reference where
  Name : String
  Subject : String
  Version : Int
  deriving DecidableEq, Repr

/-- The type `srclient.SchemaType`. -/
inductive SchemaType where
  | Avro
  | Protobuf
  | Json
  deriving DecidableEq, Repr

/-- A call of one of the three methods of `srclient.ISchemaRegistryClient` that
the serializer uses, with its arguments. -/
inductive RegistryCall where
  | CreateSchema (subject schema : String) (schemaType : SchemaType) (references : List Reference)
  | LookupSchema (subject schema : String) (schemaType : SchemaType) (references : List Reference)
  | GetLatestSchema (subject : String)
  deriving DecidableEq, Repr

/-- The registry client `ps.client`: an external service with a state of its own
(of type `ρ`); a call returns a schema or an error and leaves the service in a
new state. -/
abbrev SchemaRegistryClient (ρ ε : Type) := ρ → RegistryCall → Except ε Schema × ρ

/-- The registry as the serializer meets it: the state of the service and the
calls issued to it so far, in order. -/
structure Registry (ρ : Type) where
  state : ρ
  calls : List RegistryCall

/-- One call `ps.client.M(args)`: the answer of the client, and the registry
after the call. -/
def Registry.call {ρ ε : Type} (client : SchemaRegistryClient ρ ε) (reg : Registry ρ)
    (c : RegistryCall) : Except ε Schema × Registry ρ :=
  ((client reg.state c).1, { state := (client reg.state c).2, calls := reg.calls ++ [c] })

/-- The struct `ProtobufSerializer` (the client is passed along separately, and
the lock has no counterpart in this sequential model). `knownSubjects` is the map
from subject name to schema ID, as an association list. -/
structure ProtobufSerializer where
  msgIndexBytes : List Nat
  autoRegisterSchemas : Bool
  useLatestVersion : Bool
  skipKnownTypes : Bool
  knownSubjects : List (String × Int)
  subjectNameStrategy : SubjectNameStrategy
  referenceSubjectNameStrategy : SubjectNameStrategyForReferences

/-- The map read `ps.knownSubjects[subject]`. -/
def knownSubjectsGet (m : List (String × Int)) (subject : String) : Option Int :=
  m.lookup subject

/-- The map write `ps.knownSubjects[subject] = schemaID`. -/
def knownSubjectsSet (m : List (String × Int)) (subject : String) (schemaID : Int) :
    List (String × Int) :=
  (subject, schemaID) :: m.filter fun kv => kv.1 ≠ subject

/-- The loop of `createMsgIndex`, from the descriptor `current` on, with the
indexes collected so far:
```go
for {
    _, ok := current.(protoreflect.MessageDescriptor)
    if ok { msgIndex = append([]int{current.Index()}, msgIndex...) }
    parent := current.Parent()
    if parent == nil { break }
    current = parent
}
``` -/
def createMsgIndexLoop : Descriptor → List Int → List Int
  | Descriptor.file _, msgIndex => msgIndex
  | Descriptor.message _ index parent, msgIndex => createMsgIndexLoop parent (index :: msgIndex)

/-- The function `createMsgIndex(md)`. -/
def createMsgIndex (md : Descriptor) : List Int := createMsgIndexLoop md []

/-- The collaborators of the serializer that are not part of this repository:
the registry client, the protobuf codec (`proto.Marshal`), the descriptor of a
message (`pb.ProtoReflect().Descriptor()`) and the function
`fileDescriptorToString`, which marshals a file descriptor and base64-encodes
it. -/
structure Env (ρ ε μ : Type) where
  client : SchemaRegistryClient ρ ε
  Marshal : μ → Except ε (List Nat)
  DescriptorOf : μ → Descriptor
  fileDescriptorToString : FileDescriptor → Except ε String

/-- The function `strings.HasPrefix(s, prefix)`. -/
def HasPrefix (s pre : String) : Bool := pre.data.isPrefixOf s.data

mutual

/-- The method `(*ProtobufSerializer).resolveDependencies(ctx, fd)`: the
references of the direct imports of `fd`, or the error that stopped the
resolution; and the registry after the calls. -/
def resolveDependencies {ρ ε μ : Type} (env : Env ρ ε μ) (ps : ProtobufSerializer)
    (ctx : SerializationContext) : FileDescriptor → Registry ρ →
    Except ε (List Reference) × Registry ρ
  | FileDescriptor.mk _ imports, reg => resolveImports env ps ctx imports [] reg

/-- The loop `for i := 0; i < fileImports.Len(); i++` of `resolveDependencies`,
on the imports still to visit, with the `schemaRefs` collected so far. -/
def resolveImports {ρ ε μ : Type} (env : Env ρ ε μ) (ps : ProtobufSerializer)
    (ctx : SerializationContext) : List FileDescriptor → List Reference → Registry ρ →
    Except ε (List Reference) × Registry ρ
  | [], schemaRefs, reg => (Except.ok schemaRefs, reg)
  | fileImport :: rest, schemaRefs, reg =>
    if ps.skipKnownTypes && HasPrefix fileImport.Path "google/protobuf/" then
      resolveImports env ps ctx rest schemaRefs reg
    else
      -- make recursive call
      match resolveDependencies env ps ctx fileImport reg with
      | (Except.error err, reg1) => (Except.error err, reg1)
      | (Except.ok depRefs, reg1) =>
        let subject := ps.referenceSubjectNameStrategy ctx fileImport
        match env.fileDescriptorToString fileImport with
        | Except.error err => (Except.error err, reg1)
        | Except.ok schemaString =>
          let created : Option ε × Registry ρ :=
            if ps.autoRegisterSchemas then
              match reg1.call env.client
                (RegistryCall.CreateSchema subject schemaString SchemaType.Protobuf depRefs) with
              | (Except.error err, reg2) => (some err, reg2)
              | (Except.ok _, reg2) => (none, reg2)
            else (none, reg1)
          match created with
          | (some err, reg2) => (Except.error err, reg2)
          | (none, reg2) =>
            match reg2.call env.client
              (RegistryCall.LookupSchema subject schemaString SchemaType.Protobuf depRefs) with
            | (Except.error err, reg3) => (Except.error err, reg3)
            | (Except.ok reference, reg3) =>
              -- schemaRefs are per file descriptor
              let schemaRef : Reference :=
                { Name := fileImport.Path, Subject := subject, Version := reference.version }
              resolveImports env ps ctx rest (schemaRefs ++ [schemaRef]) reg3

end

/-- The method `(*ProtobufSerializer).getSchemaID(ctx, md, subject)`: the schema
ID or the error, the serializer with its cache after the call, and the registry
after the call. -/
def getSchemaID {ρ ε μ : Type} (env : Env ρ ε μ) (ps : ProtobufSerializer)
    (ctx : SerializationContext) (md : Descriptor) (subject : String) (reg : Registry ρ) :
    Except ε Int × ProtobufSerializer × Registry ρ :=
  match knownSubjectsGet ps.knownSubjects subject with
  | some schemaID => (Except.ok schemaID, ps, reg)
  | none =>
    let resolved : Except ε Int × Registry ρ :=
      if ps.useLatestVersion then
        match reg.call env.client (RegistryCall.GetLatestSchema subject) with
        | (Except.error err, reg1) => (Except.error err, reg1)
        | (Except.ok theSchema, reg1) => (Except.ok theSchema.id, reg1)
      else
        let fd := md.ParentFile
        match resolveDependencies env ps ctx fd reg with
        | (Except.error err, reg1) => (Except.error err, reg1)
        | (Except.ok schemaRefs, reg1) =>
          match env.fileDescriptorToString fd with
          | Except.error err => (Except.error err, reg1)
          | Except.ok schemaString =>
            if ps.autoRegisterSchemas then
              match reg1.call env.client
                (RegistryCall.CreateSchema subject schemaString SchemaType.Protobuf schemaRefs) with
              | (Except.error err, reg2) => (Except.error err, reg2)
              | (Except.ok theSchema, reg2) => (Except.ok theSchema.id, reg2)
            else
              match reg1.call env.client
                (RegistryCall.LookupSchema subject schemaString SchemaType.Protobuf schemaRefs) with
              | (Except.error err, reg2) => (Except.error err, reg2)
              | (Except.ok theSchema, reg2) => (Except.ok theSchema.id, reg2)
    match resolved with
    | (Except.error err, reg1) => (Except.error err, ps, reg1)
    | (Except.ok schemaID, reg1) =>
      (Except.ok schemaID,
        { ps with knownSubjects := knownSubjectsSet ps.knownSubjects subject schemaID }, reg1)

/-- The method `(*ProtobufSerializer).Serialize(pb, ctx)`: the bytes or the error,
the serializer after the call, and the registry after the call. -/
def Serialize {ρ ε μ : Type} (env : Env ρ ε μ) (ps : ProtobufSerializer) (pb : μ)
    (ctx : SerializationContext) (reg : Registry ρ) :
    Except ε (List Nat) × ProtobufSerializer × Registry ρ :=
  let md := env.DescriptorOf pb
  let subject := ps.subjectNameStrategy ctx md.FullName
  match getSchemaID env ps ctx md subject reg with
  | (Except.error err, ps1, reg1) => (Except.error err, ps1, reg1)
  | (Except.ok schemaID, ps1, reg1) =>
    let schemaIDBytes := PutUint32 (toUint32 schemaID)
    match env.Marshal pb with
    | Except.error err => (Except.error err, ps1, reg1)
    | Except.ok bytes =>
      let msgBytes : List Nat := []
      -- schema serialization protocol version number
      let msgBytes := msgBytes ++ [0]
      -- schema id
      let msgBytes := msgBytes ++ schemaIDBytes
      -- zig zag encoded array of message indexes preceded by length of array
      let msgBytes := msgBytes ++ ps1.msgIndexBytes
      let msgBytes := msgBytes ++ bytes
      (Except.ok msgBytes, ps1, reg1)

/-! ## The index array header, as the wire format words it -/

/-- The zig-zag map of a signed integer to an unsigned one: `0, -1, 1, -2, 2, ...`
go to `0, 1, 2, 3, 4, ...`. -/
def zigzag (v : Int) : Nat := if v < 0 then (-2 * v - 1).toNat else (2 * v).toNat

/-- The base-128 varint of an unsigned integer: seven bits per byte, least
significant group first, the bit `0x80` set on every byte but the last; `n + 1`
bytes at most. -/
def uvarintBytes : Nat → Nat → List Nat
  | 0, x => [x]
  | n + 1, x => if x < 0x80 then [x] else (x % 0x80 + 0x80) :: uvarintBytes n (x / 0x80)

/-- The zig-zag varint of a signed 64-bit integer: ten bytes at most. -/
def zigzagVarint (v : Int) : List Nat := uvarintBytes 9 (zigzag v)

/-- The index array header in its array form: the zig-zag varint of the length of
the path, then the zig-zag varint of each element, in order. -/
def indexArrayHeader (p : List Int) : List Nat :=
  zigzagVarint (p.length : Int) ++ p.flatMap zigzagVarint

/-- The range of a Go `int64` (and of `int` on a 64-bit platform). -/
def isInt64 (v : Int) : Prop := -2 ^ 63 ≤ v ∧ v < 2 ^ 63

instance (v : Int) : Decidable (isInt64 v) := by unfold isInt64; infer_instance

/-! ## protobufserializer.go: configuration and construction -/

/-- The constant `AutoRegisterSchemas`. -/
def AutoRegisterSchemas : String := "auto.register.schemas"

/-- The constant `UseLatestVersion`. -/
def UseLatestVersion : String := "use.latest.version"

/-- The constant `SkipKnownTypes`. -/
def SkipKnownTypes : String := "skip.known.types"

/-- The constant `SubjectNameStrategyImpl`. -/
def SubjectNameStrategyImpl : String := "subject.name.strategy"

/-- The constant `ReferenceSubjectNameStrategyImpl`. -/
def ReferenceSubjectNameStrategyImpl : String := "reference.subject.name.strategy"

/-- A `ProtobufSerializerConfigValue` (`interface{}`), by the type assertions the
setters make on it: a `bool`, a value that implements `SubjectNameStrategy`, a
value that implements `SubjectNameStrategyForReferences`, or a value of any other
type (a string, a number, nil, ...). No value passes two of the assertions: the
two interfaces ask for a method `Subject` of different signatures. -/
inductive ConfigValue where
  | bool (b : Bool)
  | subjectNameStrategy (s : SubjectNameStrategy)
  | referenceSubjectNameStrategy (s : SubjectNameStrategyForReferences)
  | other (description : String)

/-- The type `ProtobufSerializerConfig`, a `map[string]ProtobufSerializerConfigValue`,
as an association list; the first entry of a key is the one the map holds. -/
abbrev ProtobufSerializerConfig := List (String × ConfigValue)

/-- The map read `config[key]` with its `ok`. -/
def configGet (config : ProtobufSerializerConfig) (key : String) : Option ConfigValue :=
  config.lookup key

/-- The statement `delete(config, key)`. -/
def configDelete (config : ProtobufSerializerConfig) (key : String) : ProtobufSerializerConfig :=
  config.filter fun kv => kv.1 ≠ key

/-- The map write `config[key] = value`. -/
def configSet (config : ProtobufSerializerConfig) (key : String) (value : ConfigValue) :
    ProtobufSerializerConfig :=
  (key, value) :: configDelete config key

/-- The keys of a map, each once. -/
def configKeys (config : ProtobufSerializerConfig) : List String :=
  (config.map Prod.fst).dedup

/-- The expression `len(config)`. -/
def configLen (config : ProtobufSerializerConfig) : Nat := (configKeys config).length

/-- The method `isUseLatestVersionAndAutoRegisterSchemas`: the message of the
error it returns, if any. -/
def isUseLatestVersionAndAutoRegisterSchemas (ps : ProtobufSerializer) : Option String :=
  if ps.useLatestVersion && ps.autoRegisterSchemas then
    some ("cannot enable both " ++ UseLatestVersion ++ " and " ++ AutoRegisterSchemas)
  else none

/-- The method `SetAutoRegisterSchemas(config)`: the message of the error it
returns, if any, the serializer after the call and the map after the call. -/
def SetAutoRegisterSchemas (ps : ProtobufSerializer) (config : ProtobufSerializerConfig) :
    Option String × ProtobufSerializer × ProtobufSerializerConfig :=
  match configGet config AutoRegisterSchemas with
  | some autoRegisterSchemasConf =>
    match autoRegisterSchemasConf with
    | ConfigValue.bool autoRegisterSchemas =>
      let ps1 := { ps with autoRegisterSchemas := autoRegisterSchemas }
      (isUseLatestVersionAndAutoRegisterSchemas ps1, ps1, configDelete config AutoRegisterSchemas)
    | _ => (some (AutoRegisterSchemas ++ " must be a boolean value"), ps, config)
  | none => (isUseLatestVersionAndAutoRegisterSchemas ps, ps, config)

/-- The method `SetUseLatestVersion(config)`. -/
def SetUseLatestVersion (ps : ProtobufSerializer) (config : ProtobufSerializerConfig) :
    Option String × ProtobufSerializer × ProtobufSerializerConfig :=
  match configGet config UseLatestVersion with
  | some useLatestVersionConf =>
    match useLatestVersionConf with
    | ConfigValue.bool useLatestVersion =>
      let ps1 := { ps with useLatestVersion := useLatestVersion }
      (isUseLatestVersionAndAutoRegisterSchemas ps1, ps1, configDelete config UseLatestVersion)
    | _ => (some (UseLatestVersion ++ " must be a boolean value"), ps, config)
  | none => (isUseLatestVersionAndAutoRegisterSchemas ps, ps, config)

/-- The method `SetSkipKnownTypes(config)`. -/
def SetSkipKnownTypes (ps : ProtobufSerializer) (config : ProtobufSerializerConfig) :
    Option String × ProtobufSerializer × ProtobufSerializerConfig :=
  match configGet config SkipKnownTypes with
  | some skipKnownTypesConf =>
    match skipKnownTypesConf with
    | ConfigValue.bool skipKnownTypes =>
      (none, { ps with skipKnownTypes := skipKnownTypes }, configDelete config SkipKnownTypes)
    | _ => (some (SkipKnownTypes ++ " must be a boolean value"), ps, config)
  | none => (none, ps, config)

/-- The method `SetSubjectNameStrategy(config)`. -/
def SetSubjectNameStrategy (ps : ProtobufSerializer) (config : ProtobufSerializerConfig) :
    Option String × ProtobufSerializer × ProtobufSerializerConfig :=
  match configGet config SubjectNameStrategyImpl with
  | some subjectNameStrategyConf =>
    match subjectNameStrategyConf with
    | ConfigValue.subjectNameStrategy subjectNameStrategy =>
      (none, { ps with subjectNameStrategy := subjectNameStrategy },
        configDelete config SubjectNameStrategyImpl)
    | _ => (some (SubjectNameStrategyImpl ++ " must be a SubjectNameStrategy"), ps, config)
  | none => (none, ps, config)

/-- The method `SetReferenceSubjectNameStrategy(config)`. -/
def SetReferenceSubjectNameStrategy (ps : ProtobufSerializer)
    (config : ProtobufSerializerConfig) :
    Option String × ProtobufSerializer × ProtobufSerializerConfig :=
  match configGet config ReferenceSubjectNameStrategyImpl with
  | some referenceSubjectNameStrategyConf =>
    match referenceSubjectNameStrategyConf with
    | ConfigValue.referenceSubjectNameStrategy referenceSubjectNameStrategy =>
      (none, { ps with referenceSubjectNameStrategy := referenceSubjectNameStrategy },
        configDelete config ReferenceSubjectNameStrategyImpl)
    | _ => (some (ReferenceSubjectNameStrategyImpl ++ " must be a SubjectNameStrategyForReferences"),
        ps, config)
  | none => (none, ps, config)

/-- The order of Go on strings, `a <= b`, on the code points of the two strings
(the byte-wise order of their UTF-8 forms). -/
def lexLe : List Nat → List Nat → Bool
  | [], _ => true
  | _ :: _, [] => false
  | a :: as, b :: bs => if a < b then true else if b < a then false else lexLe as bs

/-- The order of Go on strings, `a <= b`. -/
def stringLe (a b : String) : Prop := lexLe (a.data.map Char.toNat) (b.data.map Char.toNat) = true

instance : DecidableRel stringLe := fun a b => by unfold stringLe; infer_instance

/-- The function `sort.Strings(keys)`: the keys in ascending order. -/
def sortStrings (keys : List String) : List String := keys.insertionSort stringLe

/-- The function `strings.Join(elems, sep)`. -/
def Join (elems : List String) (sep : String) : String := sep.intercalate elems

/-- The configuration `configToUse` of `NewProtobufSerializer` before the setters
run: all the defaults, updated with the values of the given configuration (nil
is `none`). The loop `for key, value := range config` visits the entries of a map
in no fixed order; here it goes from the last entry of the list to the first. -/
def configWithDefaults (config : Option ProtobufSerializerConfig) : ProtobufSerializerConfig :=
  let configToUse : ProtobufSerializerConfig :=
    [(AutoRegisterSchemas, ConfigValue.bool true),
     (UseLatestVersion, ConfigValue.bool false),
     (SkipKnownTypes, ConfigValue.bool false),
     (SubjectNameStrategyImpl, ConfigValue.subjectNameStrategy TopicSubjectNameStrategy),
     (ReferenceSubjectNameStrategyImpl,
       ConfigValue.referenceSubjectNameStrategy ReferenceSubjectNameStrategy)]
  match config with
  | none => configToUse
  | some config => config.foldr (fun kv configToUse => configSet configToUse kv.1 kv.2) configToUse

/-- The value of an interface field that holds nil. The struct that
`NewProtobufSerializer` first builds has nil strategies; it is returned only
after `SetSubjectNameStrategy` and `SetReferenceSubjectNameStrategy` have set
both. -/
def nilSubjectNameStrategy : SubjectNameStrategy := fun _ _ => ""

/-- The value of an interface field that holds nil, for the strategy for
references. -/
def nilSubjectNameStrategyForReferences : SubjectNameStrategyForReferences := fun _ _ => ""

/-- The function `NewProtobufSerializer(md, schemaRegistryClient, config)` (the
client is passed along separately): it panics when `createMsgIndexBytes` does,
and otherwise returns the serializer, or the message of the error. -/
def NewProtobufSerializer (md : Descriptor) (config : Option ProtobufSerializerConfig) :
    Run (Except String ProtobufSerializer) :=
  let msgIndex := createMsgIndex md
  (createMsgIndexBytes msgIndex).bind fun msgIndexBytes =>
    let ps : ProtobufSerializer :=
      { msgIndexBytes := msgIndexBytes, knownSubjects := [],
        autoRegisterSchemas := false, useLatestVersion := false, skipKnownTypes := false,
        subjectNameStrategy := nilSubjectNameStrategy,
        referenceSubjectNameStrategy := nilSubjectNameStrategyForReferences }
    -- set all the defaults, and update them with the values from the passed in config
    let configToUse := configWithDefaults config
    match SetAutoRegisterSchemas ps configToUse with
    | (some err, _, _) => Run.ret (Except.error err)
    | (none, ps, configToUse) =>
      match SetUseLatestVersion ps configToUse with
      | (some err, _, _) => Run.ret (Except.error err)
      | (none, ps, configToUse) =>
        match SetSkipKnownTypes ps configToUse with
        | (some err, _, _) => Run.ret (Except.error err)
        | (none, ps, configToUse) =>
          match SetSubjectNameStrategy ps configToUse with
          | (some err, _, _) => Run.ret (Except.error err)
          | (none, ps, configToUse) =>
            match SetReferenceSubjectNameStrategy ps configToUse with
            | (some err, _, _) => Run.ret (Except.error err)
            | (none, ps, configToUse) =>
              -- check for left over unrecognized properties
              if configLen configToUse > 0 then
                let keys := sortStrings (configKeys configToUse)
                Run.ret (Except.error ("unrecognized properties: " ++ Join keys ", "))
              else Run.ret (Except.ok ps)

/-! ## Wordings of the specification used in the statements -/

/-- The number of bytes that `n` well-formed varints take at the head of a
buffer, one after the other; `none` when fewer than `n` well-formed varints
follow (the buffer ends early, or a varint overflows). -/
def skipVarints : Nat → List Nat → Option Nat
  | 0, _ => some 0
  | n + 1, buf =>
    if (Varint buf).2 ≤ 0 then none
    else (skipVarints n (buf.drop (Varint buf).2.toNat)).map fun m => (Varint buf).2.toNat + m

/-- The value that a configuration (nil is `none`) gives to a key, or the given
default when the key is absent. -/
def configValue (config : Option ProtobufSerializerConfig) (key : String)
    (default : ConfigValue) : ConfigValue :=
  match config with
  | none => default
  | some c =>
    match configGet c key with
    | some v => v
    | none => default

/-- The five recognized options. -/
def recognizedKeys : List String :=
  [AutoRegisterSchemas, UseLatestVersion, SkipKnownTypes, SubjectNameStrategyImpl,
    ReferenceSubjectNameStrategyImpl]

/-- What is left of `configToUse` once the five setters have deleted their keys. -/
def leftoverConfig (config : Option ProtobufSerializerConfig) : ProtobufSerializerConfig :=
  configDelete (configDelete (configDelete (configDelete (configDelete
    (configWithDefaults config) AutoRegisterSchemas) UseLatestVersion) SkipKnownTypes)
    SubjectNameStrategyImpl) ReferenceSubjectNameStrategyImpl

/-- The result of `NewProtobufSerializer` as a function of the index header and
of the values that the configuration, with the defaults, gives to the five
options: the checks of the five setters, in their order, then the check for
left-over keys. -/
def newSerializerResult (msgIndexBytes : List Nat) (config : Option ProtobufSerializerConfig) :
    Except String ProtobufSerializer :=
  match configValue config AutoRegisterSchemas (ConfigValue.bool true) with
  | ConfigValue.bool a =>
    match configValue config UseLatestVersion (ConfigValue.bool false) with
    | ConfigValue.bool u =>
      if u && a then
        Except.error ("cannot enable both " ++ UseLatestVersion ++ " and " ++ AutoRegisterSchemas)
      else
        match configValue config SkipKnownTypes (ConfigValue.bool false) with
        | ConfigValue.bool k =>
          match configValue config SubjectNameStrategyImpl
              (ConfigValue.subjectNameStrategy TopicSubjectNameStrategy) with
          | ConfigValue.subjectNameStrategy f =>
            match configValue config ReferenceSubjectNameStrategyImpl
                (ConfigValue.referenceSubjectNameStrategy ReferenceSubjectNameStrategy) with
            | ConfigValue.referenceSubjectNameStrategy g =>
              if configLen (leftoverConfig config) > 0 then
                Except.error ("unrecognized properties: "
                  ++ Join (sortStrings (configKeys (leftoverConfig config))) ", ")
              else
                Except.ok
                  { msgIndexBytes := msgIndexBytes, knownSubjects := [],
                    autoRegisterSchemas := a, useLatestVersion := u, skipKnownTypes := k,
                    subjectNameStrategy := f, referenceSubjectNameStrategy := g }
            | _ => Except.error
                (ReferenceSubjectNameStrategyImpl ++ " must be a SubjectNameStrategyForReferences")
          | _ => Except.error (SubjectNameStrategyImpl ++ " must be a SubjectNameStrategy")
        | _ => Except.error (SkipKnownTypes ++ " must be a boolean value")
    | _ => Except.error (UseLatestVersion ++ " must be a boolean value")
  | _ => Except.error (AutoRegisterSchemas ++ " must be a boolean value")

/-- A configuration value passes the type assertion `.(bool)`. -/
def ConfigValue.isBool : ConfigValue → Bool
  | ConfigValue.bool _ => true
  | _ => false

/-- A configuration value passes the type assertion `.(SubjectNameStrategy)`. -/
def ConfigValue.isSubjectNameStrategy : ConfigValue → Bool
  | ConfigValue.subjectNameStrategy _ => true
  | _ => false

/-- A configuration value passes the type assertion
`.(SubjectNameStrategyForReferences)`. -/
def ConfigValue.isSubjectNameStrategyForReferences : ConfigValue → Bool
  | ConfigValue.referenceSubjectNameStrategy _ => true
  | _ => false

/-! ## The order of the registry calls, as the specification words it -/

/-- The registry calls that `resolveDependencies` issues for one import, once
the references of the import's own file are known: `CreateSchema` first when
auto-register is enabled, then `LookupSchema`, both with those references. -/
def referenceCalls (ps : ProtobufSerializer) (subject schemaString : String)
    (depRefs : List Reference) : List RegistryCall :=
  (if ps.autoRegisterSchemas then
      [RegistryCall.CreateSchema subject schemaString SchemaType.Protobuf depRefs]
    else []) ++
  [RegistryCall.LookupSchema subject schemaString SchemaType.Protobuf depRefs]

/-- Post-order resolution of a list of imports, in declaration order:
`PostOrder env ps ctx imports reg res calls reg'` says that, from the registry
`reg`, the imports are gone through from first to last, issue exactly `calls`,
leave the registry `reg'` and give `res`, the references collected or the error
that stopped the resolution. A skipped import contributes nothing. For an import
that is not skipped, the imports of its own file are resolved first, in the same
way, by `resolveDependencies`; if that gives the references `depRefs`, the calls
for the import itself follow at once and carry exactly `depRefs`, and the later
imports come after. A resolution that stops does so inside the resolution of an
import's own file (`stopInside`), or at the import itself: before its calls,
when its descriptor cannot be encoded (`stopEncoding`), or after one or more of
its calls (`stopAt`). -/
inductive PostOrder {ρ ε μ : Type} (env : Env ρ ε μ) (ps : ProtobufSerializer)
    (ctx : SerializationContext) :
    List FileDescriptor → Registry ρ → Except ε (List Reference) → List RegistryCall →
      Registry ρ → Prop where
  | nil (reg : Registry ρ) : PostOrder env ps ctx [] reg (Except.ok []) [] reg
  | skip (fileImport : FileDescriptor) (rest : List FileDescriptor) (reg reg' : Registry ρ)
      (res : Except ε (List Reference)) (calls : List RegistryCall) :
      (ps.skipKnownTypes && HasPrefix fileImport.Path "google/protobuf/") = true →
      PostOrder env ps ctx rest reg res calls reg' →
      PostOrder env ps ctx (fileImport :: rest) reg res calls reg'
  | visit (fileImport : FileDescriptor) (rest : List FileDescriptor)
      (reg reg1 reg2 reg' : Registry ρ) (depRefs : List Reference)
      (res : Except ε (List Reference)) (depCalls calls : List RegistryCall)
      (schemaString : String) (version : Int) :
      (ps.skipKnownTypes && HasPrefix fileImport.Path "google/protobuf/") = false →
      resolveDependencies env ps ctx fileImport reg = (Except.ok depRefs, reg1) →
      PostOrder env ps ctx fileImport.Imports reg (Except.ok depRefs) depCalls reg1 →
      env.fileDescriptorToString fileImport = Except.ok schemaString →
      reg2.calls = reg1.calls ++
        referenceCalls ps (ps.referenceSubjectNameStrategy ctx fileImport) schemaString depRefs →
      PostOrder env ps ctx rest reg2 res calls reg' →
      PostOrder env ps ctx (fileImport :: rest) reg
        (res.map fun refs =>
          { Name := fileImport.Path, Subject := ps.referenceSubjectNameStrategy ctx fileImport,
            Version := version } :: refs)
        (depCalls ++
          referenceCalls ps (ps.referenceSubjectNameStrategy ctx fileImport) schemaString depRefs
          ++ calls)
        reg'
  | stopInside (fileImport : FileDescriptor) (rest : List FileDescriptor)
      (reg reg1 : Registry ρ) (depCalls : List RegistryCall) (err : ε) :
      (ps.skipKnownTypes && HasPrefix fileImport.Path "google/protobuf/") = false →
      resolveDependencies env ps ctx fileImport reg = (Except.error err, reg1) →
      PostOrder env ps ctx fileImport.Imports reg (Except.error err) depCalls reg1 →
      PostOrder env ps ctx (fileImport :: rest) reg (Except.error err) depCalls reg1
  | stopEncoding (fileImport : FileDescriptor) (rest : List FileDescriptor)
      (reg reg1 : Registry ρ) (depRefs : List Reference) (depCalls : List RegistryCall)
      (err : ε) :
      (ps.skipKnownTypes && HasPrefix fileImport.Path "google/protobuf/") = false →
      resolveDependencies env ps ctx fileImport reg = (Except.ok depRefs, reg1) →
      PostOrder env ps ctx fileImport.Imports reg (Except.ok depRefs) depCalls reg1 →
      env.fileDescriptorToString fileImport = Except.error err →
      PostOrder env ps ctx (fileImport :: rest) reg (Except.error err) depCalls reg1
  | stopAt (fileImport : FileDescriptor) (rest : List FileDescriptor)
      (reg reg1 reg2 : Registry ρ) (depRefs : List Reference)
      (depCalls ownCalls : List RegistryCall) (schemaString : String) (err : ε) :
      (ps.skipKnownTypes && HasPrefix fileImport.Path "google/protobuf/") = false →
      resolveDependencies env ps ctx fileImport reg = (Except.ok depRefs, reg1) →
      PostOrder env ps ctx fileImport.Imports reg (Except.ok depRefs) depCalls reg1 →
      env.fileDescriptorToString fileImport = Except.ok schemaString →
      ownCalls <+:
        referenceCalls ps (ps.referenceSubjectNameStrategy ctx fileImport) schemaString depRefs →
      ownCalls ≠ [] →
      reg2.calls = reg1.calls ++ ownCalls →
      PostOrder env ps ctx (fileImport :: rest) reg (Except.error err) (depCalls ++ ownCalls) reg2

/-! ## The answers of the registry, as the specification words them -/

/-- The calls answered by the registry so far, in order, each with the answer it
got. -/
abbrev AnswerLog (ε : Type) := List (RegistryCall × Except ε Schema)

/-- A registry client that keeps the log of its answers next to its state: it
answers every call as `client` does, and adds the call and the answer to the
log. -/
def recordingClient {ρ ε : Type} (client : SchemaRegistryClient ρ ε) :
    SchemaRegistryClient (ρ × AnswerLog ε) ε :=
  fun st c => ((client st.1 c).1, ((client st.1 c).2, st.2 ++ [(c, (client st.1 c).1)]))

/-- The collaborators `env`, with the registry client keeping the log of its
answers. -/
def Env.recording {ρ ε μ : Type} (env : Env ρ ε μ) : Env (ρ × AnswerLog ε) ε μ :=
  { client := recordingClient env.client, Marshal := env.Marshal,
    DescriptorOf := env.DescriptorOf, fileDescriptorToString := env.fileDescriptorToString }

/-- Abort on registry failure, for the answers `answers` that the registry gave
during a run that returned `res`: wherever a call was answered with an error, no
answer follows in the log, and the run returned exactly that error. -/
def stopsAtFailure {ε α : Type} (answers : AnswerLog ε) (res : Except ε α) : Prop :=
  ∀ (pre : AnswerLog ε) (c : RegistryCall) (e : ε) (post : AnswerLog ε),
    answers = pre ++ (c, Except.error e) :: post → post = [] ∧ res = Except.error e

/-- A log in which every call was answered with a schema. -/
def cleanAnswers {ε : Type} (answers : AnswerLog ε) : Prop :=
  ∀ a ∈ answers, ∃ s, a.2 = Except.ok s

/-- A run from the registry `reg` to the registry `reg'` with the result `res`
extends the log of answers and the log of calls by the same calls, and either
every one of them was answered with a schema, or the last one alone was answered
with an error and `res` is that error. -/
def RunsTo {ρ ε α : Type} (reg reg' : Registry (ρ × AnswerLog ε)) (res : Except ε α) : Prop :=
  ∃ new : AnswerLog ε, reg'.state.2 = reg.state.2 ++ new ∧
    reg'.calls = reg.calls ++ new.map Prod.fst ∧
    (cleanAnswers new ∨
      ∃ pre c e, new = pre ++ [(c, Except.error e)] ∧ cleanAnswers pre ∧ res = Except.error e)

/-- The registry as the serializer meets it, without the log of answers. -/
def Registry.forget {ρ ε : Type} (reg : Registry (ρ × AnswerLog ε)) : Registry ρ :=
  { state := reg.state.1, calls := reg.calls }

/-! ## The index path of a message, as the wire format words it -/

/-- The nesting depth of a descriptor: a file has depth 0, a message one more
than what encloses it (a top-level message has depth 1). -/
def nestingDepth : Descriptor → Nat
  | Descriptor.file _ => 0
  | Descriptor.message _ _ parent => nestingDepth parent + 1

/-- The index path of a descriptor, from the root down to it: nothing for a
file, and for a message the path of what encloses it followed by the message's
own index among its siblings. -/
def indexPath : Descriptor → List Int
  | Descriptor.file _ => []
  | Descriptor.message _ index parent => indexPath parent ++ [index]

/-! ## Lemmas on the varint codec -/

theorem Run.bind_ret {α β : Type} (a : α) (f : α → Run β) : (Run.ret a).bind f = f a := rfl

theorem Run.bind_panic {α β : Type} (m : String) (f : α → Run β) :
    (Run.panic m : Run α).bind f = Run.panic m := rfl

theorem byte_or_flag (y : Nat) (hy : y < 256) : y ||| 0x80 = y % 128 + 128 := by
  interval_cases y <;> rfl

theorem byte_and_mask (y : Nat) : y &&& 0x7f = y % 128 := by
  have h := Nat.and_pow_two_sub_one_eq_mod y 7
  simpa using h

theorem uvarintBytes_length_pos (n x : Nat) : 0 < (uvarintBytes n x).length := by
  cases n with
  | zero => simp [uvarintBytes]
  | succ n =>
    unfold uvarintBytes
    split <;> simp

theorem uvarintBytes_length_le (n x : Nat) : (uvarintBytes n x).length ≤ n + 1 := by
  induction n generalizing x with
  | zero => simp [uvarintBytes]
  | succ n ih =>
    unfold uvarintBytes
    split
    · simp
    · have := ih (x / 0x80)
      simp only [List.length_cons]
      omega

theorem uvarintBytes_small (n x : Nat) (hx : x < 128) : uvarintBytes n x = [x] := by
  cases n with
  | zero => rfl
  | succ n => simp [uvarintBytes, hx]

/-- What `PutUvarint` does on any buffer: it writes the varint of `x` over the
head of the buffer, or panics when the buffer is shorter than the varint. -/
theorem PutUvarint_eq (n : Nat) (buf : List Nat) (x : Nat) (hx : x < 2 ^ (7 * (n + 1))) :
    PutUvarint buf x =
      if (uvarintBytes n x).length ≤ buf.length then
        Run.ret (uvarintBytes n x ++ buf.drop (uvarintBytes n x).length, (uvarintBytes n x).length)
      else Run.panic indexOutOfRange := by
  induction buf generalizing n x with
  | nil =>
    have := uvarintBytes_length_pos n x
    simp only [PutUvarint, List.length_nil]
    rw [if_neg (by omega)]
  | cons b rest ih =>
    unfold PutUvarint
    by_cases h : x ≥ 0x80
    · rw [if_pos h]
      cases n with
      | zero => norm_num at hx; omega
      | succ m =>
        have hx' : x >>> 7 < 2 ^ (7 * (m + 1)) := by
          rw [Nat.shiftRight_eq_div_pow]
          have e : 2 ^ (7 * (m + 1 + 1)) = 2 ^ 7 * 2 ^ (7 * (m + 1)) := by
            rw [← pow_add]; congr 1; ring
          rw [e] at hx
          exact Nat.div_lt_of_lt_mul hx
        rw [ih m (x >>> 7) hx']
        have hu : uvarintBytes (m + 1) x = (x % 0x80 + 0x80) :: uvarintBytes m (x / 0x80) := by
          rw [uvarintBytes, if_neg (by omega)]
        have hs : x >>> 7 = x / 0x80 := by rw [Nat.shiftRight_eq_div_pow]
        have hb : (x % 256) ||| 0x80 = x % 0x80 + 0x80 := by
          rw [byte_or_flag _ (Nat.mod_lt _ (by norm_num))]
          omega
        rw [hu, hs, hb]
        simp only [List.length_cons, Nat.add_le_add_iff_right]
        by_cases hl : (uvarintBytes m (x / 0x80)).length ≤ rest.length
        · rw [if_pos hl, if_pos hl]
          simp [Run.bind]
        · rw [if_neg hl, if_neg hl]
          rfl
    · rw [if_neg h]
      have hx128 : x < 128 := by omega
      rw [uvarintBytes_small n x hx128]
      have : x % 256 = x := Nat.mod_eq_of_lt (by omega)
      simp [this]

theorem lor_mul_two_pow (acc y s : Nat) (hacc : acc < 2 ^ s) :
    acc ||| (y * 2 ^ s) = acc + y * 2 ^ s := by
  have := Nat.mul_add_lt_is_or hacc y
  rw [Nat.lor_comm, Nat.mul_comm y, ← this, Nat.add_comm]

/-- Decoding a varint that is followed by anything gives back the value and the
length of the varint (here from index `i` of the decoding loop on). -/
theorem uvarintLoop_uvarintBytes (n : Nat) (x i acc : Nat) (rest : List Nat)
    (hn : x < 2 ^ (7 * (n + 1)))
    (hi : i ≤ 9) (hx : x * 2 ^ (7 * i) < 2 ^ 64) (hacc : acc < 2 ^ (7 * i)) :
    uvarintLoop (uvarintBytes n x ++ rest) i acc (7 * i) =
      (acc + x * 2 ^ (7 * i), ((i + (uvarintBytes n x).length : Nat) : Int)) := by
  have hlast : ∀ (y i acc : Nat), i ≤ 9 → acc < 2 ^ (7 * i) → y < 128 → y * 2 ^ (7 * i) < 2 ^ 64 →
      uvarintLoop ([y] ++ rest) i acc (7 * i) = (acc + y * 2 ^ (7 * i), ((i + 1 : Nat) : Int)) := by
    intro y i acc hi hacc hy hy64
    simp only [List.singleton_append, uvarintLoop, MaxVarintLen64]
    rw [if_neg (by omega), if_pos (by omega)]
    have h2 : ¬ (i = 10 - 1 ∧ y > 1) := by
      rintro ⟨h9, hy1⟩
      have h9' : i = 9 := by omega
      subst h9'
      norm_num at hy64
      omega
    rw [if_neg h2, Nat.shiftLeft_eq, Nat.mod_eq_of_lt hy64, lor_mul_two_pow _ _ _ hacc]
    simp
  induction n generalizing x i acc with
  | zero =>
    have hx128 : x < 128 := by simpa using hn
    simp only [uvarintBytes, List.length_singleton]
    exact hlast x i acc hi hacc hx128 hx
  | succ m ih =>
    by_cases hx128 : x < 128
    · rw [uvarintBytes_small _ _ hx128]
      exact hlast x i acc hi hacc hx128 hx
    · have hu : uvarintBytes (m + 1) x = (x % 0x80 + 0x80) :: uvarintBytes m (x / 0x80) := by
        rw [uvarintBytes, if_neg (by omega)]
      have hP : 2 ^ (7 * (i + 1)) = 128 * 2 ^ (7 * i) := by
        rw [show 7 * (i + 1) = 7 + 7 * i by ring, pow_add]; norm_num
      have hi8 : i ≤ 8 := by
        by_contra hc
        have h9 : i = 9 := by omega
        subst h9
        norm_num at hx
        omega
      have hdm := Nat.mod_add_div x 128
      have hxd : x / 128 * 2 ^ (7 * (i + 1)) < 2 ^ 64 := by
        rw [hP]
        calc x / 128 * (128 * 2 ^ (7 * i)) = (128 * (x / 128)) * 2 ^ (7 * i) := by ring
          _ ≤ x * 2 ^ (7 * i) := Nat.mul_le_mul_right _ (by omega)
          _ < 2 ^ 64 := hx
      have hlow : x % 128 * 2 ^ (7 * i) < 2 ^ 64 := by
        calc x % 128 * 2 ^ (7 * i) ≤ x * 2 ^ (7 * i) := Nat.mul_le_mul_right _ (Nat.mod_le _ _)
          _ < 2 ^ 64 := hx
      have hacc' : acc + x % 128 * 2 ^ (7 * i) < 2 ^ (7 * (i + 1)) := by
        rw [hP]
        have : x % 128 < 128 := Nat.mod_lt _ (by norm_num)
        nlinarith
      have hn' : x / 0x80 < 2 ^ (7 * (m + 1)) := by
        have e : 2 ^ (7 * (m + 1 + 1)) = 2 ^ 7 * 2 ^ (7 * (m + 1)) := by
          rw [← pow_add]; congr 1; ring
        rw [e] at hn
        exact Nat.div_lt_of_lt_mul hn
      rw [hu]
      simp only [List.cons_append, uvarintLoop, MaxVarintLen64]
      rw [if_neg (by omega), if_neg (by omega)]
      have hmask : (x % 128 + 128) &&& 0x7f = x % 128 := by
        rw [byte_and_mask]; omega
      rw [hmask, Nat.shiftLeft_eq, Nat.mod_eq_of_lt hlow, lor_mul_two_pow _ _ _ hacc]
      have hs : 7 * i + 7 = 7 * (i + 1) := by ring
      rw [hs]
      have hih := ih (x / 0x80) (i + 1) _ hn' (by omega) hxd hacc'
      simp only [List.append_eq] at hih ⊢
      rw [hih]
      simp only [Prod.mk.injEq, List.length_cons]
      constructor
      · rw [hP]
        calc acc + x % 128 * 2 ^ (7 * i) + x / 128 * (128 * 2 ^ (7 * i))
            = acc + (x % 128 + 128 * (x / 128)) * 2 ^ (7 * i) := by ring
          _ = acc + x * 2 ^ (7 * i) := by rw [hdm]
      · push_cast; ring

theorem zigzag_lt (v : Int) (hv : isInt64 v) : zigzag v < 2 ^ 64 := by
  unfold isInt64 at hv
  unfold zigzag
  split <;> omega

/-- The unsigned value that `PutVarint` hands to `PutUvarint` is the zig-zag
image of its argument. -/
theorem PutVarint_ux (v : Int) (hv : isInt64 v) :
    (if v < 0 then 2 ^ 64 - 1 - (toUint64 v <<< 1) % 2 ^ 64 else (toUint64 v <<< 1) % 2 ^ 64)
      = zigzag v := by
  unfold isInt64 at hv
  unfold zigzag toUint64
  rw [Nat.shiftLeft_eq]
  split <;> omega

/-- What `PutVarint` does on any buffer: it writes the zig-zag varint of `v` over
the head of the buffer, or panics when the buffer is shorter than the varint. -/
theorem PutVarint_eq (buf : List Nat) (v : Int) (hv : isInt64 v) :
    PutVarint buf v =
      if (zigzagVarint v).length ≤ buf.length then
        Run.ret (zigzagVarint v ++ buf.drop (zigzagVarint v).length, (zigzagVarint v).length)
      else Run.panic indexOutOfRange := by
  unfold PutVarint
  simp only []
  rw [PutVarint_ux v hv]
  exact PutUvarint_eq 9 buf (zigzag v) (lt_trans (zigzag_lt v hv) (by norm_num))

theorem zigzagVarint_length_pos (v : Int) : 0 < (zigzagVarint v).length :=
  uvarintBytes_length_pos _ _

theorem zigzagVarint_length_le (v : Int) : (zigzagVarint v).length ≤ 10 :=
  uvarintBytes_length_le _ _

theorem Uvarint_zigzagVarint (v : Int) (hv : isInt64 v) (rest : List Nat) :
    Uvarint (zigzagVarint v ++ rest) = (zigzag v, ((zigzagVarint v).length : Int)) := by
  have h := uvarintLoop_uvarintBytes 9 (zigzag v) 0 0 rest
    (lt_trans (zigzag_lt v hv) (by norm_num)) (by norm_num) (by simpa using zigzag_lt v hv)
    (by norm_num)
  unfold Uvarint zigzagVarint
  simpa using h

/-- Reading back a zig-zag varint that is followed by anything: `Varint`
returns the value and the length of the varint. -/
theorem Varint_zigzagVarint (v : Int) (hv : isInt64 v) (rest : List Nat) :
    Varint (zigzagVarint v ++ rest) = (v, ((zigzagVarint v).length : Int)) := by
  unfold Varint
  simp only [Uvarint_zigzagVarint v hv rest, Prod.mk.injEq, and_true]
  unfold isInt64 at hv
  unfold zigzag toInt64
  rw [Nat.shiftRight_eq_div_pow, Nat.and_one_is_mod]
  split <;> split <;> split <;> omega

/-! ## Lemmas on `createMsgIndexBytes` -/

theorem take_append_mid (A B C : List Nat) (a : Nat) (ha : A.length = a) :
    (A ++ B ++ C).take (a + B.length) = A ++ B := by
  subst ha
  rw [← List.length_append]
  exact List.take_left' rfl

theorem drop_append_mid (A B C : List Nat) (a m : Nat) (ha : A.length = a) :
    (A ++ B ++ C).drop (a + B.length + m) = C.drop m := by
  subst ha
  rw [← List.length_append, ← List.drop_drop, List.drop_left' rfl]

/-- One step of the loop of `createMsgIndexBytes`: the zig-zag varint of the
element goes to offset `length` of the working buffer, or the write panics. -/
theorem putVarintAt_eq (varBytes : List Nat) (length : Nat) (v : Int) (hv : isInt64 v)
    (hl : length ≤ varBytes.length) :
    putVarintAt varBytes length v =
      if length + (zigzagVarint v).length ≤ varBytes.length then
        Run.ret (varBytes.take length ++ zigzagVarint v
          ++ varBytes.drop (length + (zigzagVarint v).length), length + (zigzagVarint v).length)
      else Run.panic indexOutOfRange := by
  unfold putVarintAt
  rw [if_neg (by omega), PutVarint_eq _ _ hv]
  simp only [List.length_drop]
  by_cases h : length + (zigzagVarint v).length ≤ varBytes.length
  · rw [if_pos (by omega), if_pos h]
    simp [Run.bind, List.drop_drop, Nat.add_comm]
  · rw [if_neg (by omega), if_neg h]
    rfl

/-- The loop of `createMsgIndexBytes`: the zig-zag varints of the elements go to
the working buffer one after the other, or a write panics. -/
theorem putIndexes_eq (p : List Int) (hp : ∀ v ∈ p, isInt64 v) (varBytes : List Nat)
    (length : Nat) (hl : length ≤ varBytes.length) :
    putIndexes p varBytes length =
      if length + (p.flatMap zigzagVarint).length ≤ varBytes.length then
        Run.ret (varBytes.take length ++ p.flatMap zigzagVarint
          ++ varBytes.drop (length + (p.flatMap zigzagVarint).length),
          length + (p.flatMap zigzagVarint).length)
      else Run.panic indexOutOfRange := by
  induction p generalizing varBytes length with
  | nil =>
    simp [putIndexes, hl]
  | cons e es ih =>
    have he : isInt64 e := hp e (List.mem_cons_self _ _)
    have hes : ∀ v ∈ es, isInt64 v := fun v hv => hp v (List.mem_cons_of_mem _ hv)
    unfold putIndexes
    rw [putVarintAt_eq _ _ _ he hl]
    simp only [List.flatMap_cons, List.length_append]
    by_cases h : length + (zigzagVarint e).length ≤ varBytes.length
    · rw [if_pos h, Run.bind_ret]
      simp only []
      have hlen : (varBytes.take length ++ zigzagVarint e
          ++ varBytes.drop (length + (zigzagVarint e).length)).length = varBytes.length := by
        simp only [List.length_append, List.length_take, List.length_drop]
        omega
      rw [ih hes _ _ (by rw [hlen]; exact h), hlen]
      have htl : (varBytes.take length).length = length := by
        rw [List.length_take]; omega
      by_cases h2 : length + (zigzagVarint e).length + (es.flatMap zigzagVarint).length
          ≤ varBytes.length
      · rw [if_pos h2, if_pos (by omega)]
        rw [take_append_mid _ _ _ _ htl, drop_append_mid _ _ _ _ _ htl, List.drop_drop]
        simp [Nat.add_assoc, Nat.add_comm, Nat.add_left_comm]
      · rw [if_neg h2, if_neg (by omega)]
    · rw [if_neg h, if_neg (by omega)]
      rfl

theorem flatMap_zigzagVarint_length_ge (p : List Int) :
    p.length ≤ (p.flatMap zigzagVarint).length := by
  induction p with
  | nil => simp
  | cons e es ih =>
    have := zigzagVarint_length_pos e
    simp only [List.flatMap_cons, List.length_append, List.length_cons]
    omega

theorem isDefaultPath_iff (p : List Int) :
    (p.length = 1 ∧ p.head? = some defaultIndex) ↔ p = [0] := by
  constructor
  · rintro ⟨h1, h2⟩
    match p, h1, h2 with
    | [a], _, h2 =>
      simp only [List.head?_cons, Option.some.injEq, defaultIndex] at h2
      rw [h2]
  · rintro rfl
    exact ⟨rfl, rfl⟩

/-- The first write of `createMsgIndexBytes` in the general case never panics:
the working buffer holds any single varint. -/
theorem PutVarint_buffer (v : Int) :
    ∃ bs : List Nat, 0 < bs.length ∧ bs.length ≤ 10 ∧
      (isInt64 v → bs = zigzagVarint v) ∧
      PutVarint (List.replicate 100 0) v
        = Run.ret (bs ++ (List.replicate 100 0).drop bs.length, bs.length) := by
  let ux : Nat := if v < 0 then 2 ^ 64 - 1 - (toUint64 v <<< 1) % 2 ^ 64
    else (toUint64 v <<< 1) % 2 ^ 64
  have hux : ux < 2 ^ 64 := by
    show (if v < 0 then 2 ^ 64 - 1 - (toUint64 v <<< 1) % 2 ^ 64
      else (toUint64 v <<< 1) % 2 ^ 64) < 2 ^ 64
    split <;> omega
  refine ⟨uvarintBytes 9 ux, uvarintBytes_length_pos _ _, uvarintBytes_length_le _ _, ?_, ?_⟩
  · intro hv
    show uvarintBytes 9 (if v < 0 then 2 ^ 64 - 1 - (toUint64 v <<< 1) % 2 ^ 64
      else (toUint64 v <<< 1) % 2 ^ 64) = zigzagVarint v
    rw [PutVarint_ux v hv]
    rfl
  · have h := PutUvarint_eq 9 (List.replicate 100 0) ux (lt_trans hux (by norm_num))
    have hle := uvarintBytes_length_le 9 ux
    rw [if_pos (by simp only [List.length_replicate]; omega)] at h
    exact h

/-- What `createMsgIndexBytes` does on every path of 64-bit integers: the path
`[0]` gives the single byte 0; any other path gives its array-form header when
that header is at most 100 bytes long, and a panic of the out-of-range write
otherwise. -/
theorem createMsgIndexBytes_eq (p : List Int) (hp : ∀ v ∈ p, isInt64 v) :
    createMsgIndexBytes p =
      if p = [0] then Run.ret [0]
      else if (indexArrayHeader p).length ≤ 100 then Run.ret (indexArrayHeader p)
      else Run.panic indexOutOfRange := by
  by_cases h0 : p = [0]
  · subst h0
    rfl
  · rw [if_neg h0]
    unfold createMsgIndexBytes
    rw [if_neg (by rw [isDefaultPath_iff]; exact h0)]
    simp only []
    obtain ⟨bs, hpos, hle, hbs, hput⟩ := PutVarint_buffer (p.length : Int)
    rw [hput, Run.bind_ret]
    simp only []
    have hlen : (bs ++ (List.replicate 100 0).drop bs.length).length = 100 := by
      simp only [List.length_append, List.length_drop, List.length_replicate]
      omega
    rw [putIndexes_eq p hp _ _ (by rw [hlen]; omega), hlen]
    have hge := flatMap_zigzagVarint_length_ge p
    by_cases hlong : p.length ≤ 100
    · have hint : isInt64 (p.length : Int) := by
        unfold isInt64
        constructor <;> omega
      have hbs' := hbs hint
      subst hbs'
      unfold indexArrayHeader
      simp only [List.length_append]
      by_cases hfit : (zigzagVarint (p.length : Int)).length + (p.flatMap zigzagVarint).length ≤ 100
      · rw [if_pos hfit, if_pos hfit, Run.bind_ret]
        simp only []
        rw [List.take_left' rfl, take_append_mid _ _ _ _ rfl]
      · rw [if_neg hfit, if_neg hfit]
        rfl
    · have hzz := zigzagVarint_length_pos (p.length : Int)
      rw [if_neg (by omega), if_neg]
      · rfl
      · unfold indexArrayHeader
        simp only [List.length_append]
        omega

/-! ## Lemmas on the decoding of the index array -/

theorem set_append_length (A Z : List Int) (z e : Int) :
    (A ++ z :: Z).set A.length e = A ++ e :: Z := by
  induction A with
  | nil => rfl
  | cons a A ih => simp [ih]

/-- The element loop of `Deserialize`, run on a buffer that holds the zig-zag
varints of `p` from offset `wireFormatLen + totalBytesRead` on: it fills the
array with `p` and advances by the length of the varints. -/
theorem decodeIndexes_flatMap (p : List Int) (hp : ∀ v ∈ p, isInt64 v) (A Z : List Int)
    (pre rest : List Nat) (tot : Nat) (hpre : pre.length = wireFormatLen + tot)
    (hZ : Z.length = p.length) :
    decodeIndexes (pre ++ (p.flatMap zigzagVarint ++ rest)) p.length A.length tot (A ++ Z)
      = Run.ret (Except.ok (A ++ p, tot + (p.flatMap zigzagVarint).length)) := by
  induction p generalizing A Z pre tot with
  | nil =>
    have : Z = [] := List.length_eq_zero.mp hZ
    subst this
    simp [decodeIndexes]
  | cons e es ih =>
    have he : isInt64 e := hp e (List.mem_cons_self _ _)
    have hes : ∀ v ∈ es, isInt64 v := fun v hv => hp v (List.mem_cons_of_mem _ hv)
    match Z, hZ with
    | z :: Zs, hZ =>
      have hZs : Zs.length = es.length := by simpa using hZ
      simp only [List.length_cons, decodeIndexes, List.flatMap_cons, List.append_assoc]
      rw [if_neg (by simp only [List.length_append]; omega)]
      have hdrop : List.drop (wireFormatLen + tot)
          (pre ++ (zigzagVarint e ++ (es.flatMap zigzagVarint ++ rest)))
          = zigzagVarint e ++ (es.flatMap zigzagVarint ++ rest) := by
        rw [← hpre]; exact List.drop_left _ _
      rw [hdrop, Varint_zigzagVarint e he]
      have hk := zigzagVarint_length_pos e
      simp only []
      rw [if_neg (by omega), if_neg (by simp), set_append_length]
      have h1 : A ++ e :: Zs = (A ++ [e]) ++ Zs := by simp
      have h2 : A.length + 1 = (A ++ [e]).length := by simp
      have h3 : pre ++ (zigzagVarint e ++ (es.flatMap zigzagVarint ++ rest))
          = (pre ++ zigzagVarint e) ++ (es.flatMap zigzagVarint ++ rest) := by simp
      rw [h1, h2, h3, Int.toNat_ofNat]
      rw [ih hes (A ++ [e]) Zs (pre ++ zigzagVarint e) (tot + (zigzagVarint e).length)
        (by simp only [List.length_append]; omega) hZs]
      simp [Nat.add_assoc]

theorem zigzagVarint_zero : zigzagVarint 0 = [0] := by decide

theorem indexArrayHeader_nil : indexArrayHeader [] = [0] := by decide

/-- The index array part of `Deserialize` on a buffer that holds, from offset 5
on, the array-form header of `p`: it returns `p` and the length of the header. -/
theorem decodeMsgIndexArray_header (p : List Int) (hp : ∀ v ∈ p, isInt64 v)
    (hlen : p.length ≤ 2 ^ 45) (pre rest : List Nat) (hpre : pre.length = wireFormatLen) :
    decodeMsgIndexArray (pre ++ (indexArrayHeader p ++ rest))
      = Run.ret (Except.ok (p, (indexArrayHeader p).length)) := by
  have hint : isInt64 (p.length : Int) := by
    unfold isInt64
    constructor <;> omega
  unfold decodeMsgIndexArray
  rw [if_neg (by simp only [List.length_append]; omega)]
  have hdrop : List.drop wireFormatLen (pre ++ (indexArrayHeader p ++ rest))
      = zigzagVarint (p.length : Int) ++ (p.flatMap zigzagVarint ++ rest) := by
    rw [← hpre, List.drop_left]
    unfold indexArrayHeader
    simp
  rw [hdrop, Varint_zigzagVarint _ hint]
  have hk := zigzagVarint_length_pos (p.length : Int)
  simp only []
  rw [if_neg (by omega), if_neg (by omega)]
  have hmk : makeInt64Slice (p.length : Int) = Run.ret (List.replicate p.length 0) := by
    unfold makeInt64Slice maxAlloc
    rw [if_neg (by push_cast; omega)]
    simp
  rw [hmk, Run.bind_ret, Int.toNat_ofNat, Int.toNat_ofNat]
  have hbytes : pre ++ (indexArrayHeader p ++ rest)
      = (pre ++ zigzagVarint (p.length : Int)) ++ (p.flatMap zigzagVarint ++ rest) := by
    unfold indexArrayHeader
    simp
  rw [hbytes]
  have h := decodeIndexes_flatMap p hp [] (List.replicate p.length 0)
    (pre ++ zigzagVarint (p.length : Int)) rest (zigzagVarint (p.length : Int)).length
    (by simp only [List.length_append]; omega) (by simp)
  simp only [List.length_nil, List.nil_append] at h
  rw [h]
  unfold indexArrayHeader
  simp

/-- A path of one element from 1 to 63 gets the two-byte array form: the varint
of the length 1, then the varint of the element. -/
theorem createMsgIndexBytes_single (k : Int) (h1 : 1 ≤ k) (h63 : k ≤ 63) :
    createMsgIndexBytes [k] = Run.ret [2, (2 * k).toNat] := by
  interval_cases k <;> rfl

/-- The header that `createMsgIndexBytes` returns is the array form of the path,
except that the path `[0]` gets the array form of the empty path; and a path
with a header has at most 100 elements. -/
theorem createMsgIndexBytes_ret (p : List Int) (hp : ∀ v ∈ p, isInt64 v) (h : List Nat)
    (henc : createMsgIndexBytes p = Run.ret h) :
    h = indexArrayHeader (if p = [0] then [] else p) ∧ p.length ≤ 100 := by
  rw [createMsgIndexBytes_eq p hp] at henc
  by_cases h0 : p = [0]
  · rw [if_pos h0] at henc
    rw [if_pos h0, indexArrayHeader_nil]
    injection henc with henc
    subst h0
    exact ⟨henc.symm, by simp⟩
  · rw [if_neg h0] at henc
    rw [if_neg h0]
    by_cases hfit : (indexArrayHeader p).length ≤ 100
    · rw [if_pos hfit] at henc
      injection henc with henc
      refine ⟨henc.symm, ?_⟩
      have := flatMap_zigzagVarint_length_ge p
      unfold indexArrayHeader at hfit
      simp only [List.length_append] at hfit
      omega
    · rw [if_neg hfit] at henc
      cases henc

/-- The method `Deserialize` on a wire message whose header is the array form of
a path: it hands what follows the header to the codec. -/
theorem Deserialize_header {μ ε : Type} (Unmarshal : List Nat → μ → Option ε × μ) (pb : μ)
    (q : List Int) (hq : ∀ v ∈ q, isInt64 v) (hlen : q.length ≤ 2 ^ 45)
    (id4 payload : List Nat) (hid : id4.length = 4) :
    Deserialize Unmarshal ([0] ++ id4 ++ indexArrayHeader q ++ payload) pb
      = Run.ret (codecError (Unmarshal payload pb).1, (Unmarshal payload pb).2) := by
  have hpre : ([0] ++ id4).length = wireFormatLen := by
    simp [hid, wireFormatLen]
  have hb : [0] ++ id4 ++ indexArrayHeader q ++ payload
      = ([0] ++ id4) ++ (indexArrayHeader q ++ payload) := by simp
  have hk : 0 < (indexArrayHeader q).length := by
    have := zigzagVarint_length_pos (q.length : Int)
    unfold indexArrayHeader
    simp only [List.length_append]
    omega
  unfold Deserialize
  rw [if_neg (by simp only [List.length_append, minBytesLen, List.length_singleton]; omega),
    if_neg (by simp [magicByte])]
  rw [hb, decodeMsgIndexArray_header q hq hlen _ _ hpre, Run.bind_ret]
  simp only []
  rw [if_neg (by simp only [List.length_append, ← hpre]; omega)]
  have hdrop : List.drop (wireFormatLen + (indexArrayHeader q).length)
      ([0] ++ id4 ++ (indexArrayHeader q ++ payload)) = payload := by
    rw [← hpre, ← List.append_assoc, ← List.length_append]
    exact List.drop_left _ _
  rw [hdrop]
  unfold codecError
  cases (Unmarshal payload pb).1 <;> rfl

/-! ## Lemmas on `Deserialize` and `Serialize` -/

/-- The only error of the element loop is the index-value error. -/
theorem decodeIndexes_error (bytes : List Nat) (n i tot : Nat) (arr : List Int) (msg : String)
    (h : decodeIndexes bytes n i tot arr = Run.ret (Except.error msg)) :
    msg = msgIndexValueErrMsg := by
  induction n generalizing i tot arr with
  | zero => simp [decodeIndexes] at h
  | succ n ih =>
    unfold decodeIndexes at h
    split at h
    · cases h
    · simp only [] at h
      split at h
      · injection h with h
        injection h with h
        exact h.symm
      · split at h
        · cases h
        · exact ih _ _ _ h

theorem msgIndexValueErrMsg_ne : msgIndexValueErrMsg ≠ msgIndexErrMsg := by decide

/-- Reading back the four bytes that `PutUint32` wrote. -/
theorem Uint32_PutUint32 (v : Nat) (hv : v < 2 ^ 32) : Uint32 (PutUint32 v) = v := by
  unfold Uint32 PutUint32
  simp only [List.getD_cons_zero, List.getD_cons_succ, Nat.shiftLeft_eq,
    Nat.shiftRight_eq_div_pow]
  have h0 : v % 256 < 2 ^ 8 := by omega
  rw [lor_mul_two_pow _ _ 8 h0]
  have h1 : v % 256 + v / 2 ^ 8 % 256 * 2 ^ 8 < 2 ^ 16 := by omega
  rw [lor_mul_two_pow _ _ 16 h1]
  have h2 : v % 256 + v / 2 ^ 8 % 256 * 2 ^ 8 + v / 2 ^ 16 % 256 * 2 ^ 16 < 2 ^ 24 := by omega
  rw [lor_mul_two_pow _ _ 24 h2]
  omega

theorem PutUint32_length (v : Nat) : (PutUint32 v).length = 4 := rfl

/-- The method `getSchemaID` leaves the index header of the serializer alone. -/
theorem getSchemaID_msgIndexBytes {ρ ε μ : Type} (env : Env ρ ε μ) (ps : ProtobufSerializer)
    (ctx : SerializationContext) (md : Descriptor) (subject : String) (reg : Registry ρ) :
    (getSchemaID env ps ctx md subject reg).2.1.msgIndexBytes = ps.msgIndexBytes := by
  unfold getSchemaID
  split
  · rfl
  · simp only []
    split <;> rfl

/-- A successful `Serialize` resolved a schema ID, got the payload from the
codec, and returns magic byte, schema ID, index header and payload. -/
theorem Serialize_ok {ρ ε μ : Type} (env : Env ρ ε μ) (ps : ProtobufSerializer) (msg : μ)
    (ctx : SerializationContext) (reg : Registry ρ) (out : List Nat) (ps' : ProtobufSerializer)
    (reg' : Registry ρ) (h : Serialize env ps msg ctx reg = (Except.ok out, ps', reg')) :
    ∃ (schemaID : Int) (payload : List Nat),
      getSchemaID env ps ctx (env.DescriptorOf msg)
        (ps.subjectNameStrategy ctx (env.DescriptorOf msg).FullName) reg
        = (Except.ok schemaID, ps', reg') ∧
      env.Marshal msg = Except.ok payload ∧
      out = [0] ++ PutUint32 (toUint32 schemaID) ++ ps.msgIndexBytes ++ payload := by
  unfold Serialize at h
  simp only [] at h
  have hidx := getSchemaID_msgIndexBytes env ps ctx (env.DescriptorOf msg)
    (ps.subjectNameStrategy ctx (env.DescriptorOf msg).FullName) reg
  split at h
  · cases h
  · rename_i schemaID ps1 reg1 hget
    split at h
    · cases h
    · rename_i bytes hm
      injection h with h1 h2
      injection h2 with h2 h3
      subst h2 h3
      rw [hget] at hidx
      simp only [] at hidx
      refine ⟨schemaID, bytes, hget, hm, ?_⟩
      injection h1 with h1
      rw [← h1, hidx]
      simp

/-! ## The index array header: round trip (C1, C2, C3) -/

/-- C1, as the code has it. For every index path `p` of non-negative 64-bit
integers whose header `createMsgIndexBytes` returns, the index array that
`Deserialize` decodes from offset 5 of a buffer holding that header (after any
five bytes, before any bytes) is exactly `p`, unless `p` is `[0]`: the one-byte
form of `[0]` is read as an array of length 0, so the decoded array is empty. -/
theorem C1_decoded_values (p : List Int) (h pre rest : List Nat)
    (hp : ∀ v ∈ p, 0 ≤ v ∧ v < 2 ^ 63)
    (henc : createMsgIndexBytes p = Run.ret h) (hpre : pre.length = wireFormatLen) :
    ∃ n, decodeMsgIndexArray (pre ++ h ++ rest)
      = Run.ret (Except.ok (if p = [0] then [] else p, n)) := by
  have hp' : ∀ v ∈ p, isInt64 v := fun v hv => ⟨by have := (hp v hv).1; omega, (hp v hv).2⟩
  obtain ⟨hh, hlen⟩ := createMsgIndexBytes_ret p hp' h henc
  have hq : ∀ v ∈ (if p = [0] then [] else p), isInt64 v := by
    split
    · intro v hv; cases hv
    · exact hp'
  have hql : (if p = [0] then ([] : List Int) else p).length ≤ 2 ^ 45 := by
    split
    · simp
    · omega
  refine ⟨h.length, ?_⟩
  rw [List.append_assoc, hh]
  exact decodeMsgIndexArray_header _ hq hql pre rest hpre

/-- C1 at the path `[1, 200]`, whose header is `[4, 2, 144, 3]`. -/
theorem C1_decoded_values_witness :
    ∃ n, decodeMsgIndexArray ([0, 0, 0, 0, 0] ++ [4, 2, 144, 3] ++ [9])
      = Run.ret (Except.ok (if ([1, 200] : List Int) = [0] then [] else [1, 200], n)) :=
  C1_decoded_values [1, 200] [4, 2, 144, 3] [0, 0, 0, 0, 0] [9] (by decide) (by decide) (by decide)

/-- C1 as stated fails at the path `[0]`: its header is the single byte 0, from
which `Deserialize` decodes the empty array, not `[0]`. -/
theorem C1_counterexample :
    createMsgIndexBytes [0] = Run.ret [0] ∧
      decodeMsgIndexArray ([0, 0, 0, 0, 0] ++ [0]) = Run.ret (Except.ok ([], 1)) ∧
      ([] : List Int) ≠ [0] := by
  decide

/-- C2. For every index path `p` of non-negative 64-bit integers whose header
`createMsgIndexBytes` returns, and whatever bytes follow the header, the index
array decoding of `Deserialize` ends with `totalBytesRead` equal to the length
of the header, and its result does not depend on the bytes that follow. -/
theorem C2_decoded_length (p : List Int) (h pre : List Nat)
    (hp : ∀ v ∈ p, 0 ≤ v ∧ v < 2 ^ 63)
    (henc : createMsgIndexBytes p = Run.ret h) (hpre : pre.length = wireFormatLen) :
    ∃ msgIndexArray, ∀ rest : List Nat,
      decodeMsgIndexArray (pre ++ h ++ rest) = Run.ret (Except.ok (msgIndexArray, h.length)) := by
  have hp' : ∀ v ∈ p, isInt64 v := fun v hv => ⟨by have := (hp v hv).1; omega, (hp v hv).2⟩
  obtain ⟨hh, hlen⟩ := createMsgIndexBytes_ret p hp' h henc
  have hq : ∀ v ∈ (if p = [0] then [] else p), isInt64 v := by
    split
    · intro v hv; cases hv
    · exact hp'
  have hql : (if p = [0] then ([] : List Int) else p).length ≤ 2 ^ 45 := by
    split
    · simp
    · omega
  refine ⟨if p = [0] then [] else p, fun rest => ?_⟩
  rw [List.append_assoc, hh]
  exact decodeMsgIndexArray_header _ hq hql pre rest hpre

/-- C2 at the path `[1, 2, 3]`, whose header is `[6, 2, 4, 6]`. -/
theorem C2_decoded_length_witness :
    ∃ msgIndexArray, ∀ rest : List Nat,
      decodeMsgIndexArray ([0, 0, 0, 0, 7] ++ [6, 2, 4, 6] ++ rest)
        = Run.ret (Except.ok (msgIndexArray, [6, 2, 4, 6].length)) :=
  C2_decoded_length [1, 2, 3] [6, 2, 4, 6] [0, 0, 0, 0, 7] (by decide) (by decide) (by decide)

/-- C3. For every four schema-ID bytes, every header `h` that
`createMsgIndexBytes` returns for a path of 64-bit integers, and every payload,
`Deserialize` on `0 ++ id ++ h ++ payload` calls the codec on exactly the payload
and returns what the codec returns. Hence `Deserialize` on the output of a
successful `Serialize`, by a serializer whose index header is such an `h`, calls
the codec on exactly the bytes that `proto.Marshal` produced for the message. -/
theorem C3_payload_recovery {μ ε : Type} (Unmarshal : List Nat → μ → Option ε × μ) (pb : μ)
    (p : List Int) (h : List Nat) (hp : ∀ v ∈ p, isInt64 v)
    (henc : createMsgIndexBytes p = Run.ret h) :
    (∀ id4 payload : List Nat, id4.length = 4 →
      Deserialize Unmarshal ([0] ++ id4 ++ h ++ payload) pb
        = Run.ret (codecError (Unmarshal payload pb).1, (Unmarshal payload pb).2)) ∧
    (∀ {ρ ε' μ' : Type} (env : Env ρ ε' μ') (ps ps' : ProtobufSerializer) (msg : μ')
      (ctx : SerializationContext) (reg reg' : Registry ρ) (out : List Nat),
      ps.msgIndexBytes = h →
      Serialize env ps msg ctx reg = (Except.ok out, ps', reg') →
      ∃ payload, env.Marshal msg = Except.ok payload ∧
        Deserialize Unmarshal out pb
          = Run.ret (codecError (Unmarshal payload pb).1, (Unmarshal payload pb).2)) := by
  obtain ⟨hh, hlen⟩ := createMsgIndexBytes_ret p hp h henc
  have hq : ∀ v ∈ (if p = [0] then [] else p), isInt64 v := by
    split
    · intro v hv; cases hv
    · exact hp
  have hql : (if p = [0] then ([] : List Int) else p).length ≤ 2 ^ 45 := by
    split
    · simp
    · omega
  have key : ∀ id4 payload : List Nat, id4.length = 4 →
      Deserialize Unmarshal ([0] ++ id4 ++ h ++ payload) pb
        = Run.ret (codecError (Unmarshal payload pb).1, (Unmarshal payload pb).2) := by
    intro id4 payload hid
    rw [hh]
    exact Deserialize_header Unmarshal pb _ hq hql id4 payload hid
  refine ⟨key, ?_⟩
  intro ρ ε' μ' env ps ps' msg ctx reg reg' out hps hser
  obtain ⟨schemaID, payload, _, hm, hout⟩ := Serialize_ok env ps msg ctx reg out ps' reg' hser
  refine ⟨payload, hm, ?_⟩
  rw [hout, hps]
  exact key _ _ (PutUint32_length _)

/-- C3 at the header `[2, 4]` of the path `[2]`, with a codec that stores the
bytes it is given. -/
theorem C3_payload_recovery_witness :
    (∀ id4 payload : List Nat, id4.length = 4 →
      Deserialize (fun (b : List Nat) (_ : List Nat) => ((none : Option Unit), b))
          ([0] ++ id4 ++ [2, 4] ++ payload) []
        = Run.ret (codecError (none : Option Unit), payload)) ∧
    (∀ {ρ ε' μ' : Type} (env : Env ρ ε' μ') (ps ps' : ProtobufSerializer) (msg : μ')
      (ctx : SerializationContext) (reg reg' : Registry ρ) (out : List Nat),
      ps.msgIndexBytes = [2, 4] →
      Serialize env ps msg ctx reg = (Except.ok out, ps', reg') →
      ∃ payload, env.Marshal msg = Except.ok payload ∧
        Deserialize (fun (b : List Nat) (_ : List Nat) => ((none : Option Unit), b)) out []
          = Run.ret (codecError (none : Option Unit), payload)) :=
  C3_payload_recovery (fun (b : List Nat) (_ : List Nat) => ((none : Option Unit), b)) []
    [2] [2, 4] (by decide) (by decide)

/-! ## The wire layout and the encoding of the index header (C4, C5, C6, C7) -/

/-- C4. Whenever `Serialize` succeeds, `getSchemaID` resolved a schema ID, the
codec encoded the message, and the output is exactly the byte 0, then the four
bytes of `uint32(schemaID)` in big-endian order, then the index header of the
serializer, then the payload of the codec; the header of the serializer is not
changed by the call, and for `0 ≤ schemaID < 2 ^ 32` reading bytes 1 to 4 as a
big-endian `uint32` gives `schemaID` back. -/
theorem C4_Serialize_layout {ρ ε μ : Type} (env : Env ρ ε μ) (ps ps' : ProtobufSerializer)
    (msg : μ) (ctx : SerializationContext) (reg reg' : Registry ρ) (out : List Nat)
    (h : Serialize env ps msg ctx reg = (Except.ok out, ps', reg')) :
    ∃ (schemaID : Int) (payload : List Nat),
      getSchemaID env ps ctx (env.DescriptorOf msg)
        (ps.subjectNameStrategy ctx (env.DescriptorOf msg).FullName) reg
        = (Except.ok schemaID, ps', reg') ∧
      env.Marshal msg = Except.ok payload ∧
      out = [0] ++ [(toUint32 schemaID / 2 ^ 24) % 256, (toUint32 schemaID / 2 ^ 16) % 256,
          (toUint32 schemaID / 2 ^ 8) % 256, toUint32 schemaID % 256]
        ++ ps.msgIndexBytes ++ payload ∧
      ps'.msgIndexBytes = ps.msgIndexBytes ∧
      (0 ≤ schemaID → schemaID < 2 ^ 32 → (Uint32 ((out.drop 1).take 4) : Int) = schemaID) := by
  obtain ⟨schemaID, payload, hget, hm, hout⟩ := Serialize_ok env ps msg ctx reg out ps' reg' h
  have hidx := getSchemaID_msgIndexBytes env ps ctx (env.DescriptorOf msg)
    (ps.subjectNameStrategy ctx (env.DescriptorOf msg).FullName) reg
  rw [hget] at hidx
  refine ⟨schemaID, payload, hget, hm, ?_, hidx, ?_⟩
  · rw [hout]
    simp [PutUint32, Nat.shiftRight_eq_div_pow]
  · intro h0 h32
    have hu : toUint32 schemaID < 2 ^ 32 := by
      unfold toUint32
      omega
    have hbytes : (out.drop 1).take 4 = PutUint32 (toUint32 schemaID) := by
      rw [hout]
      simp [PutUint32]
    rw [hbytes, Uint32_PutUint32 _ hu]
    unfold toUint32
    omega

/-- C4 on a message of the file `a.proto`, with a registry that answers every
call with the schema ID 258. -/
theorem C4_Serialize_layout_witness :
    ∃ (schemaID : Int) (payload : List Nat),
      getSchemaID
        ({ client := fun (n : Nat) _ => (Except.ok { id := 258, version := 1 }, n + 1),
           Marshal := fun (m : List Nat) => (Except.ok m : Except Unit (List Nat)),
           DescriptorOf := fun _ =>
             Descriptor.message "pkg.M" 2 (Descriptor.file (FileDescriptor.mk "a.proto" [])),
           fileDescriptorToString := fun fd => Except.ok fd.Path } : Env Nat Unit (List Nat))
        { msgIndexBytes := [2, 4], autoRegisterSchemas := true, useLatestVersion := false,
          skipKnownTypes := false, knownSubjects := [],
          subjectNameStrategy := TopicSubjectNameStrategy,
          referenceSubjectNameStrategy := ReferenceSubjectNameStrategy }
        { Topic := "t", Field := MessageFieldValue }
        (Descriptor.message "pkg.M" 2 (Descriptor.file (FileDescriptor.mk "a.proto" [])))
        (TopicSubjectNameStrategy { Topic := "t", Field := MessageFieldValue } "pkg.M")
        { state := 0, calls := [] }
        = (Except.ok schemaID,
            { msgIndexBytes := [2, 4], autoRegisterSchemas := true, useLatestVersion := false,
              skipKnownTypes := false, knownSubjects := [("t-value", 258)],
              subjectNameStrategy := TopicSubjectNameStrategy,
              referenceSubjectNameStrategy := ReferenceSubjectNameStrategy },
            { state := 1,
              calls := [RegistryCall.CreateSchema "t-value" "a.proto" SchemaType.Protobuf []] }) ∧
      (Except.ok [7, 8] : Except Unit (List Nat)) = Except.ok payload ∧
      [0, 0, 0, 1, 2, 2, 4, 7, 8]
        = [0] ++ [(toUint32 schemaID / 2 ^ 24) % 256, (toUint32 schemaID / 2 ^ 16) % 256,
            (toUint32 schemaID / 2 ^ 8) % 256, toUint32 schemaID % 256]
          ++ [2, 4] ++ payload ∧
      [2, 4] = [2, 4] ∧
      (0 ≤ schemaID → schemaID < 2 ^ 32 →
        (Uint32 (([0, 0, 0, 1, 2, 2, 4, 7, 8] : List Nat).drop 1 |>.take 4) : Int) = schemaID) :=
  C4_Serialize_layout
    ({ client := fun (n : Nat) _ => (Except.ok { id := 258, version := 1 }, n + 1),
       Marshal := fun (m : List Nat) => (Except.ok m : Except Unit (List Nat)),
       DescriptorOf := fun _ =>
         Descriptor.message "pkg.M" 2 (Descriptor.file (FileDescriptor.mk "a.proto" [])),
       fileDescriptorToString := fun fd => Except.ok fd.Path } : Env Nat Unit (List Nat))
    { msgIndexBytes := [2, 4], autoRegisterSchemas := true, useLatestVersion := false,
      skipKnownTypes := false, knownSubjects := [],
      subjectNameStrategy := TopicSubjectNameStrategy,
      referenceSubjectNameStrategy := ReferenceSubjectNameStrategy }
    { msgIndexBytes := [2, 4], autoRegisterSchemas := true, useLatestVersion := false,
      skipKnownTypes := false, knownSubjects := [("t-value", 258)],
      subjectNameStrategy := TopicSubjectNameStrategy,
      referenceSubjectNameStrategy := ReferenceSubjectNameStrategy }
    [7, 8] { Topic := "t", Field := MessageFieldValue } { state := 0, calls := [] }
    { state := 1,
      calls := [RegistryCall.CreateSchema "t-value" "a.proto" SchemaType.Protobuf []] }
    [0, 0, 0, 1, 2, 2, 4, 7, 8] rfl

/-- C5. The eight encoding vectors of the test of `createMsgIndexBytes`. -/
theorem C5_encoding_vectors :
    createMsgIndexBytes [0] = Run.ret [0] ∧
    createMsgIndexBytes [1] = Run.ret [2, 2] ∧
    createMsgIndexBytes [2] = Run.ret [2, 4] ∧
    createMsgIndexBytes [0, 0] = Run.ret [4, 0, 0] ∧
    createMsgIndexBytes [0, 2] = Run.ret [4, 0, 4] ∧
    createMsgIndexBytes [2, 2] = Run.ret [4, 4, 4] ∧
    createMsgIndexBytes [1, 2, 3] = Run.ret [6, 2, 4, 6] ∧
    createMsgIndexBytes [1, 200] = Run.ret [4, 2, 144, 3] := by
  decide

set_option maxRecDepth 100000 in
/-- C6 at a path that is not `[0]`: for the path of fifty elements 64 (a message
nested fifty levels deep, each level the 65th message of its parent) the
array-form header is 101 bytes long, and `createMsgIndexBytes` does not return
it: the write of the last byte is past the 100-byte working buffer and panics. -/
theorem C6_long_path_panics :
    (List.replicate 50 (64 : Int) ≠ [0]) ∧
    (indexArrayHeader (List.replicate 50 64)).length = 101 ∧
    createMsgIndexBytes (List.replicate 50 64) = Run.panic indexOutOfRange := by
  decide

set_option maxRecDepth 100000 in
/-- C7 at the path of 99 zeroes (a message nested 99 levels deep):
`createMsgIndexBytes` panics, the write of the last element being past the
100-byte working buffer; the path of 98 zeroes is the longest such path that
still fits. -/
theorem C7_buffer_overrun :
    createMsgIndexBytes (List.replicate 99 0) = Run.panic indexOutOfRange ∧
    (∃ h, createMsgIndexBytes (List.replicate 98 0) = Run.ret h ∧ h.length = 100) := by
  refine ⟨by decide, _, rfl, by decide⟩

/-! ## The errors of `Deserialize` (C8, C9, C10) -/

/-- C8, as the code has it. For every buffer of at least six bytes whose first
byte is not 0, whatever the remaining content, `Deserialize` returns the
unknown-magic-byte error, and leaves the message as it was. (A shorter buffer
gets the message-too-small error, since the length is checked first.) -/
theorem C8_magic_byte {μ ε : Type} (Unmarshal : List Nat → μ → Option ε × μ)
    (bytes : List Nat) (pb : μ)
    (hlen : minBytesLen ≤ bytes.length) (hfirst : bytes.head? ≠ some magicByte) :
    Deserialize Unmarshal bytes pb = Run.ret (some (GoError.errorf magicByteErrMsg), pb) := by
  unfold Deserialize
  rw [if_neg (by omega), if_pos hfirst]

/-- C8 at the buffer `[1, 0, 0, 0, 0, 0]` of the test. -/
theorem C8_magic_byte_witness :
    Deserialize (fun (_ : List Nat) (m : Unit) => ((none : Option Unit), m)) [1, 0, 0, 0, 0, 0] ()
      = Run.ret (some (GoError.errorf magicByteErrMsg), ()) :=
  C8_magic_byte (fun (_ : List Nat) (m : Unit) => ((none : Option Unit), m)) [1, 0, 0, 0, 0, 0] ()
    (by decide) (by decide)

/-- C8 as stated fails at the five-byte buffer `[1, 0, 0, 0, 0]`: its first byte
is not 0, and `Deserialize` returns the message-too-small error, which is not
the unknown-magic-byte error. -/
theorem C8_counterexample :
    Deserialize (fun (_ : List Nat) (m : Unit) => ((none : Option Unit), m)) [1, 0, 0, 0, 0] ()
        = Run.ret (some (GoError.errorf tooSmallErrMsg), ()) ∧
      Deserialize (fun (_ : List Nat) (m : Unit) => ((none : Option Unit), m)) [1, 0, 0, 0, 0] ()
        ≠ Run.ret (some (GoError.errorf magicByteErrMsg), ()) := by
  decide

/-- C9. For every buffer of fewer than six bytes, the empty one included,
`Deserialize` returns the message-too-small error; the result is the same for
every codec and the message is left as it was, the return being ahead of the
varint decoding and of the call of the codec. -/
theorem C9_too_small {μ ε : Type} (Unmarshal : List Nat → μ → Option ε × μ)
    (bytes : List Nat) (pb : μ) (hlen : bytes.length < 6) :
    Deserialize Unmarshal bytes pb = Run.ret (some (GoError.errorf tooSmallErrMsg), pb) := by
  unfold Deserialize
  rw [if_pos (by unfold minBytesLen; omega)]

/-- C9 at the buffer `[0, 0, 0, 0, 0]` of the test. -/
theorem C9_too_small_witness :
    Deserialize (fun (b : List Nat) (_ : List Nat) => (some "called", b)) [0, 0, 0, 0, 0] []
      = Run.ret (some (GoError.errorf tooSmallErrMsg), []) :=
  C9_too_small (fun (b : List Nat) (_ : List Nat) => (some "called", b)) [0, 0, 0, 0, 0] []
    (by decide)

/-- C10. For every buffer of at least six bytes whose first byte is 0,
`Deserialize` returns the error "unable to decode message index array" if and
only if `binary.Varint` on the bytes from offset 5 reports zero or a negative
number of bytes read (truncated or overflowing varint) or gives a negative array
length; and it then leaves the message as it was. -/
theorem C10_array_length_error {μ ε : Type} (Unmarshal : List Nat → μ → Option ε × μ)
    (bytes : List Nat) (pb : μ)
    (hlen : minBytesLen ≤ bytes.length) (hfirst : bytes.head? = some magicByte) :
    ((∃ pb', Deserialize Unmarshal bytes pb
        = Run.ret (some (GoError.errorf msgIndexErrMsg), pb')) ↔
      ((Varint (bytes.drop wireFormatLen)).2 ≤ 0 ∨ (Varint (bytes.drop wireFormatLen)).1 < 0)) ∧
    (((Varint (bytes.drop wireFormatLen)).2 ≤ 0 ∨ (Varint (bytes.drop wireFormatLen)).1 < 0) →
      Deserialize Unmarshal bytes pb = Run.ret (some (GoError.errorf msgIndexErrMsg), pb)) := by
  have hwl : ¬ wireFormatLen > bytes.length := by
    unfold minBytesLen at hlen
    unfold wireFormatLen
    omega
  have hback : ((Varint (bytes.drop wireFormatLen)).2 ≤ 0 ∨ (Varint (bytes.drop wireFormatLen)).1 < 0) →
      Deserialize Unmarshal bytes pb = Run.ret (some (GoError.errorf msgIndexErrMsg), pb) := by
    intro hc
    unfold Deserialize
    rw [if_neg (by omega), if_neg (by simp [hfirst])]
    unfold decodeMsgIndexArray
    rw [if_neg hwl]
    simp only []
    by_cases hneg : (Varint (bytes.drop wireFormatLen)).1 < 0
    · rw [if_pos hneg]
      rfl
    · rw [if_neg hneg]
      have hread : (Varint (bytes.drop wireFormatLen)).2 ≤ 0 := by
        rcases hc with hc | hc
        · exact hc
        · exact absurd hc hneg
      rw [if_pos hread]
      rfl
  refine ⟨⟨?_, fun hc => ⟨pb, hback hc⟩⟩, hback⟩
  rintro ⟨pb', hD⟩
  by_contra hc
  push_neg at hc
  obtain ⟨hread, hneg⟩ := hc
  unfold Deserialize at hD
  rw [if_neg (by omega), if_neg (by simp [hfirst])] at hD
  unfold decodeMsgIndexArray at hD
  rw [if_neg hwl] at hD
  simp only [] at hD
  rw [if_neg (by omega), if_neg (by omega)] at hD
  cases hmk : makeInt64Slice (Varint (bytes.drop wireFormatLen)).1 with
  | panic m =>
    rw [hmk] at hD
    cases hD
  | ret arr =>
    rw [hmk, Run.bind_ret] at hD
    cases hloop : decodeIndexes bytes (Varint (bytes.drop wireFormatLen)).1.toNat 0
        (Varint (bytes.drop wireFormatLen)).2.toNat arr with
    | panic m =>
      rw [hloop] at hD
      cases hD
    | ret d =>
      rw [hloop, Run.bind_ret] at hD
      cases d with
      | error msg =>
        have hmsg := decodeIndexes_error _ _ _ _ _ _ hloop
        subst hmsg
        simp only [] at hD
        injection hD with hD
        injection hD with hD _
        injection hD with hD
        injection hD with hD
        exact msgIndexValueErrMsg_ne hD
      | ok r =>
        obtain ⟨a, tot⟩ := r
        simp only [] at hD
        split at hD
        · cases hD
        · split at hD
          · injection hD with hD
            injection hD with hD _
            injection hD with hD
            cases hD
          · injection hD with hD
            injection hD with hD _
            cases hD

/-- C10 at the buffer `[0, 0, 0, 0, 0, 3, 0]` of the test, whose array length
decodes to -2. -/
theorem C10_array_length_error_witness :
    ((∃ pb', Deserialize (fun (b : List Nat) (_ : List Nat) => ((none : Option Unit), b))
          [0, 0, 0, 0, 0, 3, 0] []
        = Run.ret (some (GoError.errorf msgIndexErrMsg), pb')) ↔
      ((Varint (([0, 0, 0, 0, 0, 3, 0] : List Nat).drop wireFormatLen)).2 ≤ 0 ∨
        (Varint (([0, 0, 0, 0, 0, 3, 0] : List Nat).drop wireFormatLen)).1 < 0)) ∧
    (((Varint (([0, 0, 0, 0, 0, 3, 0] : List Nat).drop wireFormatLen)).2 ≤ 0 ∨
        (Varint (([0, 0, 0, 0, 0, 3, 0] : List Nat).drop wireFormatLen)).1 < 0) →
      Deserialize (fun (b : List Nat) (_ : List Nat) => ((none : Option Unit), b))
          [0, 0, 0, 0, 0, 3, 0] []
        = Run.ret (some (GoError.errorf msgIndexErrMsg), [])) :=
  C10_array_length_error (fun (b : List Nat) (_ : List Nat) => ((none : Option Unit), b))
    [0, 0, 0, 0, 0, 3, 0] [] (by decide) (by decide)

/-! ## Lemmas on the element loop of `Deserialize` -/

theorem uvarintLoop_bytesRead_le (buf : List Nat) (i x s : Nat) :
    (uvarintLoop buf i x s).2 ≤ ((i + buf.length : Nat) : Int) := by
  induction buf generalizing i x s with
  | nil => simp [uvarintLoop]
  | cons b rest ih =>
    unfold uvarintLoop
    split
    · simp only [List.length_cons]; omega
    · split
      · split
        · simp only [List.length_cons]; omega
        · simp only [List.length_cons]; omega
      · have := ih (i + 1) (x ||| (((b &&& 0x7f) <<< s) % 2 ^ 64)) (s + 7)
        simp only [List.length_cons]
        omega

/-- The function `binary.Varint` never reports more bytes than the buffer has. -/
theorem Varint_bytesRead_le (buf : List Nat) : (Varint buf).2 ≤ (buf.length : Int) := by
  have := uvarintLoop_bytesRead_le buf 0 0 0
  unfold Varint Uvarint
  simpa using this

/-- The bytes of `n` varints are at least `n` and at most the buffer. -/
theorem skipVarints_bounds (n : Nat) (buf : List Nat) (m : Nat)
    (h : skipVarints n buf = some m) : n ≤ m ∧ m ≤ buf.length := by
  induction n generalizing buf m with
  | zero =>
    simp only [skipVarints, Option.some.injEq] at h
    omega
  | succ n ih =>
    unfold skipVarints at h
    split at h
    · cases h
    · rename_i hpos
      have hle := Varint_bytesRead_le buf
      cases hrec : skipVarints n (buf.drop (Varint buf).2.toNat) with
      | none => rw [hrec] at h; cases h
      | some m' =>
        rw [hrec] at h
        simp only [Option.map_some', Option.some.injEq] at h
        have := ih _ _ hrec
        simp only [List.length_drop] at this
        omega

/-- The element loop of `Deserialize` against `skipVarints`: the loop returns the
index-value error when fewer than `n` well-formed varints follow, and otherwise
ends with `totalBytesRead` advanced by the bytes of the `n` varints. -/
theorem decodeIndexes_skipVarints (bytes : List Nat) (n i tot : Nat) (arr : List Int)
    (hb : wireFormatLen + tot ≤ bytes.length) (harr : i + n ≤ arr.length) :
    (skipVarints n (bytes.drop (wireFormatLen + tot)) = none →
      decodeIndexes bytes n i tot arr = Run.ret (Except.error msgIndexValueErrMsg)) ∧
    (∀ m, skipVarints n (bytes.drop (wireFormatLen + tot)) = some m →
      ∃ arr', decodeIndexes bytes n i tot arr = Run.ret (Except.ok (arr', tot + m))) := by
  induction n generalizing i tot arr with
  | zero =>
    constructor
    · intro h; simp [skipVarints] at h
    · intro m h
      simp only [skipVarints, Option.some.injEq] at h
      subst h
      exact ⟨arr, rfl⟩
  | succ n ih =>
    have hle := Varint_bytesRead_le (bytes.drop (wireFormatLen + tot))
    simp only [List.length_drop] at hle
    have hnb : ¬ (wireFormatLen + tot > bytes.length) := by omega
    have hni : ¬ (i ≥ arr.length) := by omega
    unfold decodeIndexes skipVarints
    rw [if_neg hnb]
    simp only []
    by_cases hread : (Varint (bytes.drop (wireFormatLen + tot))).2 ≤ 0
    · rw [if_pos hread, if_pos hread]
      exact ⟨fun _ => rfl, fun m h => by cases h⟩
    · rw [if_neg hread, if_neg hread, if_neg hni]
      have hb' : wireFormatLen + (tot + (Varint (bytes.drop (wireFormatLen + tot))).2.toNat)
          ≤ bytes.length := by omega
      have harr' : i + 1 + n
          ≤ (arr.set i (Varint (bytes.drop (wireFormatLen + tot))).1).length := by
        rw [List.length_set]; omega
      have hdrop : (bytes.drop (wireFormatLen + tot)).drop
            (Varint (bytes.drop (wireFormatLen + tot))).2.toNat
          = bytes.drop
            (wireFormatLen + (tot + (Varint (bytes.drop (wireFormatLen + tot))).2.toNat)) := by
        rw [List.drop_drop]
        congr 1
        omega
      obtain ⟨ih1, ih2⟩ := ih (i + 1) (tot + (Varint (bytes.drop (wireFormatLen + tot))).2.toNat)
        (arr.set i (Varint (bytes.drop (wireFormatLen + tot))).1) hb' harr'
      rw [hdrop]
      constructor
      · intro h
        apply ih1
        cases hrec : skipVarints n (bytes.drop
            (wireFormatLen + (tot + (Varint (bytes.drop (wireFormatLen + tot))).2.toNat))) with
        | none => rfl
        | some m' => rw [hrec] at h; cases h
      · intro m h
        cases hrec : skipVarints n (bytes.drop
            (wireFormatLen + (tot + (Varint (bytes.drop (wireFormatLen + tot))).2.toNat))) with
        | none => rw [hrec] at h; cases h
        | some m' =>
          rw [hrec] at h
          simp only [Option.map_some', Option.some.injEq] at h
          obtain ⟨arr', ha⟩ := ih2 m' hrec
          refine ⟨arr', ?_⟩
          rw [ha, ← h]
          simp [Nat.add_assoc]

/-- The method `Deserialize` on a buffer that passed the length, magic and
array-length checks and whose index array can be allocated: it returns the
index-value error when fewer than `arrayLen` well-formed varints follow the
length, and otherwise hands the bytes after those varints to the codec. -/
theorem Deserialize_elements {μ ε : Type} (Unmarshal : List Nat → μ → Option ε × μ)
    (bytes : List Nat) (pb : μ) (hlen : minBytesLen ≤ bytes.length)
    (hfirst : bytes.head? = some magicByte)
    (hn : 0 ≤ (Varint (bytes.drop wireFormatLen)).1)
    (hk : 0 < (Varint (bytes.drop wireFormatLen)).2)
    (halloc : 8 * (Varint (bytes.drop wireFormatLen)).1 ≤ (maxAlloc : Int)) :
    (skipVarints (Varint (bytes.drop wireFormatLen)).1.toNat
        (bytes.drop (wireFormatLen + (Varint (bytes.drop wireFormatLen)).2.toNat)) = none →
      Deserialize Unmarshal bytes pb
        = Run.ret (some (GoError.errorf msgIndexValueErrMsg), pb)) ∧
    (∀ m, skipVarints (Varint (bytes.drop wireFormatLen)).1.toNat
        (bytes.drop (wireFormatLen + (Varint (bytes.drop wireFormatLen)).2.toNat)) = some m →
      Deserialize Unmarshal bytes pb
        = Run.ret
          (codecError (Unmarshal (bytes.drop
            (wireFormatLen + ((Varint (bytes.drop wireFormatLen)).2.toNat + m))) pb).1,
           (Unmarshal (bytes.drop
            (wireFormatLen + ((Varint (bytes.drop wireFormatLen)).2.toNat + m))) pb).2)) := by
  have hwl : ¬ wireFormatLen > bytes.length := by
    unfold minBytesLen at hlen
    unfold wireFormatLen
    omega
  have hle := Varint_bytesRead_le (bytes.drop wireFormatLen)
  simp only [List.length_drop] at hle
  have hb : wireFormatLen + (Varint (bytes.drop wireFormatLen)).2.toNat ≤ bytes.length := by
    omega
  have hmk : makeInt64Slice (Varint (bytes.drop wireFormatLen)).1
      = Run.ret (List.replicate (Varint (bytes.drop wireFormatLen)).1.toNat 0) := by
    unfold makeInt64Slice
    rw [if_neg (by omega)]
  obtain ⟨h1, h2⟩ := decodeIndexes_skipVarints bytes (Varint (bytes.drop wireFormatLen)).1.toNat 0
    (Varint (bytes.drop wireFormatLen)).2.toNat
    (List.replicate (Varint (bytes.drop wireFormatLen)).1.toNat 0) hb (by simp)
  have hD : Deserialize Unmarshal bytes pb
      = (decodeIndexes bytes (Varint (bytes.drop wireFormatLen)).1.toNat 0
          (Varint (bytes.drop wireFormatLen)).2.toNat
          (List.replicate (Varint (bytes.drop wireFormatLen)).1.toNat 0)).bind fun d =>
        match d with
        | Except.error msg => Run.ret (some (GoError.errorf msg), pb)
        | Except.ok (_, totalBytesRead) =>
          if wireFormatLen + totalBytesRead > bytes.length then Run.panic sliceOutOfRange
          else
            let r := Unmarshal (bytes.drop (wireFormatLen + totalBytesRead)) pb
            match r.1 with
            | some err => Run.ret (some (GoError.foreign err), r.2)
            | none => Run.ret (none, r.2) := by
    unfold Deserialize
    rw [if_neg (by omega), if_neg (by simp [hfirst])]
    unfold decodeMsgIndexArray
    rw [if_neg hwl]
    simp only []
    rw [if_neg (by omega), if_neg (by omega), hmk, Run.bind_ret]
  constructor
  · intro hnone
    rw [hD, h1 hnone]
    rfl
  · intro m hsome
    obtain ⟨arr', ha⟩ := h2 m hsome
    have hbound := (skipVarints_bounds _ _ _ hsome).2
    simp only [List.length_drop] at hbound
    rw [hD, ha, Run.bind_ret]
    simp only []
    rw [if_neg (by omega)]
    unfold codecError
    cases (Unmarshal (bytes.drop
      (wireFormatLen + ((Varint (bytes.drop wireFormatLen)).2.toNat + m))) pb).1 <;> rfl

/-! ## Lemmas on the configuration map -/

theorem configGet_cons (k k' : String) (v : ConfigValue) (m : ProtobufSerializerConfig) :
    configGet ((k', v) :: m) k = if k = k' then some v else configGet m k := by
  unfold configGet
  rw [List.lookup_cons]
  by_cases h : k = k'
  · subst h; simp
  · have : (k == k') = false := by simpa using h
    rw [this, if_neg h]

theorem configGet_delete_ne (m : ProtobufSerializerConfig) (k k' : String) (h : k ≠ k') :
    configGet (configDelete m k') k = configGet m k := by
  induction m with
  | nil => rfl
  | cons kv m ih =>
    obtain ⟨k0, v0⟩ := kv
    unfold configDelete at ih ⊢
    by_cases h0 : k0 = k'
    · subst h0
      rw [List.filter_cons_of_neg (by simp), ih, configGet_cons, if_neg h]
    · rw [List.filter_cons_of_pos (by simpa using h0), configGet_cons, configGet_cons, ih]

theorem configGet_delete_self (m : ProtobufSerializerConfig) (k : String) :
    configGet (configDelete m k) k = none := by
  induction m with
  | nil => rfl
  | cons kv m ih =>
    obtain ⟨k0, v0⟩ := kv
    unfold configDelete at ih ⊢
    by_cases h0 : k0 = k
    · subst h0
      rw [List.filter_cons_of_neg (by simp), ih]
    · rw [List.filter_cons_of_pos (by simpa using h0), configGet_cons, if_neg (Ne.symm h0), ih]

theorem configGet_set (m : ProtobufSerializerConfig) (k k' : String) (v : ConfigValue) :
    configGet (configSet m k' v) k = if k = k' then some v else configGet m k := by
  unfold configSet
  rw [configGet_cons]
  by_cases h : k = k'
  · rw [if_pos h, if_pos h]
  · rw [if_neg h, if_neg h, configGet_delete_ne _ _ _ h]

theorem configGet_foldr (c base : ProtobufSerializerConfig) (k : String) :
    configGet (c.foldr (fun kv configToUse => configSet configToUse kv.1 kv.2) base) k
      = match configGet c k with
        | some v => some v
        | none => configGet base k := by
  induction c with
  | nil => rfl
  | cons kv c ih =>
    obtain ⟨k0, v0⟩ := kv
    simp only [List.foldr_cons]
    rw [configGet_set, configGet_cons]
    by_cases h : k = k0
    · rw [if_pos h, if_pos h]
    · rw [if_neg h, if_neg h, ih]

theorem mem_keys_delete (m : ProtobufSerializerConfig) (k k' : String) :
    k ∈ (configDelete m k').map Prod.fst ↔ k ∈ m.map Prod.fst ∧ k ≠ k' := by
  unfold configDelete
  simp only [List.mem_map, List.mem_filter, Prod.exists, exists_and_right, exists_eq_right]
  constructor
  · rintro ⟨v, hmem, hne⟩
    exact ⟨⟨v, hmem⟩, by simpa using hne⟩
  · rintro ⟨⟨v, hmem⟩, hne⟩
    exact ⟨v, hmem, by simpa using hne⟩

theorem mem_keys_set (m : ProtobufSerializerConfig) (k k' : String) (v : ConfigValue) :
    k ∈ (configSet m k' v).map Prod.fst ↔ k = k' ∨ k ∈ m.map Prod.fst := by
  unfold configSet
  rw [List.map_cons, List.mem_cons, mem_keys_delete]
  constructor
  · rintro (h | ⟨h, _⟩)
    · exact Or.inl h
    · exact Or.inr h
  · rintro (h | h)
    · exact Or.inl h
    · by_cases hk : k = k'
      · exact Or.inl hk
      · exact Or.inr ⟨h, hk⟩

theorem mem_keys_foldr (c base : ProtobufSerializerConfig) (k : String) :
    k ∈ (c.foldr (fun kv configToUse => configSet configToUse kv.1 kv.2) base).map Prod.fst
      ↔ k ∈ c.map Prod.fst ∨ k ∈ base.map Prod.fst := by
  induction c with
  | nil => simp
  | cons kv c ih =>
    simp only [List.foldr_cons, List.map_cons, List.mem_cons]
    rw [mem_keys_set, ih]
    tauto

/-- What `configToUse` holds for a key after the defaults have been updated. -/
theorem configGet_configWithDefaults (config : Option ProtobufSerializerConfig) (k : String) :
    configGet (configWithDefaults config) k
      = match config.bind (fun c => configGet c k) with
        | some v => some v
        | none => configGet (configWithDefaults none) k := by
  cases config with
  | none => rfl
  | some c =>
    show configGet (c.foldr (fun kv configToUse => configSet configToUse kv.1 kv.2)
      (configWithDefaults none)) k = _
    rw [configGet_foldr]
    rfl

/-- The keys left over are the keys of the given configuration that are not
recognized. -/
theorem mem_leftoverConfig (config : Option ProtobufSerializerConfig) (k : String) :
    k ∈ configKeys (leftoverConfig config)
      ↔ (∃ c, config = some c ∧ k ∈ c.map Prod.fst) ∧ k ∉ recognizedKeys := by
  unfold configKeys leftoverConfig
  rw [List.mem_dedup]
  simp only [mem_keys_delete]
  have hrec : k ∉ recognizedKeys ↔ (k ≠ AutoRegisterSchemas ∧ k ≠ UseLatestVersion ∧
      k ≠ SkipKnownTypes ∧ k ≠ SubjectNameStrategyImpl ∧ k ≠ ReferenceSubjectNameStrategyImpl) := by
    simp [recognizedKeys]
  have hdef : ∀ k', k' ∈ (configWithDefaults none).map Prod.fst ↔ k' ∈ recognizedKeys := by
    intro k'
    simp [configWithDefaults, recognizedKeys]
  rw [hrec]
  cases config with
  | none =>
    have := hdef k
    simp only [recognizedKeys, List.mem_cons, List.mem_singleton, List.not_mem_nil, or_false]
      at this
    constructor
    · rintro ⟨⟨⟨⟨⟨hm, h1⟩, h2⟩, h3⟩, h4⟩, h5⟩
      exfalso
      rcases this.mp hm with h | h | h | h | h
      · exact h1 h
      · exact h2 h
      · exact h3 h
      · exact h4 h
      · exact h5 h
    · rintro ⟨⟨c, hc, _⟩, _⟩
      cases hc
  | some c =>
    have hm : k ∈ (configWithDefaults (some c)).map Prod.fst
        ↔ k ∈ c.map Prod.fst ∨ k ∈ (configWithDefaults none).map Prod.fst :=
      mem_keys_foldr c (configWithDefaults none) k
    rw [hm, hdef]
    simp only [recognizedKeys, List.mem_cons, List.mem_singleton, List.not_mem_nil, or_false]
    constructor
    · rintro ⟨⟨⟨⟨⟨hm, h1⟩, h2⟩, h3⟩, h4⟩, h5⟩
      refine ⟨⟨c, rfl, ?_⟩, h1, h2, h3, h4, h5⟩
      rcases hm with h | h | h | h | h | h
      · exact h
      · exact absurd h h1
      · exact absurd h h2
      · exact absurd h h3
      · exact absurd h h4
      · exact absurd h h5
    · rintro ⟨⟨c', hc, hmem⟩, h1, h2, h3, h4, h5⟩
      cases hc
      exact ⟨⟨⟨⟨⟨Or.inl hmem, h1⟩, h2⟩, h3⟩, h4⟩, h5⟩

/-! ## Lemmas on `NewProtobufSerializer` -/

theorem configGet_configWithDefaults_of_default (config : Option ProtobufSerializerConfig)
    (k : String) (d : ConfigValue) (hd : configGet (configWithDefaults none) k = some d) :
    configGet (configWithDefaults config) k = some (configValue config k d) := by
  rw [configGet_configWithDefaults]
  cases config with
  | none => exact hd
  | some c =>
    cases hc : configGet c k with
    | none => simp only [configValue, Option.bind, hc]; exact hd
    | some v => simp only [configValue, Option.bind, hc]

/-- The function `NewProtobufSerializer`, once the index header is computed, is
`newSerializerResult`. -/
theorem NewProtobufSerializer_eq (md : Descriptor) (config : Option ProtobufSerializerConfig)
    (h : List Nat) (henc : createMsgIndexBytes (createMsgIndex md) = Run.ret h) :
    NewProtobufSerializer md config = Run.ret (newSerializerResult h config) := by
  have hA := configGet_configWithDefaults_of_default config AutoRegisterSchemas
    (ConfigValue.bool true) rfl
  have hU := configGet_configWithDefaults_of_default config UseLatestVersion
    (ConfigValue.bool false) rfl
  have hS := configGet_configWithDefaults_of_default config SkipKnownTypes
    (ConfigValue.bool false) rfl
  have hN := configGet_configWithDefaults_of_default config SubjectNameStrategyImpl
    (ConfigValue.subjectNameStrategy TopicSubjectNameStrategy) rfl
  have hR := configGet_configWithDefaults_of_default config ReferenceSubjectNameStrategyImpl
    (ConfigValue.referenceSubjectNameStrategy ReferenceSubjectNameStrategy) rfl
  have hU1 : configGet (configDelete (configWithDefaults config) AutoRegisterSchemas)
      UseLatestVersion = _ := (configGet_delete_ne _ _ _ (by decide)).trans hU
  have hS1 : configGet (configDelete (configDelete (configWithDefaults config)
      AutoRegisterSchemas) UseLatestVersion) SkipKnownTypes = _ :=
    (configGet_delete_ne _ _ _ (by decide)).trans
      ((configGet_delete_ne _ _ _ (by decide)).trans hS)
  have hN1 : configGet (configDelete (configDelete (configDelete (configWithDefaults config)
      AutoRegisterSchemas) UseLatestVersion) SkipKnownTypes) SubjectNameStrategyImpl = _ :=
    (configGet_delete_ne _ _ _ (by decide)).trans
      ((configGet_delete_ne _ _ _ (by decide)).trans
        ((configGet_delete_ne _ _ _ (by decide)).trans hN))
  have hR1 : configGet (configDelete (configDelete (configDelete (configDelete
      (configWithDefaults config) AutoRegisterSchemas) UseLatestVersion) SkipKnownTypes)
      SubjectNameStrategyImpl) ReferenceSubjectNameStrategyImpl = _ :=
    (configGet_delete_ne _ _ _ (by decide)).trans
      ((configGet_delete_ne _ _ _ (by decide)).trans
        ((configGet_delete_ne _ _ _ (by decide)).trans
          ((configGet_delete_ne _ _ _ (by decide)).trans hR)))
  unfold NewProtobufSerializer newSerializerResult
  simp only []
  rw [henc, Run.bind_ret]
  generalize configValue config AutoRegisterSchemas (ConfigValue.bool true) = vA at hA ⊢
  generalize configValue config UseLatestVersion (ConfigValue.bool false) = vU at hU hU1 ⊢
  generalize configValue config SkipKnownTypes (ConfigValue.bool false) = vS at hS hS1 ⊢
  generalize configValue config SubjectNameStrategyImpl
    (ConfigValue.subjectNameStrategy TopicSubjectNameStrategy) = vN at hN hN1 ⊢
  generalize configValue config ReferenceSubjectNameStrategyImpl
    (ConfigValue.referenceSubjectNameStrategy ReferenceSubjectNameStrategy) = vR at hR hR1 ⊢
  simp only [SetAutoRegisterSchemas, hA]
  cases vA with
  | bool a =>
    simp only [isUseLatestVersionAndAutoRegisterSchemas, Bool.false_and, Bool.false_eq_true,
      if_false, SetUseLatestVersion, hU1]
    cases vU with
    | bool u =>
      simp only [isUseLatestVersionAndAutoRegisterSchemas]
      by_cases hboth : (u && a) = true
      · simp only [hboth, if_true]
      · rw [if_neg hboth, if_neg hboth]
        simp only [SetSkipKnownTypes, hS1]
        cases vS with
        | bool k =>
          simp only [SetSubjectNameStrategy, hN1]
          cases vN with
          | subjectNameStrategy f =>
            simp only [SetReferenceSubjectNameStrategy, hR1]
            cases vR with
            | referenceSubjectNameStrategy g =>
              simp only [leftoverConfig]
              split <;> rfl
            | _ => rfl
          | _ => rfl
        | _ => rfl
    | _ => rfl
  | _ => rfl

theorem lexLe_total (a b : List Nat) : lexLe a b = true ∨ lexLe b a = true := by
  induction a generalizing b with
  | nil => exact Or.inl rfl
  | cons x xs ih =>
    cases b with
    | nil => exact Or.inr rfl
    | cons y ys =>
      simp only [lexLe]
      by_cases h1 : x < y
      · simp [h1]
      · by_cases h2 : y < x
        · simp [h2]
        · simp only [h1, h2, if_false]
          exact ih ys

theorem lexLe_trans (a b c : List Nat) (hab : lexLe a b = true) (hbc : lexLe b c = true) :
    lexLe a c = true := by
  induction a generalizing b c with
  | nil => rfl
  | cons x xs ih =>
    cases b with
    | nil => simp [lexLe] at hab
    | cons y ys =>
      cases c with
      | nil => simp [lexLe] at hbc
      | cons z zs =>
        simp only [lexLe] at hab hbc ⊢
        by_cases hxy : x < y
        · by_cases hyz : y < z
          · rw [if_pos (by omega)]
          · by_cases hzy : z < y
            · simp [hyz, hzy] at hbc
            · have : y = z := by omega
              subst this
              rw [if_pos hxy]
        · by_cases hyx : y < x
          · simp [hxy, hyx] at hab
          · have hxy' : x = y := by omega
            subst hxy'
            simp only [hxy, if_false] at hab
            by_cases hxz : x < z
            · rw [if_pos hxz]
            · by_cases hzx : z < x
              · simp [hxz, hzx] at hbc
              · simp only [hxz, hzx, if_false] at hbc ⊢
                exact ih ys zs hab hbc

/-- The keys that `sort.Strings` returns are in ascending order. -/
theorem sortStrings_sorted (keys : List String) : (sortStrings keys).Sorted stringLe :=
  @List.sorted_insertionSort String stringLe _
    ⟨fun _ _ => lexLe_total _ _⟩ ⟨fun _ _ _ => lexLe_trans _ _ _⟩ keys

/-- The keys that `sort.Strings` returns are the keys it was given. -/
theorem sortStrings_perm (keys : List String) : (sortStrings keys).Perm keys :=
  List.perm_insertionSort stringLe keys

/-- The sorted left-over keys: ascending, each once, and exactly the keys of the
configuration that are not recognized. -/
theorem sorted_leftover_keys (config : Option ProtobufSerializerConfig) :
    (sortStrings (configKeys (leftoverConfig config))).Sorted stringLe ∧
    (sortStrings (configKeys (leftoverConfig config))).Nodup ∧
    ∀ k, k ∈ sortStrings (configKeys (leftoverConfig config))
      ↔ (∃ c, config = some c ∧ k ∈ c.map Prod.fst) ∧ k ∉ recognizedKeys := by
  refine ⟨sortStrings_sorted _, ?_, fun k => ?_⟩
  · rw [(sortStrings_perm _).nodup_iff]
    exact List.nodup_dedup _
  · rw [(sortStrings_perm _).mem_iff]
    exact mem_leftoverConfig config k

theorem configLen_pos_iff (config : Option ProtobufSerializerConfig) :
    configLen (leftoverConfig config) > 0
      ↔ ∃ c, config = some c ∧ ∃ k ∈ c.map Prod.fst, k ∉ recognizedKeys := by
  unfold configLen
  rw [gt_iff_lt, List.length_pos_iff_exists_mem]
  constructor
  · rintro ⟨k, hk⟩
    obtain ⟨⟨c, hc, hmem⟩, hn⟩ := (mem_leftoverConfig config k).mp hk
    exact ⟨c, hc, k, hmem, hn⟩
  · rintro ⟨c, hc, k, hmem, hn⟩
    exact ⟨k, (mem_leftoverConfig config k).mpr ⟨⟨c, hc, hmem⟩, hn⟩⟩

/-- When `NewProtobufSerializer` returns a serializer, the five options had
values of the right types, the two exclusive options were not both true, no key
was left over, and the serializer holds those values, an empty cache and the
index header. -/
theorem newSerializerResult_ok (h : List Nat) (config : Option ProtobufSerializerConfig)
    (ps : ProtobufSerializer) (hres : newSerializerResult h config = Except.ok ps) :
    ∃ (a u s : Bool) (f : SubjectNameStrategy) (g : SubjectNameStrategyForReferences),
      configValue config AutoRegisterSchemas (ConfigValue.bool true) = ConfigValue.bool a ∧
      configValue config UseLatestVersion (ConfigValue.bool false) = ConfigValue.bool u ∧
      configValue config SkipKnownTypes (ConfigValue.bool false) = ConfigValue.bool s ∧
      configValue config SubjectNameStrategyImpl
        (ConfigValue.subjectNameStrategy TopicSubjectNameStrategy)
        = ConfigValue.subjectNameStrategy f ∧
      configValue config ReferenceSubjectNameStrategyImpl
        (ConfigValue.referenceSubjectNameStrategy ReferenceSubjectNameStrategy)
        = ConfigValue.referenceSubjectNameStrategy g ∧
      (u && a) = false ∧
      ¬ configLen (leftoverConfig config) > 0 ∧
      ps = { msgIndexBytes := h, knownSubjects := [],
             autoRegisterSchemas := a, useLatestVersion := u, skipKnownTypes := s,
             subjectNameStrategy := f, referenceSubjectNameStrategy := g } := by
  unfold newSerializerResult at hres
  generalize configValue config AutoRegisterSchemas (ConfigValue.bool true) = vA at hres ⊢
  generalize configValue config UseLatestVersion (ConfigValue.bool false) = vU at hres ⊢
  generalize configValue config SkipKnownTypes (ConfigValue.bool false) = vS at hres ⊢
  generalize configValue config SubjectNameStrategyImpl
    (ConfigValue.subjectNameStrategy TopicSubjectNameStrategy) = vN at hres ⊢
  generalize configValue config ReferenceSubjectNameStrategyImpl
    (ConfigValue.referenceSubjectNameStrategy ReferenceSubjectNameStrategy) = vR at hres ⊢
  cases vA with
  | bool a =>
    cases vU with
    | bool u =>
      simp only [] at hres
      by_cases hboth : (u && a) = true
      · rw [if_pos hboth] at hres
        cases hres
      · rw [if_neg hboth] at hres
        cases vS with
        | bool s =>
          cases vN with
          | subjectNameStrategy f =>
            cases vR with
            | referenceSubjectNameStrategy g =>
              simp only [] at hres
              by_cases hlen : configLen (leftoverConfig config) > 0
              · rw [if_pos hlen] at hres
                cases hres
              · rw [if_neg hlen] at hres
                injection hres with hres
                exact ⟨a, u, s, f, g, rfl, rfl, rfl, rfl, rfl, by simpa using hboth, hlen,
                  hres.symm⟩
            | _ => cases hres
          | _ => cases hres
        | _ => cases hres
    | _ => cases hres
  | _ => cases hres

/-- The function `NewProtobufSerializer` returns a value or panics in
`createMsgIndexBytes`; when it returns, the index header was computed. -/
theorem NewProtobufSerializer_ret (md : Descriptor) (config : Option ProtobufSerializerConfig)
    (r : Except String ProtobufSerializer) (hret : NewProtobufSerializer md config = Run.ret r) :
    ∃ h, createMsgIndexBytes (createMsgIndex md) = Run.ret h ∧ r = newSerializerResult h config := by
  cases henc : createMsgIndexBytes (createMsgIndex md) with
  | panic m =>
    unfold NewProtobufSerializer at hret
    simp only [] at hret
    rw [henc] at hret
    cases hret
  | ret h =>
    rw [NewProtobufSerializer_eq md config h henc] at hret
    injection hret with hret
    exact ⟨h, rfl, hret.symm⟩

/-! ## Lemmas on `getSchemaID` and `resolveDependencies` -/

theorem knownSubjectsGet_set (m : List (String × Int)) (subject : String) (schemaID : Int) :
    knownSubjectsGet (knownSubjectsSet m subject schemaID) subject = some schemaID := by
  unfold knownSubjectsGet knownSubjectsSet
  rw [List.lookup_cons]
  simp

/-- The method `getSchemaID` on a cache hit: the cached ID, no change, no call. -/
theorem getSchemaID_hit {ρ ε μ : Type} (env : Env ρ ε μ) (ps : ProtobufSerializer)
    (ctx : SerializationContext) (md : Descriptor) (subject : String) (reg : Registry ρ)
    (schemaID : Int) (hhit : knownSubjectsGet ps.knownSubjects subject = some schemaID) :
    getSchemaID env ps ctx md subject reg = (Except.ok schemaID, ps, reg) := by
  unfold getSchemaID
  rw [hhit]

/-- The method `getSchemaID` on a cache miss, in use-latest-version mode. -/
theorem getSchemaID_latest {ρ ε μ : Type} (env : Env ρ ε μ) (ps : ProtobufSerializer)
    (ctx : SerializationContext) (md : Descriptor) (subject : String) (reg : Registry ρ)
    (hmiss : knownSubjectsGet ps.knownSubjects subject = none)
    (hmode : ps.useLatestVersion = true) :
    getSchemaID env ps ctx md subject reg
      = match (env.client reg.state (RegistryCall.GetLatestSchema subject)).1 with
        | Except.error err =>
          (Except.error err, ps,
            { state := (env.client reg.state (RegistryCall.GetLatestSchema subject)).2,
              calls := reg.calls ++ [RegistryCall.GetLatestSchema subject] })
        | Except.ok theSchema =>
          (Except.ok theSchema.id,
            { ps with knownSubjects := knownSubjectsSet ps.knownSubjects subject theSchema.id },
            { state := (env.client reg.state (RegistryCall.GetLatestSchema subject)).2,
              calls := reg.calls ++ [RegistryCall.GetLatestSchema subject] }) := by
  unfold getSchemaID
  rw [hmiss]
  simp only [hmode, if_true, Registry.call]
  cases (env.client reg.state (RegistryCall.GetLatestSchema subject)).1 <;> rfl

/-- The method `getSchemaID` on a cache miss, in default mode, once the
dependencies are resolved and the file descriptor is encoded. -/
theorem getSchemaID_default {ρ ε μ : Type} (env : Env ρ ε μ) (ps : ProtobufSerializer)
    (ctx : SerializationContext) (md : Descriptor) (subject : String) (reg reg1 : Registry ρ)
    (schemaRefs : List Reference) (schemaString : String)
    (hmiss : knownSubjectsGet ps.knownSubjects subject = none)
    (hmode : ps.useLatestVersion = false)
    (hdeps : resolveDependencies env ps ctx md.ParentFile reg = (Except.ok schemaRefs, reg1))
    (hstr : env.fileDescriptorToString md.ParentFile = Except.ok schemaString)
    (call : RegistryCall)
    (hcall : call = if ps.autoRegisterSchemas then
        RegistryCall.CreateSchema subject schemaString SchemaType.Protobuf schemaRefs
      else RegistryCall.LookupSchema subject schemaString SchemaType.Protobuf schemaRefs) :
    getSchemaID env ps ctx md subject reg
      = match (env.client reg1.state call).1 with
        | Except.error err =>
          (Except.error err, ps,
            { state := (env.client reg1.state call).2, calls := reg1.calls ++ [call] })
        | Except.ok theSchema =>
          (Except.ok theSchema.id,
            { ps with knownSubjects := knownSubjectsSet ps.knownSubjects subject theSchema.id },
            { state := (env.client reg1.state call).2, calls := reg1.calls ++ [call] }) := by
  unfold getSchemaID
  rw [hmiss]
  simp only [hmode, Bool.false_eq_true, if_false, hdeps, hstr, Registry.call]
  subst hcall
  cases hauto : ps.autoRegisterSchemas
  · simp only [Bool.false_eq_true, if_false]
    cases (env.client reg1.state
      (RegistryCall.LookupSchema subject schemaString SchemaType.Protobuf schemaRefs)).1 <;> rfl
  · simp only [if_true]
    cases (env.client reg1.state
      (RegistryCall.CreateSchema subject schemaString SchemaType.Protobuf schemaRefs)).1 <;> rfl

/-- A successful `getSchemaID` leaves the ID in the cache under the subject. -/
theorem getSchemaID_ok_cached {ρ ε μ : Type} (env : Env ρ ε μ) (ps ps1 : ProtobufSerializer)
    (ctx : SerializationContext) (md : Descriptor) (subject : String) (reg reg1 : Registry ρ)
    (schemaID : Int)
    (h : getSchemaID env ps ctx md subject reg = (Except.ok schemaID, ps1, reg1)) :
    knownSubjectsGet ps1.knownSubjects subject = some schemaID := by
  unfold getSchemaID at h
  split at h
  · rename_i id0 hhit
    injection h with h1 h2
    injection h1 with h1
    injection h2 with h2 _
    subst h1 h2
    exact hhit
  · simp only [] at h
    split at h
    · cases h
    · injection h with h1 h2
      injection h1 with h1
      injection h2 with h2 _
      subst h1 h2
      exact knownSubjectsGet_set _ _ _

/-- The loop of `resolveDependencies` with no import left returns the
references collected so far. -/
theorem resolveImports_nil {ρ ε μ : Type} (env : Env ρ ε μ) (ps : ProtobufSerializer)
    (ctx : SerializationContext) (schemaRefs : List Reference) (reg : Registry ρ) :
    resolveImports env ps ctx [] schemaRefs reg = (Except.ok schemaRefs, reg) := by
  rw [resolveImports]

/-- The loop of `resolveDependencies` passes over a skipped import without any
call and without any reference. -/
theorem resolveImports_skip {ρ ε μ : Type} (env : Env ρ ε μ) (ps : ProtobufSerializer)
    (ctx : SerializationContext) (fileImport : FileDescriptor) (rest : List FileDescriptor)
    (schemaRefs : List Reference) (reg : Registry ρ)
    (hskip : (ps.skipKnownTypes && HasPrefix fileImport.Path "google/protobuf/") = true) :
    resolveImports env ps ctx (fileImport :: rest) schemaRefs reg
      = resolveImports env ps ctx rest schemaRefs reg := by
  rw [resolveImports, if_pos hskip]

/-- One turn of the loop of `resolveDependencies` on an import that is not
skipped, when every step succeeds: `CreateSchema` is called first if
auto-register is enabled, `LookupSchema` is called in every case, and the
reference takes its version from `LookupSchema`. -/
theorem resolveImports_step {ρ ε μ : Type} (env : Env ρ ε μ) (ps : ProtobufSerializer)
    (ctx : SerializationContext) (fileImport : FileDescriptor) (rest : List FileDescriptor)
    (schemaRefs depRefs : List Reference) (reg reg1 : Registry ρ) (schemaString : String)
    (hskip : (ps.skipKnownTypes && HasPrefix fileImport.Path "google/protobuf/") = false)
    (hdeps : resolveDependencies env ps ctx fileImport reg = (Except.ok depRefs, reg1))
    (hstr : env.fileDescriptorToString fileImport = Except.ok schemaString) :
    (ps.autoRegisterSchemas = true →
      ∀ (created reference : Schema),
        (env.client reg1.state (RegistryCall.CreateSchema
          (ps.referenceSubjectNameStrategy ctx fileImport) schemaString SchemaType.Protobuf
          depRefs)).1 = Except.ok created →
        (env.client
          (env.client reg1.state (RegistryCall.CreateSchema
            (ps.referenceSubjectNameStrategy ctx fileImport) schemaString SchemaType.Protobuf
            depRefs)).2
          (RegistryCall.LookupSchema (ps.referenceSubjectNameStrategy ctx fileImport)
            schemaString SchemaType.Protobuf depRefs)).1 = Except.ok reference →
        resolveImports env ps ctx (fileImport :: rest) schemaRefs reg
          = resolveImports env ps ctx rest
              (schemaRefs ++ [{ Name := fileImport.Path,
                                Subject := ps.referenceSubjectNameStrategy ctx fileImport,
                                Version := reference.version }])
              { state := (env.client
                  (env.client reg1.state (RegistryCall.CreateSchema
                    (ps.referenceSubjectNameStrategy ctx fileImport) schemaString
                    SchemaType.Protobuf depRefs)).2
                  (RegistryCall.LookupSchema (ps.referenceSubjectNameStrategy ctx fileImport)
                    schemaString SchemaType.Protobuf depRefs)).2,
                calls := reg1.calls ++
                  [RegistryCall.CreateSchema (ps.referenceSubjectNameStrategy ctx fileImport)
                    schemaString SchemaType.Protobuf depRefs,
                   RegistryCall.LookupSchema (ps.referenceSubjectNameStrategy ctx fileImport)
                    schemaString SchemaType.Protobuf depRefs] }) ∧
    (ps.autoRegisterSchemas = false →
      ∀ (reference : Schema),
        (env.client reg1.state
          (RegistryCall.LookupSchema (ps.referenceSubjectNameStrategy ctx fileImport)
            schemaString SchemaType.Protobuf depRefs)).1 = Except.ok reference →
        resolveImports env ps ctx (fileImport :: rest) schemaRefs reg
          = resolveImports env ps ctx rest
              (schemaRefs ++ [{ Name := fileImport.Path,
                                Subject := ps.referenceSubjectNameStrategy ctx fileImport,
                                Version := reference.version }])
              { state := (env.client reg1.state
                  (RegistryCall.LookupSchema (ps.referenceSubjectNameStrategy ctx fileImport)
                    schemaString SchemaType.Protobuf depRefs)).2,
                calls := reg1.calls ++
                  [RegistryCall.LookupSchema (ps.referenceSubjectNameStrategy ctx fileImport)
                    schemaString SchemaType.Protobuf depRefs] }) := by
  constructor
  · intro hauto created reference hcreate hlookup
    rw [resolveImports, if_neg (by simp [hskip]), hdeps]
    simp only [hstr, hauto, if_true, Registry.call, hcreate, hlookup, List.append_assoc,
      List.singleton_append]
  · intro hauto reference hlookup
    rw [resolveImports, if_neg (by simp [hskip]), hdeps]
    simp only [hstr, hauto, Bool.false_eq_true, if_false, Registry.call, hlookup]

/-- The references that the loop of `resolveDependencies` returns: those it
started with, then one per import that is not skipped, in order, with the path
of the import as name and the subject of the reference strategy. -/
theorem resolveImports_refs {ρ ε μ : Type} (env : Env ρ ε μ) (ps : ProtobufSerializer)
    (ctx : SerializationContext) (imports : List FileDescriptor) (schemaRefs : List Reference)
    (reg reg' : Registry ρ) (refs : List Reference)
    (h : resolveImports env ps ctx imports schemaRefs reg = (Except.ok refs, reg')) :
    refs.map (fun r => (r.Name, r.Subject))
      = schemaRefs.map (fun r => (r.Name, r.Subject))
        ++ (imports.filter fun i =>
              !(ps.skipKnownTypes && HasPrefix i.Path "google/protobuf/")).map
            fun i => (i.Path, ps.referenceSubjectNameStrategy ctx i) := by
  induction imports generalizing schemaRefs reg with
  | nil =>
    rw [resolveImports_nil] at h
    injection h with h1 _
    injection h1 with h1
    subst h1
    simp
  | cons fileImport rest ih =>
    by_cases hskip : (ps.skipKnownTypes && HasPrefix fileImport.Path "google/protobuf/") = true
    · rw [resolveImports_skip _ _ _ _ _ _ _ hskip] at h
      rw [ih _ _ h, List.filter_cons_of_neg (by simp [hskip])]
    · rw [resolveImports, if_neg hskip] at h
      have hkeep : (!(ps.skipKnownTypes && HasPrefix fileImport.Path "google/protobuf/")) = true := by
        cases hb : (ps.skipKnownTypes && HasPrefix fileImport.Path "google/protobuf/")
        · rfl
        · exact absurd hb hskip
      simp only [List.filter_cons, hkeep, if_true]
      split at h
      · cases h
      · simp only [] at h
        split at h
        · cases h
        · split at h
          · cases h
          · split at h
            · cases h
            · rw [ih _ _ h]
              simp

/-! ## The element loop and the hand-off of `Deserialize` (C11, C12) -/

/-- C11 at a buffer whose header declares an array of `2 ^ 62 - 1` indexes and
ends there: the buffer has at least six bytes and first byte 0, its array-length
varint is well formed and not negative, no varint follows it, and `Deserialize`
does not return the index-value error: `make([]int64, arrayLen)` panics before
the first element is decoded. -/
theorem C11_huge_length_panics :
    minBytesLen ≤ ([0, 0, 0, 0, 0, 0xfe, 0xff, 0xff, 0xff, 0xff, 0xff, 0xff, 0xff, 0x7f]
      : List Nat).length ∧
    Varint (([0, 0, 0, 0, 0, 0xfe, 0xff, 0xff, 0xff, 0xff, 0xff, 0xff, 0xff, 0x7f]
      : List Nat).drop wireFormatLen) = (2 ^ 62 - 1, 9) ∧
    skipVarints (2 ^ 62 - 1)
      (([0, 0, 0, 0, 0, 0xfe, 0xff, 0xff, 0xff, 0xff, 0xff, 0xff, 0xff, 0x7f]
        : List Nat).drop (wireFormatLen + 9)) = none ∧
    Deserialize (fun (b : List Nat) (_ : List Nat) => ((none : Option Unit), b))
      [0, 0, 0, 0, 0, 0xfe, 0xff, 0xff, 0xff, 0xff, 0xff, 0xff, 0xff, 0x7f] []
      = Run.panic makesliceLenOutOfRange := by
  decide

/-- C12. For every buffer of at least six bytes that starts with the byte 0,
whose array-length varint takes `k > 0` bytes and gives a length `n ≥ 0`, whose
`n` element varints are well formed and take `m` bytes, and which is short
enough for an array of one `int64` per byte to be allocated, `Deserialize` calls
the codec on exactly `bytes[5 + k + m:]` and returns the codec's result: nil for
nil, the codec's own error otherwise, with the message as the codec left it. -/
theorem C12_payload_handoff {μ ε : Type} (Unmarshal : List Nat → μ → Option ε × μ)
    (bytes : List Nat) (pb : μ) (n k : Int) (m : Nat)
    (hlen : minBytesLen ≤ bytes.length) (hfirst : bytes.head? = some magicByte)
    (hvarint : Varint (bytes.drop wireFormatLen) = (n, k)) (hn : 0 ≤ n) (hk : 0 < k)
    (helems : skipVarints n.toNat (bytes.drop (wireFormatLen + k.toNat)) = some m)
    (halloc : 8 * bytes.length ≤ maxAlloc) :
    Deserialize Unmarshal bytes pb
      = Run.ret (codecError (Unmarshal (bytes.drop (wireFormatLen + (k.toNat + m))) pb).1,
          (Unmarshal (bytes.drop (wireFormatLen + (k.toNat + m))) pb).2) := by
  have hbound := skipVarints_bounds _ _ _ helems
  simp only [List.length_drop] at hbound
  have h := (Deserialize_elements Unmarshal bytes pb hlen hfirst
    (by rw [hvarint]; exact hn) (by rw [hvarint]; exact hk)
    (by rw [hvarint]; simp only []; omega)).2
  rw [hvarint] at h
  exact h m helems

/-- C12 at the buffer `[0, 0, 0, 0, 0, 4, 2, 144, 3, 7, 8]`: the header `[4, 2,
144, 3]` takes one byte for the length 2 and three bytes for the two elements,
and the codec gets `[7, 8]`. -/
theorem C12_payload_handoff_witness :
    Deserialize (fun (b : List Nat) (_ : List Nat) => (some "codec error", b))
        [0, 0, 0, 0, 0, 4, 2, 144, 3, 7, 8] []
      = Run.ret (some (GoError.foreign "codec error"), [7, 8]) :=
  (C12_payload_handoff (fun (b : List Nat) (_ : List Nat) => (some "codec error", b))
    [0, 0, 0, 0, 0, 4, 2, 144, 3, 7, 8] [] 2 1 3
    (by decide) (by decide) (by decide) (by decide) (by decide) (by decide) (by decide)).trans rfl

/-! ## The configuration of `NewProtobufSerializer` (C14, C15, C16, C17) -/

/-- C14. For every message descriptor whose index header is computed and every
configuration that gives `use.latest.version` the boolean true and gives
`auto.register.schemas` the boolean true or no value at all, whatever its other
keys, `NewProtobufSerializer` returns no serializer and the error "cannot enable
both use.latest.version and auto.register.schemas". -/
theorem C14_mutually_exclusive (md : Descriptor) (h : List Nat) (c : ProtobufSerializerConfig)
    (henc : createMsgIndexBytes (createMsgIndex md) = Run.ret h)
    (hU : configGet c UseLatestVersion = some (ConfigValue.bool true))
    (hA : configGet c AutoRegisterSchemas = some (ConfigValue.bool true) ∨
      configGet c AutoRegisterSchemas = none) :
    NewProtobufSerializer md (some c)
      = Run.ret (Except.error
          "cannot enable both use.latest.version and auto.register.schemas") := by
  rw [NewProtobufSerializer_eq md (some c) h henc]
  have hvA : configValue (some c) AutoRegisterSchemas (ConfigValue.bool true)
      = ConfigValue.bool true := by
    unfold configValue
    rcases hA with hA | hA <;> simp only [hA]
  have hvU : configValue (some c) UseLatestVersion (ConfigValue.bool false)
      = ConfigValue.bool true := by
    unfold configValue
    simp only [hU]
  unfold newSerializerResult
  simp only [hvA, hvU]
  rfl

/-- C14 at the configuration of the test that sets `use.latest.version` alone,
with a key that is not recognized added. -/
theorem C14_mutually_exclusive_witness :
    NewProtobufSerializer
        (Descriptor.message "pkg.M" 2 (Descriptor.file (FileDescriptor.mk "a.proto" [])))
        (some [(UseLatestVersion, ConfigValue.bool true), ("made.this.up", ConfigValue.other "1")])
      = Run.ret (Except.error
          "cannot enable both use.latest.version and auto.register.schemas") :=
  C14_mutually_exclusive
    (Descriptor.message "pkg.M" 2 (Descriptor.file (FileDescriptor.mk "a.proto" []))) [2, 4]
    [(UseLatestVersion, ConfigValue.bool true), ("made.this.up", ConfigValue.other "1")]
    rfl rfl (Or.inr rfl)

/-- C15. For every message descriptor whose index header is computed and every
configuration with at least one key outside the five recognized options,
`NewProtobufSerializer` returns an error and no serializer; and when the five
options, as given or by default, have values of the right types and do not enable
both `use.latest.version` and `auto.register.schemas`, the error is "unrecognized
properties: " followed by the keys joined by ", ", these keys being in ascending
order, each once, and exactly the keys of the configuration that are not
recognized. -/
theorem C15_unrecognized_keys (md : Descriptor) (h : List Nat) (c : ProtobufSerializerConfig)
    (henc : createMsgIndexBytes (createMsgIndex md) = Run.ret h)
    (hkey : ∃ k ∈ c.map Prod.fst, k ∉ recognizedKeys) :
    (∃ err, NewProtobufSerializer md (some c) = Run.ret (Except.error err)) ∧
    (∀ (a u s : Bool) (f : SubjectNameStrategy) (g : SubjectNameStrategyForReferences),
      configValue (some c) AutoRegisterSchemas (ConfigValue.bool true) = ConfigValue.bool a →
      configValue (some c) UseLatestVersion (ConfigValue.bool false) = ConfigValue.bool u →
      configValue (some c) SkipKnownTypes (ConfigValue.bool false) = ConfigValue.bool s →
      configValue (some c) SubjectNameStrategyImpl
        (ConfigValue.subjectNameStrategy TopicSubjectNameStrategy)
        = ConfigValue.subjectNameStrategy f →
      configValue (some c) ReferenceSubjectNameStrategyImpl
        (ConfigValue.referenceSubjectNameStrategy ReferenceSubjectNameStrategy)
        = ConfigValue.referenceSubjectNameStrategy g →
      (u && a) = false →
      ∃ keys : List String,
        NewProtobufSerializer md (some c)
          = Run.ret (Except.error ("unrecognized properties: " ++ Join keys ", ")) ∧
        keys.Sorted stringLe ∧ keys.Nodup ∧
        ∀ k, k ∈ keys ↔ (k ∈ c.map Prod.fst ∧ k ∉ recognizedKeys)) := by
  have hpos : configLen (leftoverConfig (some c)) > 0 :=
    (configLen_pos_iff (some c)).mpr ⟨c, rfl, hkey⟩
  rw [NewProtobufSerializer_eq md (some c) h henc]
  constructor
  · cases hres : newSerializerResult h (some c) with
    | error err => exact ⟨err, rfl⟩
    | ok ps =>
      obtain ⟨_, _, _, _, _, _, _, _, _, _, _, hlen, _⟩ := newSerializerResult_ok h (some c) ps hres
      exact absurd hpos hlen
  · intro a u s f g hA hU hS hN hR hboth
    obtain ⟨hsorted, hnodup, hmem⟩ := sorted_leftover_keys (some c)
    refine ⟨sortStrings (configKeys (leftoverConfig (some c))), ?_, hsorted, hnodup, ?_⟩
    · unfold newSerializerResult
      simp only [hA, hU, hS, hN, hR, hboth, Bool.false_eq_true, if_false]
      rw [if_pos hpos]
    · intro k
      rw [hmem k]
      constructor
      · rintro ⟨⟨c', hc, hk⟩, hn⟩
        cases hc
        exact ⟨hk, hn⟩
      · rintro ⟨hk, hn⟩
        exact ⟨⟨c, rfl, hk⟩, hn⟩

/-- C15 at the configuration `{made.this.up: true, also.made.up: false}` of the
test, whose error is "unrecognized properties: also.made.up, made.this.up". -/
theorem C15_unrecognized_keys_witness :
    ((∃ err, NewProtobufSerializer
        (Descriptor.message "pkg.M" 2 (Descriptor.file (FileDescriptor.mk "a.proto" [])))
        (some [("made.this.up", ConfigValue.bool true), ("also.made.up", ConfigValue.bool false)])
        = Run.ret (Except.error err)) ∧
    (∀ (a u s : Bool) (f : SubjectNameStrategy) (g : SubjectNameStrategyForReferences),
      configValue
          (some [("made.this.up", ConfigValue.bool true), ("also.made.up", ConfigValue.bool false)])
          AutoRegisterSchemas (ConfigValue.bool true) = ConfigValue.bool a →
      configValue
          (some [("made.this.up", ConfigValue.bool true), ("also.made.up", ConfigValue.bool false)])
          UseLatestVersion (ConfigValue.bool false) = ConfigValue.bool u →
      configValue
          (some [("made.this.up", ConfigValue.bool true), ("also.made.up", ConfigValue.bool false)])
          SkipKnownTypes (ConfigValue.bool false) = ConfigValue.bool s →
      configValue
          (some [("made.this.up", ConfigValue.bool true), ("also.made.up", ConfigValue.bool false)])
          SubjectNameStrategyImpl (ConfigValue.subjectNameStrategy TopicSubjectNameStrategy)
        = ConfigValue.subjectNameStrategy f →
      configValue
          (some [("made.this.up", ConfigValue.bool true), ("also.made.up", ConfigValue.bool false)])
          ReferenceSubjectNameStrategyImpl
          (ConfigValue.referenceSubjectNameStrategy ReferenceSubjectNameStrategy)
        = ConfigValue.referenceSubjectNameStrategy g →
      (u && a) = false →
      ∃ keys : List String,
        NewProtobufSerializer
            (Descriptor.message "pkg.M" 2 (Descriptor.file (FileDescriptor.mk "a.proto" [])))
            (some [("made.this.up", ConfigValue.bool true),
              ("also.made.up", ConfigValue.bool false)])
          = Run.ret (Except.error ("unrecognized properties: " ++ Join keys ", ")) ∧
        keys.Sorted stringLe ∧ keys.Nodup ∧
        ∀ k, k ∈ keys ↔
          (k ∈ ([("made.this.up", ConfigValue.bool true),
              ("also.made.up", ConfigValue.bool false)] : ProtobufSerializerConfig).map Prod.fst ∧
            k ∉ recognizedKeys))) ∧
    NewProtobufSerializer
        (Descriptor.message "pkg.M" 2 (Descriptor.file (FileDescriptor.mk "a.proto" [])))
        (some [("made.this.up", ConfigValue.bool true), ("also.made.up", ConfigValue.bool false)])
      = Run.ret (Except.error "unrecognized properties: also.made.up, made.this.up") :=
  ⟨C15_unrecognized_keys
    (Descriptor.message "pkg.M" 2 (Descriptor.file (FileDescriptor.mk "a.proto" []))) [2, 4]
    [("made.this.up", ConfigValue.bool true), ("also.made.up", ConfigValue.bool false)]
    rfl ⟨"made.this.up", by decide, by decide⟩, rfl⟩

/-- C16. Whenever `NewProtobufSerializer` returns a serializer, each of its five
options is the value that the configuration gives to the key of the option, or
the default (true, false, false, `TopicSubjectNameStrategy`,
`ReferenceSubjectNameStrategy`) when the configuration is nil or has no such key;
the cache is empty; the index header is `createMsgIndexBytes(createMsgIndex(md))`.
A nil configuration and an empty one give the same result. -/
theorem C16_defaults_and_overrides (md : Descriptor) (config : Option ProtobufSerializerConfig)
    (ps : ProtobufSerializer) (h : NewProtobufSerializer md config = Run.ret (Except.ok ps)) :
    configValue config AutoRegisterSchemas (ConfigValue.bool true)
      = ConfigValue.bool ps.autoRegisterSchemas ∧
    configValue config UseLatestVersion (ConfigValue.bool false)
      = ConfigValue.bool ps.useLatestVersion ∧
    configValue config SkipKnownTypes (ConfigValue.bool false)
      = ConfigValue.bool ps.skipKnownTypes ∧
    configValue config SubjectNameStrategyImpl
      (ConfigValue.subjectNameStrategy TopicSubjectNameStrategy)
      = ConfigValue.subjectNameStrategy ps.subjectNameStrategy ∧
    configValue config ReferenceSubjectNameStrategyImpl
      (ConfigValue.referenceSubjectNameStrategy ReferenceSubjectNameStrategy)
      = ConfigValue.referenceSubjectNameStrategy ps.referenceSubjectNameStrategy ∧
    ps.knownSubjects = [] ∧
    createMsgIndexBytes (createMsgIndex md) = Run.ret ps.msgIndexBytes ∧
    NewProtobufSerializer md none = NewProtobufSerializer md (some []) := by
  obtain ⟨hh, henc, hres⟩ := NewProtobufSerializer_ret md config _ h
  obtain ⟨a, u, s, f, g, hA, hU, hS, hN, hR, _, _, hps⟩ :=
    newSerializerResult_ok hh config ps hres.symm
  subst hps
  exact ⟨hA, hU, hS, hN, hR, rfl, henc, rfl⟩

/-- C16 at the configuration `{auto.register.schemas: false, use.latest.version:
true}` of the test, for a message with index 2 in its file. -/
theorem C16_defaults_and_overrides_witness :
    configValue (some [(AutoRegisterSchemas, ConfigValue.bool false),
        (UseLatestVersion, ConfigValue.bool true)])
      AutoRegisterSchemas (ConfigValue.bool true) = ConfigValue.bool false ∧
    configValue (some [(AutoRegisterSchemas, ConfigValue.bool false),
        (UseLatestVersion, ConfigValue.bool true)])
      UseLatestVersion (ConfigValue.bool false) = ConfigValue.bool true ∧
    configValue (some [(AutoRegisterSchemas, ConfigValue.bool false),
        (UseLatestVersion, ConfigValue.bool true)])
      SkipKnownTypes (ConfigValue.bool false) = ConfigValue.bool false ∧
    configValue (some [(AutoRegisterSchemas, ConfigValue.bool false),
        (UseLatestVersion, ConfigValue.bool true)])
      SubjectNameStrategyImpl (ConfigValue.subjectNameStrategy TopicSubjectNameStrategy)
      = ConfigValue.subjectNameStrategy TopicSubjectNameStrategy ∧
    configValue (some [(AutoRegisterSchemas, ConfigValue.bool false),
        (UseLatestVersion, ConfigValue.bool true)])
      ReferenceSubjectNameStrategyImpl
      (ConfigValue.referenceSubjectNameStrategy ReferenceSubjectNameStrategy)
      = ConfigValue.referenceSubjectNameStrategy ReferenceSubjectNameStrategy ∧
    ([] : List (String × Int)) = [] ∧
    createMsgIndexBytes (createMsgIndex
      (Descriptor.message "pkg.M" 2 (Descriptor.file (FileDescriptor.mk "a.proto" []))))
      = Run.ret [2, 4] ∧
    NewProtobufSerializer
        (Descriptor.message "pkg.M" 2 (Descriptor.file (FileDescriptor.mk "a.proto" []))) none
      = NewProtobufSerializer
        (Descriptor.message "pkg.M" 2 (Descriptor.file (FileDescriptor.mk "a.proto" [])))
        (some []) :=
  C16_defaults_and_overrides
    (Descriptor.message "pkg.M" 2 (Descriptor.file (FileDescriptor.mk "a.proto" [])))
    (some [(AutoRegisterSchemas, ConfigValue.bool false), (UseLatestVersion, ConfigValue.bool true)])
    { msgIndexBytes := [2, 4], knownSubjects := [],
      autoRegisterSchemas := false, useLatestVersion := true, skipKnownTypes := false,
      subjectNameStrategy := TopicSubjectNameStrategy,
      referenceSubjectNameStrategy := ReferenceSubjectNameStrategy }
    rfl

/-- C17. For every message descriptor whose index header is computed and every
configuration: if one of the five options holds a value of the wrong type,
`NewProtobufSerializer` returns an error and no serializer; and the error names
the option and the type it must have whenever the options that the setters check
before it are valid (right types, and not both `use.latest.version` and
`auto.register.schemas` true), whatever the later options and the other keys. -/
theorem C17_wrong_value_type (md : Descriptor) (h : List Nat) (c : ProtobufSerializerConfig)
    (henc : createMsgIndexBytes (createMsgIndex md) = Run.ret h) :
    (((∃ v, configGet c AutoRegisterSchemas = some v ∧ v.isBool = false) ∨
      (∃ v, configGet c UseLatestVersion = some v ∧ v.isBool = false) ∨
      (∃ v, configGet c SkipKnownTypes = some v ∧ v.isBool = false) ∨
      (∃ v, configGet c SubjectNameStrategyImpl = some v ∧ v.isSubjectNameStrategy = false) ∨
      (∃ v, configGet c ReferenceSubjectNameStrategyImpl = some v ∧
        v.isSubjectNameStrategyForReferences = false)) →
      ∃ err, NewProtobufSerializer md (some c) = Run.ret (Except.error err)) ∧
    (∀ v, configGet c AutoRegisterSchemas = some v → v.isBool = false →
      NewProtobufSerializer md (some c)
        = Run.ret (Except.error "auto.register.schemas must be a boolean value")) ∧
    (∀ v a, configGet c UseLatestVersion = some v → v.isBool = false →
      configValue (some c) AutoRegisterSchemas (ConfigValue.bool true) = ConfigValue.bool a →
      NewProtobufSerializer md (some c)
        = Run.ret (Except.error "use.latest.version must be a boolean value")) ∧
    (∀ v a u, configGet c SkipKnownTypes = some v → v.isBool = false →
      configValue (some c) AutoRegisterSchemas (ConfigValue.bool true) = ConfigValue.bool a →
      configValue (some c) UseLatestVersion (ConfigValue.bool false) = ConfigValue.bool u →
      (u && a) = false →
      NewProtobufSerializer md (some c)
        = Run.ret (Except.error "skip.known.types must be a boolean value")) ∧
    (∀ v a u s, configGet c SubjectNameStrategyImpl = some v →
      v.isSubjectNameStrategy = false →
      configValue (some c) AutoRegisterSchemas (ConfigValue.bool true) = ConfigValue.bool a →
      configValue (some c) UseLatestVersion (ConfigValue.bool false) = ConfigValue.bool u →
      (u && a) = false →
      configValue (some c) SkipKnownTypes (ConfigValue.bool false) = ConfigValue.bool s →
      NewProtobufSerializer md (some c)
        = Run.ret (Except.error "subject.name.strategy must be a SubjectNameStrategy")) ∧
    (∀ v a u s f, configGet c ReferenceSubjectNameStrategyImpl = some v →
      v.isSubjectNameStrategyForReferences = false →
      configValue (some c) AutoRegisterSchemas (ConfigValue.bool true) = ConfigValue.bool a →
      configValue (some c) UseLatestVersion (ConfigValue.bool false) = ConfigValue.bool u →
      (u && a) = false →
      configValue (some c) SkipKnownTypes (ConfigValue.bool false) = ConfigValue.bool s →
      configValue (some c) SubjectNameStrategyImpl
        (ConfigValue.subjectNameStrategy TopicSubjectNameStrategy)
        = ConfigValue.subjectNameStrategy f →
      NewProtobufSerializer md (some c)
        = Run.ret (Except.error
            "reference.subject.name.strategy must be a SubjectNameStrategyForReferences")) := by
  have hval : ∀ k d v, configGet c k = some v → configValue (some c) k d = v := by
    intro k d v hk
    unfold configValue
    simp only [hk]
  rw [NewProtobufSerializer_eq md (some c) h henc]
  refine ⟨?_, ?_, ?_, ?_, ?_, ?_⟩
  · intro hwrong
    cases hres : newSerializerResult h (some c) with
    | error err => exact ⟨err, rfl⟩
    | ok ps =>
      exfalso
      obtain ⟨a, u, s, f, g, hA, hU, hS, hN, hR, _, _, _⟩ :=
        newSerializerResult_ok h (some c) ps hres
      rcases hwrong with ⟨v, hk, hv⟩ | ⟨v, hk, hv⟩ | ⟨v, hk, hv⟩ | ⟨v, hk, hv⟩ | ⟨v, hk, hv⟩
      · rw [hval _ _ _ hk] at hA; subst hA; cases hv
      · rw [hval _ _ _ hk] at hU; subst hU; cases hv
      · rw [hval _ _ _ hk] at hS; subst hS; cases hv
      · rw [hval _ _ _ hk] at hN; subst hN; cases hv
      · rw [hval _ _ _ hk] at hR; subst hR; cases hv
  · intro v hk hv
    unfold newSerializerResult
    rw [hval _ _ _ hk]
    cases v <;> first | rfl | cases hv
  · intro v a hk hv hA
    unfold newSerializerResult
    rw [hA, hval _ _ _ hk]
    cases v <;> first | rfl | cases hv
  · intro v a u hk hv hA hU hboth
    unfold newSerializerResult
    rw [hA, hU, hval _ _ _ hk]
    simp only [hboth, Bool.false_eq_true, if_false]
    cases v <;> first | rfl | cases hv
  · intro v a u s hk hv hA hU hboth hS
    unfold newSerializerResult
    rw [hA, hU, hS, hval _ _ _ hk]
    simp only [hboth, Bool.false_eq_true, if_false]
    cases v <;> first | rfl | cases hv
  · intro v a u s f hk hv hA hU hboth hS hN
    unfold newSerializerResult
    rw [hA, hU, hS, hN, hval _ _ _ hk]
    simp only [hboth, Bool.false_eq_true, if_false]
    cases v <;> first | rfl | cases hv

/-- C17 at the configuration `{skip.known.types: "true"}` of the test: the other
options take their defaults, and the error names `skip.known.types`. -/
theorem C17_wrong_value_type_witness :
    NewProtobufSerializer
        (Descriptor.message "pkg.M" 2 (Descriptor.file (FileDescriptor.mk "a.proto" [])))
        (some [(SkipKnownTypes, ConfigValue.other "true")])
      = Run.ret (Except.error "skip.known.types must be a boolean value") :=
  (C17_wrong_value_type
    (Descriptor.message "pkg.M" 2 (Descriptor.file (FileDescriptor.mk "a.proto" []))) [2, 4]
    [(SkipKnownTypes, ConfigValue.other "true")] rfl).2.2.2.1
    (ConfigValue.other "true") true false rfl rfl rfl rfl rfl

/-! ## Schema-ID resolution and dependency resolution (C13, C18, C19, C20) -/

/-- C13. If `getSchemaID` succeeds for a subject, then `getSchemaID` for the same
subject on the serializer it leaves returns the same ID, leaves the serializer
as it is, and leaves the registry as it is, without any call, whatever the
client, the context, the descriptor and the state of the registry. -/
theorem C13_idempotent_resolution {ρ ε μ : Type} (env : Env ρ ε μ)
    (ps ps1 : ProtobufSerializer) (ctx : SerializationContext) (md : Descriptor)
    (subject : String) (reg reg1 : Registry ρ) (schemaID : Int)
    (h : getSchemaID env ps ctx md subject reg = (Except.ok schemaID, ps1, reg1)) :
    ∀ {ρ' ε' μ' : Type} (env' : Env ρ' ε' μ') (ctx' : SerializationContext) (md' : Descriptor)
      (reg' : Registry ρ'),
      getSchemaID env' ps1 ctx' md' subject reg' = (Except.ok schemaID, ps1, reg') := by
  intro ρ' ε' μ' env' ctx' md' reg'
  exact getSchemaID_hit env' ps1 ctx' md' subject reg' schemaID
    (getSchemaID_ok_cached env ps ps1 ctx md subject reg reg1 schemaID h)

/-- C13 at a serializer in use-latest-version mode with an empty cache and a
registry that answers the first call with the ID 7: the second resolution, with a
client that fails every call, still returns 7 and issues no call. -/
theorem C13_idempotent_resolution_witness :
    getSchemaID
      ({ client := fun (n : Nat) _ => (Except.error "registry down", n + 1),
         Marshal := fun (m : List Nat) => (Except.ok m : Except String (List Nat)),
         DescriptorOf := fun _ => Descriptor.file (FileDescriptor.mk "a.proto" []),
         fileDescriptorToString := fun fd => Except.ok fd.Path } : Env Nat String (List Nat))
      { msgIndexBytes := [0], autoRegisterSchemas := false, useLatestVersion := true,
        skipKnownTypes := false, knownSubjects := [("t-value", 7)],
        subjectNameStrategy := TopicSubjectNameStrategy,
        referenceSubjectNameStrategy := ReferenceSubjectNameStrategy }
      { Topic := "t", Field := MessageFieldValue }
      (Descriptor.message "pkg.M" 0 (Descriptor.file (FileDescriptor.mk "a.proto" [])))
      "t-value" { state := 1, calls := [RegistryCall.GetLatestSchema "t-value"] }
    = (Except.ok 7,
        { msgIndexBytes := [0], autoRegisterSchemas := false, useLatestVersion := true,
          skipKnownTypes := false, knownSubjects := [("t-value", 7)],
          subjectNameStrategy := TopicSubjectNameStrategy,
          referenceSubjectNameStrategy := ReferenceSubjectNameStrategy },
        { state := 1, calls := [RegistryCall.GetLatestSchema "t-value"] }) :=
  C13_idempotent_resolution
    ({ client := fun (n : Nat) _ => (Except.ok { id := 7 + n, version := 1 }, n + 1),
       Marshal := fun (m : List Nat) => (Except.ok m : Except Unit (List Nat)),
       DescriptorOf := fun _ => Descriptor.file (FileDescriptor.mk "a.proto" []),
       fileDescriptorToString := fun fd => Except.ok fd.Path } : Env Nat Unit (List Nat))
    { msgIndexBytes := [0], autoRegisterSchemas := false, useLatestVersion := true,
      skipKnownTypes := false, knownSubjects := [],
      subjectNameStrategy := TopicSubjectNameStrategy,
      referenceSubjectNameStrategy := ReferenceSubjectNameStrategy }
    { msgIndexBytes := [0], autoRegisterSchemas := false, useLatestVersion := true,
      skipKnownTypes := false, knownSubjects := [("t-value", 7)],
      subjectNameStrategy := TopicSubjectNameStrategy,
      referenceSubjectNameStrategy := ReferenceSubjectNameStrategy }
    { Topic := "t", Field := MessageFieldValue }
    (Descriptor.message "pkg.M" 0 (Descriptor.file (FileDescriptor.mk "a.proto" [])))
    "t-value" { state := 0, calls := [] }
    { state := 1, calls := [RegistryCall.GetLatestSchema "t-value"] } 7 rfl
    ({ client := fun (n : Nat) _ => (Except.error "registry down", n + 1),
       Marshal := fun (m : List Nat) => (Except.ok m : Except String (List Nat)),
       DescriptorOf := fun _ => Descriptor.file (FileDescriptor.mk "a.proto" []),
       fileDescriptorToString := fun fd => Except.ok fd.Path } : Env Nat String (List Nat))
    { Topic := "t", Field := MessageFieldValue }
    (Descriptor.message "pkg.M" 0 (Descriptor.file (FileDescriptor.mk "a.proto" [])))
    { state := 1, calls := [RegistryCall.GetLatestSchema "t-value"] }

/-- C18. On a cache miss: in use-latest-version mode `getSchemaID` issues exactly
one call, `GetLatestSchema(subject)`, and when the registry answers with a schema
it returns the ID of that schema; in default mode, once `resolveDependencies` has
returned the references of the file of the message and the file descriptor is
encoded, it issues exactly one more call, `CreateSchema` if auto-register is
enabled and `LookupSchema` otherwise, for the subject, the encoded file and the
resolved references, and when the registry answers with a schema it returns the
ID of that schema. In both modes the returned ID is in the cache under the
subject afterwards, the rest of the serializer being unchanged. -/
theorem C18_resolution_modes {ρ ε μ : Type} (env : Env ρ ε μ) (ps : ProtobufSerializer)
    (ctx : SerializationContext) (md : Descriptor) (subject : String) (reg : Registry ρ)
    (hmiss : knownSubjectsGet ps.knownSubjects subject = none) :
    (ps.useLatestVersion = true →
      (getSchemaID env ps ctx md subject reg).2.2.calls
        = reg.calls ++ [RegistryCall.GetLatestSchema subject] ∧
      ∀ theSchema : Schema,
        (env.client reg.state (RegistryCall.GetLatestSchema subject)).1 = Except.ok theSchema →
        (getSchemaID env ps ctx md subject reg).1 = Except.ok theSchema.id ∧
        (getSchemaID env ps ctx md subject reg).2.1
          = { ps with knownSubjects := knownSubjectsSet ps.knownSubjects subject theSchema.id } ∧
        knownSubjectsGet (getSchemaID env ps ctx md subject reg).2.1.knownSubjects subject
          = some theSchema.id) ∧
    (ps.useLatestVersion = false →
      ∀ (schemaRefs : List Reference) (reg1 : Registry ρ) (schemaString : String),
        resolveDependencies env ps ctx md.ParentFile reg = (Except.ok schemaRefs, reg1) →
        env.fileDescriptorToString md.ParentFile = Except.ok schemaString →
        (getSchemaID env ps ctx md subject reg).2.2.calls
          = reg1.calls ++ [if ps.autoRegisterSchemas then
              RegistryCall.CreateSchema subject schemaString SchemaType.Protobuf schemaRefs
            else RegistryCall.LookupSchema subject schemaString SchemaType.Protobuf schemaRefs] ∧
        ∀ theSchema : Schema,
          (env.client reg1.state (if ps.autoRegisterSchemas then
              RegistryCall.CreateSchema subject schemaString SchemaType.Protobuf schemaRefs
            else RegistryCall.LookupSchema subject schemaString SchemaType.Protobuf schemaRefs)).1
            = Except.ok theSchema →
          (getSchemaID env ps ctx md subject reg).1 = Except.ok theSchema.id ∧
          (getSchemaID env ps ctx md subject reg).2.1
            = { ps with knownSubjects := knownSubjectsSet ps.knownSubjects subject theSchema.id } ∧
          knownSubjectsGet (getSchemaID env ps ctx md subject reg).2.1.knownSubjects subject
            = some theSchema.id) := by
  constructor
  · intro hmode
    rw [getSchemaID_latest env ps ctx md subject reg hmiss hmode]
    constructor
    · cases (env.client reg.state (RegistryCall.GetLatestSchema subject)).1 <;> rfl
    · intro theSchema hans
      rw [hans]
      exact ⟨rfl, rfl, knownSubjectsGet_set _ _ _⟩
  · intro hmode schemaRefs reg1 schemaString hdeps hstr
    rw [getSchemaID_default env ps ctx md subject reg reg1 schemaRefs schemaString hmiss hmode
      hdeps hstr _ rfl]
    constructor
    · cases (env.client reg1.state (if ps.autoRegisterSchemas then
          RegistryCall.CreateSchema subject schemaString SchemaType.Protobuf schemaRefs
        else RegistryCall.LookupSchema subject schemaString SchemaType.Protobuf schemaRefs)).1
        <;> rfl
    · intro theSchema hans
      rw [hans]
      exact ⟨rfl, rfl, knownSubjectsGet_set _ _ _⟩

/-- C18 at a serializer in default mode with auto-register, for a message of the
file `a.proto` that imports `dep.proto`: the calls for the import come first,
then the one `CreateSchema` for the subject. -/
theorem C18_resolution_modes_witness :
    (getSchemaID
      ({ client := fun (n : Nat) _ => (Except.ok { id := 7 + n, version := 1 }, n + 1),
         Marshal := fun (m : List Nat) => (Except.ok m : Except Unit (List Nat)),
         DescriptorOf := fun _ => Descriptor.file (FileDescriptor.mk "a.proto" []),
         fileDescriptorToString := fun fd => Except.ok fd.Path } : Env Nat Unit (List Nat))
      { msgIndexBytes := [0], autoRegisterSchemas := true, useLatestVersion := false,
        skipKnownTypes := false, knownSubjects := [],
        subjectNameStrategy := TopicSubjectNameStrategy,
        referenceSubjectNameStrategy := ReferenceSubjectNameStrategy }
      { Topic := "t", Field := MessageFieldValue }
      (Descriptor.message "pkg.M" 0
        (Descriptor.file (FileDescriptor.mk "a.proto" [FileDescriptor.mk "dep.proto" []])))
      "t-value" { state := 0, calls := [] }).2.2.calls
      = [RegistryCall.CreateSchema "dep.proto" "dep.proto" SchemaType.Protobuf [],
         RegistryCall.LookupSchema "dep.proto" "dep.proto" SchemaType.Protobuf []]
        ++ [RegistryCall.CreateSchema "t-value" "a.proto" SchemaType.Protobuf
          [{ Name := "dep.proto", Subject := "dep.proto", Version := 1 }]] :=
  ((C18_resolution_modes
    ({ client := fun (n : Nat) _ => (Except.ok { id := 7 + n, version := 1 }, n + 1),
       Marshal := fun (m : List Nat) => (Except.ok m : Except Unit (List Nat)),
       DescriptorOf := fun _ => Descriptor.file (FileDescriptor.mk "a.proto" []),
       fileDescriptorToString := fun fd => Except.ok fd.Path } : Env Nat Unit (List Nat))
    { msgIndexBytes := [0], autoRegisterSchemas := true, useLatestVersion := false,
      skipKnownTypes := false, knownSubjects := [],
      subjectNameStrategy := TopicSubjectNameStrategy,
      referenceSubjectNameStrategy := ReferenceSubjectNameStrategy }
    { Topic := "t", Field := MessageFieldValue }
    (Descriptor.message "pkg.M" 0
      (Descriptor.file (FileDescriptor.mk "a.proto" [FileDescriptor.mk "dep.proto" []])))
    "t-value" { state := 0, calls := [] } rfl).2 rfl
    [{ Name := "dep.proto", Subject := "dep.proto", Version := 1 }]
    { state := 2,
      calls := [RegistryCall.CreateSchema "dep.proto" "dep.proto" SchemaType.Protobuf [],
        RegistryCall.LookupSchema "dep.proto" "dep.proto" SchemaType.Protobuf []] }
    "a.proto" rfl rfl).1

/-- C19. Whenever `resolveDependencies(ctx, fd)` succeeds, the names and subjects
of the references it returns are, in order, those of the direct imports of `fd`
that are not skipped, one reference per such import: the name is the path of
the import and the subject is the one that the reference naming strategy gives
for it; an import is skipped exactly when skip-known-types is enabled and its
path starts with "google/protobuf/". -/
theorem C19_returned_references {ρ ε μ : Type} (env : Env ρ ε μ) (ps : ProtobufSerializer)
    (ctx : SerializationContext) (fd : FileDescriptor) (reg reg' : Registry ρ)
    (refs : List Reference)
    (h : resolveDependencies env ps ctx fd reg = (Except.ok refs, reg')) :
    refs.map (fun r => (r.Name, r.Subject))
      = (fd.Imports.filter fun i =>
            !(ps.skipKnownTypes && HasPrefix i.Path "google/protobuf/")).map
          fun i => (i.Path, ps.referenceSubjectNameStrategy ctx i) := by
  cases fd with
  | mk path imports =>
    rw [resolveDependencies] at h
    have := resolveImports_refs env ps ctx imports [] reg reg' refs h
    simpa [FileDescriptor.Imports] using this

/-- C19 at a file that imports `nested1.proto`, a well-known type and
`nested2.proto`, the last of which imports `deep.proto`, with skip-known-types
enabled: the two references are those of `nested1.proto` and `nested2.proto`. -/
theorem C19_returned_references_witness :
    ([{ Name := "nested1.proto", Subject := "nested1.proto", Version := 0 },
      { Name := "nested2.proto", Subject := "nested2.proto", Version := 0 }] : List Reference).map
        (fun r => (r.Name, r.Subject))
      = ((FileDescriptor.mk "messagedata.proto"
            [FileDescriptor.mk "nested1.proto" [],
             FileDescriptor.mk "google/protobuf/any.proto" [],
             FileDescriptor.mk "nested2.proto" [FileDescriptor.mk "deep.proto" []]]).Imports.filter
          fun i => !(true && HasPrefix i.Path "google/protobuf/")).map
          fun i => (i.Path, ReferenceSubjectNameStrategy { Topic := "", Field := "" } i) :=
  C19_returned_references
    ({ client := fun (n : Nat) _ => (Except.ok { id := 0, version := 0 }, n + 1),
       Marshal := fun (m : List Nat) => (Except.ok m : Except Unit (List Nat)),
       DescriptorOf := fun _ => Descriptor.file (FileDescriptor.mk "a.proto" []),
       fileDescriptorToString := fun fd => Except.ok fd.Path } : Env Nat Unit (List Nat))
    { msgIndexBytes := [0], autoRegisterSchemas := false, useLatestVersion := false,
      skipKnownTypes := true, knownSubjects := [],
      subjectNameStrategy := TopicSubjectNameStrategy,
      referenceSubjectNameStrategy := ReferenceSubjectNameStrategy }
    { Topic := "", Field := "" }
    (FileDescriptor.mk "messagedata.proto"
      [FileDescriptor.mk "nested1.proto" [],
       FileDescriptor.mk "google/protobuf/any.proto" [],
       FileDescriptor.mk "nested2.proto" [FileDescriptor.mk "deep.proto" []]])
    { state := 0, calls := [] }
    { state := 3,
      calls := [RegistryCall.LookupSchema "nested1.proto" "nested1.proto" SchemaType.Protobuf [],
        RegistryCall.LookupSchema "deep.proto" "deep.proto" SchemaType.Protobuf [],
        RegistryCall.LookupSchema "nested2.proto" "nested2.proto" SchemaType.Protobuf
          [{ Name := "deep.proto", Subject := "deep.proto", Version := 0 }]] }
    [{ Name := "nested1.proto", Subject := "nested1.proto", Version := 0 },
     { Name := "nested2.proto", Subject := "nested2.proto", Version := 0 }]
    rfl

/-- C20, as the code has it. For an import that `resolveDependencies` does not
skip, once the dependencies of the import are resolved and its descriptor is
encoded: with auto-register enabled the loop calls `CreateSchema` and then
`LookupSchema`, both for the subject of the import, its encoded descriptor and the
references of its own dependencies; with auto-register disabled it calls
`LookupSchema` alone. In both cases the version recorded in the reference is the
version of the schema that `LookupSchema` returned. -/
theorem C20_register_then_look_up {ρ ε μ : Type} (env : Env ρ ε μ) (ps : ProtobufSerializer)
    (ctx : SerializationContext) (fileImport : FileDescriptor) (rest : List FileDescriptor)
    (schemaRefs depRefs : List Reference) (reg reg1 : Registry ρ) (schemaString : String)
    (hskip : (ps.skipKnownTypes && HasPrefix fileImport.Path "google/protobuf/") = false)
    (hdeps : resolveDependencies env ps ctx fileImport reg = (Except.ok depRefs, reg1))
    (hstr : env.fileDescriptorToString fileImport = Except.ok schemaString) :
    (ps.autoRegisterSchemas = true →
      ∀ (created reference : Schema),
        (env.client reg1.state (RegistryCall.CreateSchema
          (ps.referenceSubjectNameStrategy ctx fileImport) schemaString SchemaType.Protobuf
          depRefs)).1 = Except.ok created →
        (env.client
          (env.client reg1.state (RegistryCall.CreateSchema
            (ps.referenceSubjectNameStrategy ctx fileImport) schemaString SchemaType.Protobuf
            depRefs)).2
          (RegistryCall.LookupSchema (ps.referenceSubjectNameStrategy ctx fileImport)
            schemaString SchemaType.Protobuf depRefs)).1 = Except.ok reference →
        resolveImports env ps ctx (fileImport :: rest) schemaRefs reg
          = resolveImports env ps ctx rest
              (schemaRefs ++ [{ Name := fileImport.Path,
                                Subject := ps.referenceSubjectNameStrategy ctx fileImport,
                                Version := reference.version }])
              { state := (env.client
                  (env.client reg1.state (RegistryCall.CreateSchema
                    (ps.referenceSubjectNameStrategy ctx fileImport) schemaString
                    SchemaType.Protobuf depRefs)).2
                  (RegistryCall.LookupSchema (ps.referenceSubjectNameStrategy ctx fileImport)
                    schemaString SchemaType.Protobuf depRefs)).2,
                calls := reg1.calls ++
                  [RegistryCall.CreateSchema (ps.referenceSubjectNameStrategy ctx fileImport)
                    schemaString SchemaType.Protobuf depRefs,
                   RegistryCall.LookupSchema (ps.referenceSubjectNameStrategy ctx fileImport)
                    schemaString SchemaType.Protobuf depRefs] }) ∧
    (ps.autoRegisterSchemas = false →
      ∀ (reference : Schema),
        (env.client reg1.state
          (RegistryCall.LookupSchema (ps.referenceSubjectNameStrategy ctx fileImport)
            schemaString SchemaType.Protobuf depRefs)).1 = Except.ok reference →
        resolveImports env ps ctx (fileImport :: rest) schemaRefs reg
          = resolveImports env ps ctx rest
              (schemaRefs ++ [{ Name := fileImport.Path,
                                Subject := ps.referenceSubjectNameStrategy ctx fileImport,
                                Version := reference.version }])
              { state := (env.client reg1.state
                  (RegistryCall.LookupSchema (ps.referenceSubjectNameStrategy ctx fileImport)
                    schemaString SchemaType.Protobuf depRefs)).2,
                calls := reg1.calls ++
                  [RegistryCall.LookupSchema (ps.referenceSubjectNameStrategy ctx fileImport)
                    schemaString SchemaType.Protobuf depRefs] }) :=
  resolveImports_step env ps ctx fileImport rest schemaRefs depRefs reg reg1 schemaString
    hskip hdeps hstr

/-- C20 at a file that imports `dep.proto` alone, auto-register being enabled,
with a registry that gives version 1 to what it registers and version 2 to what
it looks up: the loop issues the two calls and records version 2. -/
theorem C20_register_then_look_up_witness :
    resolveImports
        ({ client := fun (n : Nat) c =>
             match c with
             | RegistryCall.CreateSchema _ _ _ _ => (Except.ok { id := 5, version := 1 }, n + 1)
             | _ => (Except.ok { id := 5, version := 2 }, n + 1),
           Marshal := fun (m : List Nat) => (Except.ok m : Except Unit (List Nat)),
           DescriptorOf := fun _ => Descriptor.file (FileDescriptor.mk "a.proto" []),
           fileDescriptorToString := fun fd => Except.ok fd.Path } : Env Nat Unit (List Nat))
        { msgIndexBytes := [0], autoRegisterSchemas := true, useLatestVersion := false,
          skipKnownTypes := false, knownSubjects := [],
          subjectNameStrategy := TopicSubjectNameStrategy,
          referenceSubjectNameStrategy := ReferenceSubjectNameStrategy }
        { Topic := "t", Field := MessageFieldValue }
        [FileDescriptor.mk "dep.proto" []] [] { state := 0, calls := [] }
      = (Except.ok [{ Name := "dep.proto", Subject := "dep.proto", Version := 2 }],
          { state := 2,
            calls := [RegistryCall.CreateSchema "dep.proto" "dep.proto" SchemaType.Protobuf [],
              RegistryCall.LookupSchema "dep.proto" "dep.proto" SchemaType.Protobuf []] }) :=
  ((C20_register_then_look_up
    ({ client := fun (n : Nat) c =>
         match c with
         | RegistryCall.CreateSchema _ _ _ _ => (Except.ok { id := 5, version := 1 }, n + 1)
         | _ => (Except.ok { id := 5, version := 2 }, n + 1),
       Marshal := fun (m : List Nat) => (Except.ok m : Except Unit (List Nat)),
       DescriptorOf := fun _ => Descriptor.file (FileDescriptor.mk "a.proto" []),
       fileDescriptorToString := fun fd => Except.ok fd.Path } : Env Nat Unit (List Nat))
    { msgIndexBytes := [0], autoRegisterSchemas := true, useLatestVersion := false,
      skipKnownTypes := false, knownSubjects := [],
      subjectNameStrategy := TopicSubjectNameStrategy,
      referenceSubjectNameStrategy := ReferenceSubjectNameStrategy }
    { Topic := "t", Field := MessageFieldValue }
    (FileDescriptor.mk "dep.proto" []) [] [] [] { state := 0, calls := [] }
    { state := 0, calls := [] } "dep.proto" rfl rfl rfl).1 rfl
    { id := 5, version := 1 } { id := 5, version := 2 } rfl rfl).trans rfl

/-- C20 as stated fails with auto-register enabled: for the one import
`dep.proto` of a file, `resolveDependencies` issues two registry calls for the
subject of the import, `CreateSchema` and then `LookupSchema`, and the version in
the reference (2) is the one `LookupSchema` returned, not the one `CreateSchema`
returned (1). -/
theorem C20_counterexample :
    (resolveDependencies
        ({ client := fun (n : Nat) c =>
             match c with
             | RegistryCall.CreateSchema _ _ _ _ => (Except.ok { id := 5, version := 1 }, n + 1)
             | _ => (Except.ok { id := 5, version := 2 }, n + 1),
           Marshal := fun (m : List Nat) => (Except.ok m : Except Unit (List Nat)),
           DescriptorOf := fun _ => Descriptor.file (FileDescriptor.mk "a.proto" []),
           fileDescriptorToString := fun fd => Except.ok fd.Path } : Env Nat Unit (List Nat))
        { msgIndexBytes := [0], autoRegisterSchemas := true, useLatestVersion := false,
          skipKnownTypes := false, knownSubjects := [],
          subjectNameStrategy := TopicSubjectNameStrategy,
          referenceSubjectNameStrategy := ReferenceSubjectNameStrategy }
        { Topic := "t", Field := MessageFieldValue }
        (FileDescriptor.mk "a.proto" [FileDescriptor.mk "dep.proto" []])
        { state := 0, calls := [] }).1
      = Except.ok [{ Name := "dep.proto", Subject := "dep.proto", Version := 2 }] ∧
    (resolveDependencies
        ({ client := fun (n : Nat) c =>
             match c with
             | RegistryCall.CreateSchema _ _ _ _ => (Except.ok { id := 5, version := 1 }, n + 1)
             | _ => (Except.ok { id := 5, version := 2 }, n + 1),
           Marshal := fun (m : List Nat) => (Except.ok m : Except Unit (List Nat)),
           DescriptorOf := fun _ => Descriptor.file (FileDescriptor.mk "a.proto" []),
           fileDescriptorToString := fun fd => Except.ok fd.Path } : Env Nat Unit (List Nat))
        { msgIndexBytes := [0], autoRegisterSchemas := true, useLatestVersion := false,
          skipKnownTypes := false, knownSubjects := [],
          subjectNameStrategy := TopicSubjectNameStrategy,
          referenceSubjectNameStrategy := ReferenceSubjectNameStrategy }
        { Topic := "t", Field := MessageFieldValue }
        (FileDescriptor.mk "a.proto" [FileDescriptor.mk "dep.proto" []])
        { state := 0, calls := [] }).2.calls
      = [RegistryCall.CreateSchema "dep.proto" "dep.proto" SchemaType.Protobuf [],
         RegistryCall.LookupSchema "dep.proto" "dep.proto" SchemaType.Protobuf []] :=
  ⟨rfl, rfl⟩

/-! ## The order of the registry calls of `resolveDependencies` (C21) -/

/-- The calls after one call of the client. -/
theorem call_calls {ρ ε : Type} (client : SchemaRegistryClient ρ ε) (reg : Registry ρ)
    (c : RegistryCall) (r : Except ε Schema × Registry ρ) (h : reg.call client c = r) :
    r.2.calls = reg.calls ++ [c] := by
  rw [← h]
  rfl

mutual

/-- Every run of `resolveDependencies` issues its calls in post-order. -/
theorem resolveDependencies_postOrder {ρ ε μ : Type} (env : Env ρ ε μ)
    (ps : ProtobufSerializer) (ctx : SerializationContext) :
    ∀ (fd : FileDescriptor) (reg : Registry ρ),
      ∃ calls,
        (resolveDependencies env ps ctx fd reg).2.calls = reg.calls ++ calls ∧
        PostOrder env ps ctx fd.Imports reg (resolveDependencies env ps ctx fd reg).1 calls
          (resolveDependencies env ps ctx fd reg).2
  | FileDescriptor.mk _ imports, reg => by
    rw [resolveDependencies]
    obtain ⟨res, calls, hres, hcalls, hpo⟩ := resolveImports_postOrder env ps ctx imports [] reg
    have hres' : (resolveImports env ps ctx imports [] reg).1 = res := by
      rw [hres]
      cases res <;> rfl
    rw [hres']
    exact ⟨calls, hcalls, hpo⟩

/-- Every run of the loop of `resolveDependencies` issues its calls in
post-order, and a run that succeeds appends its references to those it was
given. -/
theorem resolveImports_postOrder {ρ ε μ : Type} (env : Env ρ ε μ)
    (ps : ProtobufSerializer) (ctx : SerializationContext) :
    ∀ (imports : List FileDescriptor) (schemaRefs : List Reference) (reg : Registry ρ),
      ∃ res calls,
        (resolveImports env ps ctx imports schemaRefs reg).1
          = res.map (fun refs => schemaRefs ++ refs) ∧
        (resolveImports env ps ctx imports schemaRefs reg).2.calls = reg.calls ++ calls ∧
        PostOrder env ps ctx imports reg res calls
          (resolveImports env ps ctx imports schemaRefs reg).2
  | [], schemaRefs, reg => by
    rw [resolveImports_nil]
    exact ⟨Except.ok [], [], by simp [Except.map], (List.append_nil _).symm, PostOrder.nil _⟩
  | fileImport :: rest, schemaRefs, reg => by
    cases hskip : (ps.skipKnownTypes && HasPrefix fileImport.Path "google/protobuf/")
    · obtain ⟨depCalls, hc1, hpo1⟩ := resolveDependencies_postOrder env ps ctx fileImport reg
      have hrest := fun acc reg3 => resolveImports_postOrder env ps ctx rest acc reg3
      rw [resolveImports, if_neg (by simp [hskip])]
      generalize hr1 : resolveDependencies env ps ctx fileImport reg = r1 at hc1 hpo1 ⊢
      obtain ⟨res1, reg1⟩ := r1
      cases res1 with
      | error err =>
        exact ⟨Except.error err, depCalls, rfl, hc1,
          PostOrder.stopInside fileImport rest reg reg1 depCalls err hskip hr1 hpo1⟩
      | ok depRefs =>
        simp only [] at hc1 hpo1 ⊢
        cases hstr : env.fileDescriptorToString fileImport with
        | error err =>
          exact ⟨Except.error err, depCalls, rfl, hc1,
            PostOrder.stopEncoding fileImport rest reg reg1 depRefs depCalls err hskip hr1 hpo1
              hstr⟩
        | ok schemaString =>
          simp only []
          have hrc : ∀ b : Bool, ps.autoRegisterSchemas = b →
              referenceCalls ps (ps.referenceSubjectNameStrategy ctx fileImport) schemaString
                depRefs
              = (if b then
                  [RegistryCall.CreateSchema (ps.referenceSubjectNameStrategy ctx fileImport)
                    schemaString SchemaType.Protobuf depRefs]
                else []) ++
                [RegistryCall.LookupSchema (ps.referenceSubjectNameStrategy ctx fileImport)
                  schemaString SchemaType.Protobuf depRefs] := by
            intro b hb
            rw [referenceCalls, hb]
          cases hauto : ps.autoRegisterSchemas
          · have hrc := hrc false hauto
            simp only [Bool.false_eq_true, if_false, List.nil_append] at hrc ⊢
            generalize hrl : reg1.call env.client
              (RegistryCall.LookupSchema (ps.referenceSubjectNameStrategy ctx fileImport)
                schemaString SchemaType.Protobuf depRefs) = rl
            have hl := call_calls _ _ _ _ hrl
            obtain ⟨ansl, reg3⟩ := rl
            simp only [] at hl
            cases ansl with
            | error err =>
              refine ⟨Except.error err, depCalls ++ _, rfl, ?_,
                PostOrder.stopAt fileImport rest reg reg1 reg3 depRefs depCalls _ schemaString
                  err hskip hr1 hpo1 hstr (hrc ▸ List.prefix_refl _) (by simp) hl⟩
              rw [hl, hc1, List.append_assoc]
            | ok reference =>
              obtain ⟨res, calls, hres, hcalls, hpo⟩ := hrest
                (schemaRefs ++ [{ Name := fileImport.Path,
                                  Subject := ps.referenceSubjectNameStrategy ctx fileImport,
                                  Version := reference.version }]) reg3
              refine ⟨_, _, ?_, ?_,
                PostOrder.visit fileImport rest reg reg1 reg3 _ depRefs res depCalls calls
                  schemaString reference.version hskip hr1 hpo1 hstr (hrc ▸ hl) hpo⟩
              · simp only []
                rw [hres]
                cases res <;> simp [Except.map]
              · simp only []
                rw [hcalls, hl, hc1, hrc]
                simp only [List.append_assoc]
          · have hrc := hrc true hauto
            simp only [if_true, List.singleton_append] at hrc ⊢
            generalize hrc1 : reg1.call env.client
              (RegistryCall.CreateSchema (ps.referenceSubjectNameStrategy ctx fileImport)
                schemaString SchemaType.Protobuf depRefs) = rc
            have hc := call_calls _ _ _ _ hrc1
            obtain ⟨ansc, reg2⟩ := rc
            simp only [] at hc
            cases ansc with
            | error err =>
              refine ⟨Except.error err, depCalls ++ _, rfl, ?_,
                PostOrder.stopAt fileImport rest reg reg1 reg2 depRefs depCalls _ schemaString
                  err hskip hr1 hpo1 hstr (hrc ▸ ⟨_, List.singleton_append⟩) (by simp) hc⟩
              rw [hc, hc1, List.append_assoc]
            | ok created =>
              simp only []
              generalize hrl : reg2.call env.client
                (RegistryCall.LookupSchema (ps.referenceSubjectNameStrategy ctx fileImport)
                  schemaString SchemaType.Protobuf depRefs) = rl
              have hl := call_calls _ _ _ _ hrl
              obtain ⟨ansl, reg3⟩ := rl
              simp only [] at hl
              rw [hc, List.append_assoc, List.singleton_append] at hl
              cases ansl with
              | error err =>
                refine ⟨Except.error err, depCalls ++ _, rfl, ?_,
                  PostOrder.stopAt fileImport rest reg reg1 reg3 depRefs depCalls _ schemaString
                    err hskip hr1 hpo1 hstr (hrc ▸ List.prefix_refl _) (by simp) hl⟩
                rw [hl, hc1, List.append_assoc]
              | ok reference =>
                obtain ⟨res, calls, hres, hcalls, hpo⟩ := hrest
                  (schemaRefs ++ [{ Name := fileImport.Path,
                                    Subject := ps.referenceSubjectNameStrategy ctx fileImport,
                                    Version := reference.version }]) reg3
                refine ⟨_, _, ?_, ?_,
                  PostOrder.visit fileImport rest reg reg1 reg3 _ depRefs res depCalls calls
                    schemaString reference.version hskip hr1 hpo1 hstr (hrc ▸ hl) hpo⟩
                · simp only []
                  rw [hres]
                  cases res <;> simp [Except.map]
                · simp only []
                  rw [hcalls, hl, hc1, hrc]
                  simp only [List.append_assoc]
    · rw [resolveImports_skip _ _ _ _ _ _ _ hskip]
      obtain ⟨res, calls, hres, hcalls, hpo⟩ :=
        resolveImports_postOrder env ps ctx rest schemaRefs reg
      exact ⟨res, calls, hres, hcalls,
        PostOrder.skip fileImport rest reg _ res calls hskip hpo⟩

end

/-- C21. Every run of `resolveDependencies(ctx, fd)`, from every state of the
registry, appends to the log of calls a sequence `calls` that is in post-order
over the imports of `fd`: the direct imports are gone through in declaration
order, a skipped import issues nothing, and for an import that is not skipped
all the calls of the resolution of the import's own file come first, then the
calls for the import itself (`CreateSchema` if auto-register is enabled, then
`LookupSchema`), which carry exactly the references that `resolveDependencies`
returned for the import's own file, then the calls for the later imports. A run
that fails stops within this order. -/
theorem C21_post_order {ρ ε μ : Type} (env : Env ρ ε μ) (ps : ProtobufSerializer)
    (ctx : SerializationContext) (fd : FileDescriptor) (reg : Registry ρ) :
    ∃ calls,
      (resolveDependencies env ps ctx fd reg).2.calls = reg.calls ++ calls ∧
      PostOrder env ps ctx fd.Imports reg (resolveDependencies env ps ctx fd reg).1 calls
        (resolveDependencies env ps ctx fd reg).2 :=
  resolveDependencies_postOrder env ps ctx fd reg

/-- C21 at the file `a.proto` that imports `b.proto`, a well-known type and
`d.proto`, where `b.proto` imports `c.proto`, with skip-known-types enabled and
auto-register disabled, and a registry that gives its state as version: the
property holds for this run, and the calls are those for `c.proto`, then for
`b.proto` with the reference to `c.proto`, then for `d.proto`. -/
theorem C21_post_order_witness :
    (∃ calls,
      (resolveDependencies
        ({ client := fun (n : Nat) _ => (Except.ok { id := 1, version := n }, n + 1),
           Marshal := fun (m : List Nat) => (Except.ok m : Except Unit (List Nat)),
           DescriptorOf := fun _ => Descriptor.file (FileDescriptor.mk "a.proto" []),
           fileDescriptorToString := fun fd => Except.ok fd.Path } : Env Nat Unit (List Nat))
        { msgIndexBytes := [0], autoRegisterSchemas := false, useLatestVersion := false,
          skipKnownTypes := true, knownSubjects := [],
          subjectNameStrategy := TopicSubjectNameStrategy,
          referenceSubjectNameStrategy := ReferenceSubjectNameStrategy }
        { Topic := "t", Field := MessageFieldValue }
        (FileDescriptor.mk "a.proto"
          [FileDescriptor.mk "b.proto" [FileDescriptor.mk "c.proto" []],
           FileDescriptor.mk "google/protobuf/any.proto" [],
           FileDescriptor.mk "d.proto" []])
        { state := 0, calls := [] }).2.calls = [] ++ calls ∧
      PostOrder
        ({ client := fun (n : Nat) _ => (Except.ok { id := 1, version := n }, n + 1),
           Marshal := fun (m : List Nat) => (Except.ok m : Except Unit (List Nat)),
           DescriptorOf := fun _ => Descriptor.file (FileDescriptor.mk "a.proto" []),
           fileDescriptorToString := fun fd => Except.ok fd.Path } : Env Nat Unit (List Nat))
        { msgIndexBytes := [0], autoRegisterSchemas := false, useLatestVersion := false,
          skipKnownTypes := true, knownSubjects := [],
          subjectNameStrategy := TopicSubjectNameStrategy,
          referenceSubjectNameStrategy := ReferenceSubjectNameStrategy }
        { Topic := "t", Field := MessageFieldValue }
        (FileDescriptor.mk "a.proto"
          [FileDescriptor.mk "b.proto" [FileDescriptor.mk "c.proto" []],
           FileDescriptor.mk "google/protobuf/any.proto" [],
           FileDescriptor.mk "d.proto" []]).Imports
        { state := 0, calls := [] }
        (Except.ok [{ Name := "b.proto", Subject := "b.proto", Version := 1 },
                    { Name := "d.proto", Subject := "d.proto", Version := 2 }])
        calls
        { state := 3,
          calls := [RegistryCall.LookupSchema "c.proto" "c.proto" SchemaType.Protobuf [],
            RegistryCall.LookupSchema "b.proto" "b.proto" SchemaType.Protobuf
              [{ Name := "c.proto", Subject := "c.proto", Version := 0 }],
            RegistryCall.LookupSchema "d.proto" "d.proto" SchemaType.Protobuf []] }) :=
  C21_post_order
    ({ client := fun (n : Nat) _ => (Except.ok { id := 1, version := n }, n + 1),
       Marshal := fun (m : List Nat) => (Except.ok m : Except Unit (List Nat)),
       DescriptorOf := fun _ => Descriptor.file (FileDescriptor.mk "a.proto" []),
       fileDescriptorToString := fun fd => Except.ok fd.Path } : Env Nat Unit (List Nat))
    { msgIndexBytes := [0], autoRegisterSchemas := false, useLatestVersion := false,
      skipKnownTypes := true, knownSubjects := [],
      subjectNameStrategy := TopicSubjectNameStrategy,
      referenceSubjectNameStrategy := ReferenceSubjectNameStrategy }
    { Topic := "t", Field := MessageFieldValue }
    (FileDescriptor.mk "a.proto"
      [FileDescriptor.mk "b.proto" [FileDescriptor.mk "c.proto" []],
       FileDescriptor.mk "google/protobuf/any.proto" [],
       FileDescriptor.mk "d.proto" []])
    { state := 0, calls := [] }

/-! ## Registry failures (C22) -/

theorem runsTo_refl {ρ ε α : Type} (reg : Registry (ρ × AnswerLog ε)) (res : Except ε α) :
    RunsTo reg reg res :=
  ⟨[], (List.append_nil _).symm, by simp, Or.inl (fun a ha => by cases ha)⟩

/-- One call of the recording client. -/
theorem runsTo_call {ρ ε : Type} (client : SchemaRegistryClient ρ ε)
    (reg : Registry (ρ × AnswerLog ε)) (c : RegistryCall) :
    RunsTo reg (reg.call (recordingClient client) c).2 (reg.call (recordingClient client) c).1 := by
  refine ⟨[(c, (client reg.state.1 c).1)], rfl, rfl, ?_⟩
  cases hans : (client reg.state.1 c).1 with
  | ok s =>
    left
    intro a ha
    simp only [List.mem_singleton] at ha
    subst ha
    exact ⟨s, rfl⟩
  | error e =>
    right
    refine ⟨[], c, e, rfl, fun a ha => (by cases ha), ?_⟩
    simp only [Registry.call, recordingClient, hans]

/-- A run that ended on a registry error, seen at another result type. -/
theorem runsTo_error {ρ ε α β : Type} {reg reg' : Registry (ρ × AnswerLog ε)} {e : ε}
    (h : RunsTo reg reg' (Except.error e : Except ε α)) :
    RunsTo reg reg' (Except.error e : Except ε β) := by
  obtain ⟨new, h1, h2, h3⟩ := h
  refine ⟨new, h1, h2, ?_⟩
  rcases h3 with h3 | ⟨pre, c, e', hnew, hpre, hres⟩
  · exact Or.inl h3
  · injection hres with hres
    subst hres
    exact Or.inr ⟨pre, c, e, hnew, hpre, rfl⟩

/-- A run that returned a value got a schema for every call; whatever is
returned after it without a further call is consistent with its log. -/
theorem runsTo_of_ok {ρ ε α β : Type} {reg reg' : Registry (ρ × AnswerLog ε)} {x : α}
    (h : RunsTo reg reg' (Except.ok x : Except ε α)) (res : Except ε β) :
    RunsTo reg reg' res := by
  obtain ⟨new, h1, h2, h3⟩ := h
  refine ⟨new, h1, h2, ?_⟩
  rcases h3 with h3 | ⟨pre, c, e', hnew, hpre, hres⟩
  · exact Or.inl h3
  · cases hres

/-- A run that returned a value, followed by a second run. -/
theorem runsTo_trans {ρ ε α β : Type} {reg reg1 reg2 : Registry (ρ × AnswerLog ε)} {x : α}
    {res : Except ε β} (h : RunsTo reg reg1 (Except.ok x : Except ε α))
    (h' : RunsTo reg1 reg2 res) : RunsTo reg reg2 res := by
  obtain ⟨new, h1, h2, h3⟩ := h
  obtain ⟨new', h1', h2', h3'⟩ := h'
  have hclean : cleanAnswers new := by
    rcases h3 with h3 | ⟨pre, c, e', hnew, hpre, hres⟩
    · exact h3
    · cases hres
  refine ⟨new ++ new', ?_, ?_, ?_⟩
  · rw [h1', h1, List.append_assoc]
  · rw [h2', h2, List.map_append, List.append_assoc]
  · rcases h3' with h3' | ⟨pre, c, e, hnew, hpre, hres⟩
    · left
      intro a ha
      rcases List.mem_append.mp ha with ha | ha
      · exact hclean a ha
      · exact h3' a ha
    · right
      refine ⟨new ++ pre, c, e, ?_, ?_, hres⟩
      · rw [hnew, List.append_assoc]
      · intro a ha
        rcases List.mem_append.mp ha with ha | ha
        · exact hclean a ha
        · exact hpre a ha

/-- The two forms of the abort property agree. -/
theorem runsTo_stopsAtFailure {ρ ε α : Type} {reg reg' : Registry (ρ × AnswerLog ε)}
    {res : Except ε α} (h : RunsTo reg reg' res) :
    ∃ new : AnswerLog ε, reg'.state.2 = reg.state.2 ++ new ∧
      reg'.calls = reg.calls ++ new.map Prod.fst ∧ stopsAtFailure new res := by
  obtain ⟨new, h1, h2, h3⟩ := h
  refine ⟨new, h1, h2, ?_⟩
  intro pre c e post hnew
  rcases h3 with h3 | ⟨pre', c', e', hnew', hpre, hres⟩
  · obtain ⟨s, hs⟩ := h3 (c, Except.error e) (by rw [hnew]; simp)
    cases hs
  · rw [hnew] at hnew'
    rcases List.eq_nil_or_concat post with hpost | ⟨post', y, hpost⟩
    · subst hpost
      have := List.append_inj_right' hnew' rfl
      injection this with this _
      injection this with _ this
      injection this with this
      subst this
      exact ⟨rfl, hres⟩
    · exfalso
      rw [hpost, List.concat_eq_append, ← List.cons_append, ← List.append_assoc] at hnew'
      have hpre' := List.append_inj_left' hnew' rfl
      obtain ⟨s, hs⟩ := hpre (c, Except.error e) (by rw [← hpre']; simp)
      cases hs

mutual

/-- With the recording client, `resolveDependencies` stops at the first call that
the registry answers with an error, and returns that error. -/
theorem resolveDependencies_runsTo {ρ ε μ : Type} (env : Env ρ ε μ) (ps : ProtobufSerializer)
    (ctx : SerializationContext) :
    ∀ (fd : FileDescriptor) (reg : Registry (ρ × AnswerLog ε)),
      RunsTo reg (resolveDependencies env.recording ps ctx fd reg).2
        (resolveDependencies env.recording ps ctx fd reg).1
  | FileDescriptor.mk _ imports, reg => by
    rw [resolveDependencies]
    exact resolveImports_runsTo env ps ctx imports [] reg

/-- With the recording client, the loop of `resolveDependencies` stops at the
first call that the registry answers with an error, and returns that error. -/
theorem resolveImports_runsTo {ρ ε μ : Type} (env : Env ρ ε μ) (ps : ProtobufSerializer)
    (ctx : SerializationContext) :
    ∀ (imports : List FileDescriptor) (schemaRefs : List Reference)
      (reg : Registry (ρ × AnswerLog ε)),
      RunsTo reg (resolveImports env.recording ps ctx imports schemaRefs reg).2
        (resolveImports env.recording ps ctx imports schemaRefs reg).1
  | [], schemaRefs, reg => by
    rw [resolveImports_nil]
    exact runsTo_refl reg _
  | fileImport :: rest, schemaRefs, reg => by
    cases hskip : (ps.skipKnownTypes && HasPrefix fileImport.Path "google/protobuf/")
    · have hdeps := resolveDependencies_runsTo env ps ctx fileImport reg
      rw [resolveImports, if_neg (by simp [hskip])]
      generalize resolveDependencies env.recording ps ctx fileImport reg = r1 at hdeps ⊢
      obtain ⟨res1, reg1⟩ := r1
      cases res1 with
      | error err => exact runsTo_error hdeps
      | ok depRefs =>
        simp only []
        cases hstr : env.recording.fileDescriptorToString fileImport with
        | error err => exact runsTo_of_ok hdeps _
        | ok schemaString =>
          simp only []
          cases hauto : ps.autoRegisterSchemas
          · simp only [Bool.false_eq_true, if_false]
            have hcall := runsTo_call env.client reg1
              (RegistryCall.LookupSchema (ps.referenceSubjectNameStrategy ctx fileImport)
                schemaString SchemaType.Protobuf depRefs)
            change RunsTo reg1 (reg1.call env.recording.client _).2
              (reg1.call env.recording.client _).1 at hcall
            generalize reg1.call env.recording.client
              (RegistryCall.LookupSchema (ps.referenceSubjectNameStrategy ctx fileImport)
                schemaString SchemaType.Protobuf depRefs) = rl at hcall ⊢
            obtain ⟨ansl, reg3⟩ := rl
            cases ansl with
            | error err => exact runsTo_trans hdeps (runsTo_error hcall)
            | ok reference =>
              exact runsTo_trans hdeps
                (runsTo_trans hcall (resolveImports_runsTo env ps ctx rest _ reg3))
          · simp only [if_true]
            have hcreate := runsTo_call env.client reg1
              (RegistryCall.CreateSchema (ps.referenceSubjectNameStrategy ctx fileImport)
                schemaString SchemaType.Protobuf depRefs)
            change RunsTo reg1 (reg1.call env.recording.client _).2
              (reg1.call env.recording.client _).1 at hcreate
            generalize reg1.call env.recording.client
              (RegistryCall.CreateSchema (ps.referenceSubjectNameStrategy ctx fileImport)
                schemaString SchemaType.Protobuf depRefs) = rc at hcreate ⊢
            obtain ⟨ansc, reg2⟩ := rc
            cases ansc with
            | error err => exact runsTo_trans hdeps (runsTo_error hcreate)
            | ok created =>
              simp only []
              have hcall := runsTo_call env.client reg2
                (RegistryCall.LookupSchema (ps.referenceSubjectNameStrategy ctx fileImport)
                  schemaString SchemaType.Protobuf depRefs)
              change RunsTo reg2 (reg2.call env.recording.client _).2
                (reg2.call env.recording.client _).1 at hcall
              generalize reg2.call env.recording.client
                (RegistryCall.LookupSchema (ps.referenceSubjectNameStrategy ctx fileImport)
                  schemaString SchemaType.Protobuf depRefs) = rl at hcall ⊢
              obtain ⟨ansl, reg3⟩ := rl
              cases ansl with
              | error err => exact runsTo_trans hdeps (runsTo_trans hcreate (runsTo_error hcall))
              | ok reference =>
                exact runsTo_trans hdeps (runsTo_trans hcreate
                  (runsTo_trans hcall (resolveImports_runsTo env ps ctx rest _ reg3)))
    · rw [resolveImports_skip _ _ _ _ _ _ _ hskip]
      exact resolveImports_runsTo env ps ctx rest schemaRefs reg

end

/-- A call of the recording client is answered as the call of the client
itself. -/
theorem forget_call {ρ ε : Type} (client : SchemaRegistryClient ρ ε)
    (reg : Registry (ρ × AnswerLog ε)) (c : RegistryCall) :
    reg.forget.call client c
      = ((reg.call (recordingClient client) c).1, (reg.call (recordingClient client) c).2.forget) :=
  rfl

theorem recording_client {ρ ε μ : Type} (env : Env ρ ε μ) :
    env.recording.client = recordingClient env.client := rfl

theorem recording_fileDescriptorToString {ρ ε μ : Type} (env : Env ρ ε μ) :
    env.recording.fileDescriptorToString = env.fileDescriptorToString := rfl

mutual

/-- The recording client does not change what `resolveDependencies` does. -/
theorem resolveDependencies_recording {ρ ε μ : Type} (env : Env ρ ε μ)
    (ps : ProtobufSerializer) (ctx : SerializationContext) :
    ∀ (fd : FileDescriptor) (reg : Registry (ρ × AnswerLog ε)),
      resolveDependencies env ps ctx fd reg.forget
        = ((resolveDependencies env.recording ps ctx fd reg).1,
           (resolveDependencies env.recording ps ctx fd reg).2.forget)
  | FileDescriptor.mk _ imports, reg => by
    rw [resolveDependencies, resolveDependencies]
    exact resolveImports_recording env ps ctx imports [] reg

/-- The recording client does not change what the loop of `resolveDependencies`
does. -/
theorem resolveImports_recording {ρ ε μ : Type} (env : Env ρ ε μ)
    (ps : ProtobufSerializer) (ctx : SerializationContext) :
    ∀ (imports : List FileDescriptor) (schemaRefs : List Reference)
      (reg : Registry (ρ × AnswerLog ε)),
      resolveImports env ps ctx imports schemaRefs reg.forget
        = ((resolveImports env.recording ps ctx imports schemaRefs reg).1,
           (resolveImports env.recording ps ctx imports schemaRefs reg).2.forget)
  | [], schemaRefs, reg => by
    rw [resolveImports_nil, resolveImports_nil]
  | fileImport :: rest, schemaRefs, reg => by
    cases hskip : (ps.skipKnownTypes && HasPrefix fileImport.Path "google/protobuf/")
    · have hdeps := resolveDependencies_recording env ps ctx fileImport reg
      have hrest := fun acc reg3 => resolveImports_recording env ps ctx rest acc reg3
      rw [resolveImports, if_neg (by simp [hskip]), resolveImports, if_neg (by simp [hskip]), hdeps]
      generalize resolveDependencies env.recording ps ctx fileImport reg = r1
      obtain ⟨res1, reg1⟩ := r1
      cases res1 with
      | error err => rfl
      | ok depRefs =>
        simp only [recording_fileDescriptorToString, recording_client]
        cases hstr : env.fileDescriptorToString fileImport with
        | error err => rfl
        | ok schemaString =>
          simp only []
          cases hauto : ps.autoRegisterSchemas
          · simp only [Bool.false_eq_true, if_false, forget_call]
            generalize reg1.call (recordingClient env.client)
              (RegistryCall.LookupSchema (ps.referenceSubjectNameStrategy ctx fileImport)
                schemaString SchemaType.Protobuf depRefs) = rl
            obtain ⟨ansl, reg3⟩ := rl
            cases ansl with
            | error err => rfl
            | ok reference => exact hrest _ reg3
          · simp only [if_true, forget_call]
            generalize reg1.call (recordingClient env.client)
              (RegistryCall.CreateSchema (ps.referenceSubjectNameStrategy ctx fileImport)
                schemaString SchemaType.Protobuf depRefs) = rc
            obtain ⟨ansc, reg2⟩ := rc
            cases ansc with
            | error err => rfl
            | ok created =>
              simp only [forget_call]
              generalize reg2.call (recordingClient env.client)
                (RegistryCall.LookupSchema (ps.referenceSubjectNameStrategy ctx fileImport)
                  schemaString SchemaType.Protobuf depRefs) = rl
              obtain ⟨ansl, reg3⟩ := rl
              cases ansl with
              | error err => rfl
              | ok reference => exact hrest _ reg3
    · rw [resolveImports_skip _ _ _ _ _ _ _ hskip, resolveImports_skip _ _ _ _ _ _ _ hskip]
      exact resolveImports_recording env ps ctx rest schemaRefs reg

end

theorem recording_Marshal {ρ ε μ : Type} (env : Env ρ ε μ) :
    env.recording.Marshal = env.Marshal := rfl

theorem recording_DescriptorOf {ρ ε μ : Type} (env : Env ρ ε μ) :
    env.recording.DescriptorOf = env.DescriptorOf := rfl

/-- With the recording client, `getSchemaID` stops at the first call that the
registry answers with an error, and returns that error. -/
theorem getSchemaID_runsTo {ρ ε μ : Type} (env : Env ρ ε μ) (ps : ProtobufSerializer)
    (ctx : SerializationContext) (md : Descriptor) (subject : String)
    (reg : Registry (ρ × AnswerLog ε)) :
    RunsTo reg (getSchemaID env.recording ps ctx md subject reg).2.2
      (getSchemaID env.recording ps ctx md subject reg).1 := by
  unfold getSchemaID
  cases hget : knownSubjectsGet ps.knownSubjects subject with
  | some schemaID => exact runsTo_refl reg _
  | none =>
    simp only [recording_fileDescriptorToString, recording_client]
    cases hmode : ps.useLatestVersion
    · simp only [Bool.false_eq_true, if_false]
      have hdeps := resolveDependencies_runsTo env ps ctx md.ParentFile reg
      generalize resolveDependencies env.recording ps ctx md.ParentFile reg = r1 at hdeps ⊢
      obtain ⟨res1, reg1⟩ := r1
      cases res1 with
      | error err => exact runsTo_error hdeps
      | ok schemaRefs =>
        simp only []
        cases hstr : env.fileDescriptorToString md.ParentFile with
        | error err => exact runsTo_of_ok hdeps _
        | ok schemaString =>
          simp only []
          cases hauto : ps.autoRegisterSchemas
          · simp only [Bool.false_eq_true, if_false]
            have hcall := runsTo_call env.client reg1
              (RegistryCall.LookupSchema subject schemaString SchemaType.Protobuf schemaRefs)
            generalize reg1.call (recordingClient env.client)
              (RegistryCall.LookupSchema subject schemaString SchemaType.Protobuf schemaRefs)
              = rl at hcall ⊢
            obtain ⟨ansl, reg2⟩ := rl
            cases ansl with
            | error err => exact runsTo_trans hdeps (runsTo_error hcall)
            | ok theSchema => exact runsTo_trans hdeps (runsTo_of_ok hcall _)
          · simp only [if_true]
            have hcall := runsTo_call env.client reg1
              (RegistryCall.CreateSchema subject schemaString SchemaType.Protobuf schemaRefs)
            generalize reg1.call (recordingClient env.client)
              (RegistryCall.CreateSchema subject schemaString SchemaType.Protobuf schemaRefs)
              = rl at hcall ⊢
            obtain ⟨ansl, reg2⟩ := rl
            cases ansl with
            | error err => exact runsTo_trans hdeps (runsTo_error hcall)
            | ok theSchema => exact runsTo_trans hdeps (runsTo_of_ok hcall _)
    · simp only [if_true]
      have hcall := runsTo_call env.client reg (RegistryCall.GetLatestSchema subject)
      generalize reg.call (recordingClient env.client) (RegistryCall.GetLatestSchema subject)
        = rl at hcall ⊢
      obtain ⟨ansl, reg1⟩ := rl
      cases ansl with
      | error err => exact runsTo_error hcall
      | ok theSchema => exact runsTo_of_ok hcall _

/-- The recording client does not change what `getSchemaID` does. -/
theorem getSchemaID_recording {ρ ε μ : Type} (env : Env ρ ε μ) (ps : ProtobufSerializer)
    (ctx : SerializationContext) (md : Descriptor) (subject : String)
    (reg : Registry (ρ × AnswerLog ε)) :
    getSchemaID env ps ctx md subject reg.forget
      = ((getSchemaID env.recording ps ctx md subject reg).1,
         (getSchemaID env.recording ps ctx md subject reg).2.1,
         (getSchemaID env.recording ps ctx md subject reg).2.2.forget) := by
  unfold getSchemaID
  cases hget : knownSubjectsGet ps.knownSubjects subject with
  | some schemaID => rfl
  | none =>
    simp only [recording_fileDescriptorToString, recording_client]
    cases hmode : ps.useLatestVersion
    · simp only [Bool.false_eq_true, if_false, resolveDependencies_recording]
      generalize resolveDependencies env.recording ps ctx md.ParentFile reg = r1
      obtain ⟨res1, reg1⟩ := r1
      cases res1 with
      | error err => rfl
      | ok schemaRefs =>
        simp only []
        cases hstr : env.fileDescriptorToString md.ParentFile with
        | error err => rfl
        | ok schemaString =>
          simp only []
          cases hauto : ps.autoRegisterSchemas
          · simp only [Bool.false_eq_true, if_false, forget_call]
            generalize reg1.call (recordingClient env.client)
              (RegistryCall.LookupSchema subject schemaString SchemaType.Protobuf schemaRefs) = rl
            obtain ⟨ansl, reg2⟩ := rl
            cases ansl <;> rfl
          · simp only [if_true, forget_call]
            generalize reg1.call (recordingClient env.client)
              (RegistryCall.CreateSchema subject schemaString SchemaType.Protobuf schemaRefs) = rl
            obtain ⟨ansl, reg2⟩ := rl
            cases ansl <;> rfl
    · simp only [if_true, forget_call]
      generalize reg.call (recordingClient env.client) (RegistryCall.GetLatestSchema subject) = rl
      obtain ⟨ansl, reg1⟩ := rl
      cases ansl <;> rfl

/-- With the recording client, `Serialize` stops at the first call that the
registry answers with an error, and returns that error. -/
theorem Serialize_runsTo {ρ ε μ : Type} (env : Env ρ ε μ) (ps : ProtobufSerializer)
    (pb : μ) (ctx : SerializationContext) (reg : Registry (ρ × AnswerLog ε)) :
    RunsTo reg (Serialize env.recording ps pb ctx reg).2.2
      (Serialize env.recording ps pb ctx reg).1 := by
  unfold Serialize
  simp only [recording_Marshal, recording_DescriptorOf]
  have hid := getSchemaID_runsTo env ps ctx (env.DescriptorOf pb)
    (ps.subjectNameStrategy ctx (env.DescriptorOf pb).FullName) reg
  generalize getSchemaID env.recording ps ctx (env.DescriptorOf pb)
    (ps.subjectNameStrategy ctx (env.DescriptorOf pb).FullName) reg = r1 at hid ⊢
  obtain ⟨res1, ps1, reg1⟩ := r1
  cases res1 with
  | error err => exact runsTo_error hid
  | ok schemaID =>
    simp only []
    cases env.Marshal pb with
    | error err => exact runsTo_of_ok hid _
    | ok bytes => exact runsTo_of_ok hid _

/-- The recording client does not change what `Serialize` does. -/
theorem Serialize_recording {ρ ε μ : Type} (env : Env ρ ε μ) (ps : ProtobufSerializer)
    (pb : μ) (ctx : SerializationContext) (reg : Registry (ρ × AnswerLog ε)) :
    Serialize env ps pb ctx reg.forget
      = ((Serialize env.recording ps pb ctx reg).1,
         (Serialize env.recording ps pb ctx reg).2.1,
         (Serialize env.recording ps pb ctx reg).2.2.forget) := by
  unfold Serialize
  simp only [recording_Marshal, recording_DescriptorOf, getSchemaID_recording]
  generalize getSchemaID env.recording ps ctx (env.DescriptorOf pb)
    (ps.subjectNameStrategy ctx (env.DescriptorOf pb).FullName) reg = r1
  obtain ⟨res1, ps1, reg1⟩ := r1
  cases res1 with
  | error err => rfl
  | ok schemaID =>
    simp only []
    cases env.Marshal pb <;> rfl

/-- C22. Let the registry client keep the log of its answers (`Env.recording`,
which changes nothing else: each of the three methods returns with it what it
returns with the client itself, and leaves the same registry). Then for every
run of `resolveDependencies`, of `getSchemaID` and of `Serialize`, from every
state of the registry, the answers that the run adds to the log are those of
the calls it issued, in order, and wherever one of them is an error, no answer
follows it, so no further call was issued, and the method returns exactly that
error, with no references, ID or bytes. -/
theorem C22_abort_on_registry_failure {ρ ε μ : Type} (env : Env ρ ε μ)
    (ps : ProtobufSerializer) (ctx : SerializationContext) (reg : Registry (ρ × AnswerLog ε)) :
    (∀ fd : FileDescriptor,
      resolveDependencies env ps ctx fd reg.forget
        = ((resolveDependencies env.recording ps ctx fd reg).1,
           (resolveDependencies env.recording ps ctx fd reg).2.forget) ∧
      ∃ new : AnswerLog ε,
        (resolveDependencies env.recording ps ctx fd reg).2.state.2 = reg.state.2 ++ new ∧
        (resolveDependencies env.recording ps ctx fd reg).2.calls
          = reg.calls ++ new.map Prod.fst ∧
        stopsAtFailure new (resolveDependencies env.recording ps ctx fd reg).1) ∧
    (∀ (md : Descriptor) (subject : String),
      getSchemaID env ps ctx md subject reg.forget
        = ((getSchemaID env.recording ps ctx md subject reg).1,
           (getSchemaID env.recording ps ctx md subject reg).2.1,
           (getSchemaID env.recording ps ctx md subject reg).2.2.forget) ∧
      ∃ new : AnswerLog ε,
        (getSchemaID env.recording ps ctx md subject reg).2.2.state.2 = reg.state.2 ++ new ∧
        (getSchemaID env.recording ps ctx md subject reg).2.2.calls
          = reg.calls ++ new.map Prod.fst ∧
        stopsAtFailure new (getSchemaID env.recording ps ctx md subject reg).1) ∧
    (∀ pb : μ,
      Serialize env ps pb ctx reg.forget
        = ((Serialize env.recording ps pb ctx reg).1,
           (Serialize env.recording ps pb ctx reg).2.1,
           (Serialize env.recording ps pb ctx reg).2.2.forget) ∧
      ∃ new : AnswerLog ε,
        (Serialize env.recording ps pb ctx reg).2.2.state.2 = reg.state.2 ++ new ∧
        (Serialize env.recording ps pb ctx reg).2.2.calls = reg.calls ++ new.map Prod.fst ∧
        stopsAtFailure new (Serialize env.recording ps pb ctx reg).1) :=
  ⟨fun fd => ⟨resolveDependencies_recording env ps ctx fd reg,
      runsTo_stopsAtFailure (resolveDependencies_runsTo env ps ctx fd reg)⟩,
    fun md subject => ⟨getSchemaID_recording env ps ctx md subject reg,
      runsTo_stopsAtFailure (getSchemaID_runsTo env ps ctx md subject reg)⟩,
    fun pb => ⟨Serialize_recording env ps pb ctx reg,
      runsTo_stopsAtFailure (Serialize_runsTo env ps pb ctx reg)⟩⟩

/-- C22 at the file `a.proto` that imports `b.proto` and `d.proto`, where
`b.proto` imports `c.proto`, with a registry that answers its first call and
fails every later one: the log of the run holds the answer to the call for
`c.proto` and then the error of the call for `b.proto`, nothing follows, and
`resolveDependencies` returns that error. -/
theorem C22_abort_on_registry_failure_witness :
    ∃ new : AnswerLog String,
      ([(RegistryCall.LookupSchema "c.proto" "c.proto" SchemaType.Protobuf [],
          Except.ok { id := 1, version := 0 }),
        (RegistryCall.LookupSchema "b.proto" "b.proto" SchemaType.Protobuf
          [{ Name := "c.proto", Subject := "c.proto", Version := 0 }],
          Except.error "registry down")] : AnswerLog String) = [] ++ new ∧
      [RegistryCall.LookupSchema "c.proto" "c.proto" SchemaType.Protobuf [],
        RegistryCall.LookupSchema "b.proto" "b.proto" SchemaType.Protobuf
          [{ Name := "c.proto", Subject := "c.proto", Version := 0 }]]
        = [] ++ new.map Prod.fst ∧
      stopsAtFailure new (Except.error "registry down" : Except String (List Reference)) :=
  ((C22_abort_on_registry_failure
    ({ client := fun (n : Nat) _ =>
         if n = 0 then (Except.ok { id := 1, version := 0 }, n + 1)
         else (Except.error "registry down", n + 1),
       Marshal := fun (m : List Nat) => (Except.ok m : Except String (List Nat)),
       DescriptorOf := fun _ => Descriptor.file (FileDescriptor.mk "a.proto" []),
       fileDescriptorToString := fun fd => Except.ok fd.Path } : Env Nat String (List Nat))
    { msgIndexBytes := [0], autoRegisterSchemas := false, useLatestVersion := false,
      skipKnownTypes := false, knownSubjects := [],
      subjectNameStrategy := TopicSubjectNameStrategy,
      referenceSubjectNameStrategy := ReferenceSubjectNameStrategy }
    { Topic := "t", Field := MessageFieldValue }
    { state := (0, []), calls := [] }).1
    (FileDescriptor.mk "a.proto"
      [FileDescriptor.mk "b.proto" [FileDescriptor.mk "c.proto" []],
       FileDescriptor.mk "d.proto" []])).2

/-! ## The cache of known subjects (C23) -/

/-- A map write under a key that the map does not hold puts the new entry in
front and leaves the entries of the map as they are. -/
theorem knownSubjectsSet_miss (m : List (String × Int)) (subject : String) (schemaID : Int)
    (hmiss : knownSubjectsGet m subject = none) :
    knownSubjectsSet m subject schemaID = (subject, schemaID) :: m := by
  unfold knownSubjectsSet
  congr 1
  induction m with
  | nil => rfl
  | cons kv rest ih =>
    unfold knownSubjectsGet at hmiss ih
    rw [List.lookup_cons] at hmiss
    by_cases hk : kv.1 = subject
    · rw [hk] at hmiss
      simp at hmiss
    · have hb : (subject == kv.1) = false := by
        simp only [beq_eq_false_iff_ne, ne_eq]
        exact fun h => hk h.symm
      rw [hb] at hmiss
      simp only [List.filter_cons, ne_eq, hk, not_false_eq_true, decide_True, if_true]
      rw [ih hmiss]

/-- A map write leaves the value under every other key as it is. -/
theorem knownSubjectsGet_set_ne (m : List (String × Int)) (subject s : String) (schemaID : Int)
    (hne : s ≠ subject) :
    knownSubjectsGet (knownSubjectsSet m subject schemaID) s = knownSubjectsGet m s := by
  unfold knownSubjectsGet knownSubjectsSet
  rw [List.lookup_cons]
  have hb : (s == subject) = false := by simpa using hne
  rw [hb]
  induction m with
  | nil => rfl
  | cons kv rest ih =>
    by_cases hk : kv.1 = subject
    · have hb2 : (s == kv.1) = false := by rw [hk]; exact hb
      simp only [List.filter_cons, ne_eq, hk, not_true_eq_false, decide_False,
        Bool.false_eq_true, if_false]
      rw [List.lookup_cons, hb2]
      exact ih
    · simp only [List.filter_cons, ne_eq, hk, not_false_eq_true, decide_True, if_true]
      rw [List.lookup_cons, List.lookup_cons]
      cases s == kv.1
      · exact ih
      · rfl

/-- What `getSchemaID` does to the serializer: nothing on a hit and on a
failure, and one map write on a miss that is resolved. -/
theorem getSchemaID_serializer {ρ ε μ : Type} (env : Env ρ ε μ) (ps : ProtobufSerializer)
    (ctx : SerializationContext) (md : Descriptor) (subject : String) (reg : Registry ρ) :
    (∀ schemaID, knownSubjectsGet ps.knownSubjects subject = some schemaID →
      getSchemaID env ps ctx md subject reg = (Except.ok schemaID, ps, reg)) ∧
    (∀ err, (getSchemaID env ps ctx md subject reg).1 = Except.error err →
      (getSchemaID env ps ctx md subject reg).2.1 = ps) ∧
    (∀ schemaID, knownSubjectsGet ps.knownSubjects subject = none →
      (getSchemaID env ps ctx md subject reg).1 = Except.ok schemaID →
      (getSchemaID env ps ctx md subject reg).2.1
        = { ps with knownSubjects := knownSubjectsSet ps.knownSubjects subject schemaID }) := by
  refine ⟨fun schemaID hhit => getSchemaID_hit env ps ctx md subject reg schemaID hhit, ?_, ?_⟩
  · intro err h
    unfold getSchemaID at h ⊢
    split at h
    · cases h
    · simp only [] at h ⊢
      split
      · rfl
      · rename_i heq
        rw [heq] at h
        cases h
  · intro schemaID hmiss h
    unfold getSchemaID at h ⊢
    rw [hmiss] at h ⊢
    simp only [] at h ⊢
    split
    · rename_i heq
      rw [heq] at h
      cases h
    · rename_i heq
      rw [heq] at h
      injection h with h
      rw [h]

/-- The serializer that `Serialize` leaves is the one that its call of
`getSchemaID` leaves. -/
theorem Serialize_serializer {ρ ε μ : Type} (env : Env ρ ε μ) (ps : ProtobufSerializer)
    (pb : μ) (ctx : SerializationContext) (reg : Registry ρ) :
    (Serialize env ps pb ctx reg).2.1
      = (getSchemaID env ps ctx (env.DescriptorOf pb)
          (ps.subjectNameStrategy ctx (env.DescriptorOf pb).FullName) reg).2.1 := by
  unfold Serialize
  simp only []
  split
  · rename_i heq
    rw [heq]
  · rename_i heq
    rw [heq]
    split <;> rfl

/-- C23. Every call of `getSchemaID` leaves every entry of the cache of known
subjects as it was: a subject that had an ID has the same ID afterwards. A call
on a hit and a call that fails leave the serializer, and so the cache, exactly
as it was. A successful call on a miss leaves the cache with exactly one more
entry, the resolved ID under the subject, put in front of the entries it had.
The same holds for the entries of the cache across a call of `Serialize`, whose
only access to the cache is its call of `getSchemaID`. -/
theorem C23_cache_stability {ρ ε μ : Type} (env : Env ρ ε μ) (ps : ProtobufSerializer)
    (ctx : SerializationContext) (md : Descriptor) (subject : String) (reg : Registry ρ) :
    (∀ (s : String) (id : Int), knownSubjectsGet ps.knownSubjects s = some id →
      knownSubjectsGet (getSchemaID env ps ctx md subject reg).2.1.knownSubjects s = some id) ∧
    (∀ schemaID, knownSubjectsGet ps.knownSubjects subject = some schemaID →
      (getSchemaID env ps ctx md subject reg).2.1 = ps) ∧
    (∀ err, (getSchemaID env ps ctx md subject reg).1 = Except.error err →
      (getSchemaID env ps ctx md subject reg).2.1 = ps) ∧
    (∀ schemaID, knownSubjectsGet ps.knownSubjects subject = none →
      (getSchemaID env ps ctx md subject reg).1 = Except.ok schemaID →
      (getSchemaID env ps ctx md subject reg).2.1
        = { ps with knownSubjects := (subject, schemaID) :: ps.knownSubjects }) ∧
    (∀ (pb : μ) (s : String) (id : Int), knownSubjectsGet ps.knownSubjects s = some id →
      knownSubjectsGet (Serialize env ps pb ctx reg).2.1.knownSubjects s = some id) := by
  have hkeep : ∀ (md : Descriptor) (subject : String) (s : String) (id : Int),
      knownSubjectsGet ps.knownSubjects s = some id →
      knownSubjectsGet (getSchemaID env ps ctx md subject reg).2.1.knownSubjects s
        = some id := by
    intro md subject s id hs
    obtain ⟨hhit, herr, hmiss⟩ := getSchemaID_serializer env ps ctx md subject reg
    cases hget : knownSubjectsGet ps.knownSubjects subject with
    | some schemaID => rw [hhit schemaID hget]; exact hs
    | none =>
      cases hres : (getSchemaID env ps ctx md subject reg).1 with
      | error err => rw [herr err hres]; exact hs
      | ok schemaID =>
        rw [hmiss schemaID hget hres]
        have hne : s ≠ subject := by
          intro h
          rw [h, hget] at hs
          cases hs
        simp only []
        rw [knownSubjectsGet_set_ne _ _ _ _ hne]
        exact hs
  obtain ⟨hhit, herr, hmiss⟩ := getSchemaID_serializer env ps ctx md subject reg
  refine ⟨hkeep md subject, ?_, herr, ?_, ?_⟩
  · intro schemaID hget
    rw [hhit schemaID hget]
  · intro schemaID hget hres
    rw [hmiss schemaID hget hres, knownSubjectsSet_miss _ _ _ hget]
  · intro pb s id hs
    rw [Serialize_serializer]
    exact hkeep _ _ s id hs

/-- C23 at a serializer in use-latest-version mode whose cache holds the ID 5
under "other", for the subject "t-value" and a registry that answers with the
ID 7: the resolution is a successful one on a miss, and the serializer it leaves
has the entry of "t-value" in front of the one of "other". -/
theorem C23_cache_stability_witness :
    (getSchemaID
      ({ client := fun (n : Nat) _ => (Except.ok { id := 7, version := 1 }, n + 1),
         Marshal := fun (m : List Nat) => (Except.ok m : Except Unit (List Nat)),
         DescriptorOf := fun _ => Descriptor.file (FileDescriptor.mk "a.proto" []),
         fileDescriptorToString := fun fd => Except.ok fd.Path } : Env Nat Unit (List Nat))
      { msgIndexBytes := [0], autoRegisterSchemas := false, useLatestVersion := true,
        skipKnownTypes := false, knownSubjects := [("other", 5)],
        subjectNameStrategy := TopicSubjectNameStrategy,
        referenceSubjectNameStrategy := ReferenceSubjectNameStrategy }
      { Topic := "t", Field := MessageFieldValue }
      (Descriptor.message "pkg.M" 0 (Descriptor.file (FileDescriptor.mk "a.proto" [])))
      "t-value" { state := 0, calls := [] }).2.1
    = { msgIndexBytes := [0], autoRegisterSchemas := false, useLatestVersion := true,
        skipKnownTypes := false, knownSubjects := [("t-value", 7), ("other", 5)],
        subjectNameStrategy := TopicSubjectNameStrategy,
        referenceSubjectNameStrategy := ReferenceSubjectNameStrategy } :=
  (C23_cache_stability
    ({ client := fun (n : Nat) _ => (Except.ok { id := 7, version := 1 }, n + 1),
       Marshal := fun (m : List Nat) => (Except.ok m : Except Unit (List Nat)),
       DescriptorOf := fun _ => Descriptor.file (FileDescriptor.mk "a.proto" []),
       fileDescriptorToString := fun fd => Except.ok fd.Path } : Env Nat Unit (List Nat))
    { msgIndexBytes := [0], autoRegisterSchemas := false, useLatestVersion := true,
      skipKnownTypes := false, knownSubjects := [("other", 5)],
      subjectNameStrategy := TopicSubjectNameStrategy,
      referenceSubjectNameStrategy := ReferenceSubjectNameStrategy }
    { Topic := "t", Field := MessageFieldValue }
    (Descriptor.message "pkg.M" 0 (Descriptor.file (FileDescriptor.mk "a.proto" [])))
    "t-value" { state := 0, calls := [] }).2.2.2.1 7 rfl rfl

/-! ## The index path of `createMsgIndex` (C24) -/

/-- The loop of `createMsgIndex` puts the indexes of the descriptor and of what
encloses it in front of the indexes it was given. -/
theorem createMsgIndexLoop_eq (md : Descriptor) (msgIndex : List Int) :
    createMsgIndexLoop md msgIndex = indexPath md ++ msgIndex := by
  induction md generalizing msgIndex with
  | file fd => rfl
  | message fullName index parent ih =>
    rw [createMsgIndexLoop, ih, indexPath, List.append_assoc, List.singleton_append]

theorem indexPath_length (md : Descriptor) : (indexPath md).length = nestingDepth md := by
  induction md with
  | file fd => rfl
  | message fullName index parent ih =>
    rw [indexPath, List.length_append, ih, nestingDepth, List.length_singleton]

/-- C24. For every descriptor, `createMsgIndex` returns the sibling indexes of
the message and of each message that encloses it, from the root down, and
nothing for the file: a top-level message with index `i` gives `[i]`, a message
with index `j` nested in `parent` gives `createMsgIndex parent ++ [j]`, and the
length of the path is the nesting depth of the message. -/
theorem C24_index_path :
    (∀ md : Descriptor, createMsgIndex md = indexPath md) ∧
    (∀ fd : FileDescriptor, createMsgIndex (Descriptor.file fd) = []) ∧
    (∀ (fullName : String) (i : Int) (fd : FileDescriptor),
      createMsgIndex (Descriptor.message fullName i (Descriptor.file fd)) = [i]) ∧
    (∀ (fullName : String) (j : Int) (parent : Descriptor),
      createMsgIndex (Descriptor.message fullName j parent) = createMsgIndex parent ++ [j]) ∧
    (∀ md : Descriptor, (createMsgIndex md).length = nestingDepth md) := by
  have h : ∀ md : Descriptor, createMsgIndex md = indexPath md := by
    intro md
    rw [createMsgIndex, createMsgIndexLoop_eq, List.append_nil]
  refine ⟨h, fun fd => rfl, fun fullName i fd => rfl, ?_, ?_⟩
  · intro fullName j parent
    rw [h, h, indexPath]
  · intro md
    rw [h, indexPath_length]

/-! ## The two modes after a setter call (C25) -/

/-- The check `isUseLatestVersionAndAutoRegisterSchemas` returns nil exactly when
the two modes are not both enabled. -/
theorem isUseLatestVersionAndAutoRegisterSchemas_nil (ps : ProtobufSerializer) :
    isUseLatestVersionAndAutoRegisterSchemas ps = none
      ↔ (ps.useLatestVersion && ps.autoRegisterSchemas) = false := by
  unfold isUseLatestVersionAndAutoRegisterSchemas
  cases ps.useLatestVersion && ps.autoRegisterSchemas <;> simp

/-- A call of `SetAutoRegisterSchemas` that returns nil leaves a serializer in
which the two modes are not both enabled. -/
theorem SetAutoRegisterSchemas_nil (ps : ProtobufSerializer) (config : ProtobufSerializerConfig)
    (h : (SetAutoRegisterSchemas ps config).1 = none) :
    ((SetAutoRegisterSchemas ps config).2.1.useLatestVersion
      && (SetAutoRegisterSchemas ps config).2.1.autoRegisterSchemas) = false := by
  unfold SetAutoRegisterSchemas at h ⊢
  cases hget : configGet config AutoRegisterSchemas with
  | none =>
    rw [hget] at h
    exact (isUseLatestVersionAndAutoRegisterSchemas_nil ps).mp h
  | some v =>
    rw [hget] at h
    cases v with
    | bool b => exact (isUseLatestVersionAndAutoRegisterSchemas_nil _).mp h
    | subjectNameStrategy s => cases h
    | referenceSubjectNameStrategy s => cases h
    | other d => cases h

/-- A call of `SetUseLatestVersion` that returns nil leaves a serializer in
which the two modes are not both enabled. -/
theorem SetUseLatestVersion_nil (ps : ProtobufSerializer) (config : ProtobufSerializerConfig)
    (h : (SetUseLatestVersion ps config).1 = none) :
    ((SetUseLatestVersion ps config).2.1.useLatestVersion
      && (SetUseLatestVersion ps config).2.1.autoRegisterSchemas) = false := by
  unfold SetUseLatestVersion at h ⊢
  cases hget : configGet config UseLatestVersion with
  | none =>
    rw [hget] at h
    exact (isUseLatestVersionAndAutoRegisterSchemas_nil ps).mp h
  | some v =>
    rw [hget] at h
    cases v with
    | bool b => exact (isUseLatestVersionAndAutoRegisterSchemas_nil _).mp h
    | subjectNameStrategy s => cases h
    | referenceSubjectNameStrategy s => cases h
    | other d => cases h

/-- C25 at the serializer that `NewProtobufSerializer` returns for a top-level
message and no configuration (auto-register enabled, use-latest-version
disabled), followed by the call `SetUseLatestVersion` with the map
`use.latest.version: true`: the call returns the error "cannot enable both
use.latest.version and auto.register.schemas", and the serializer it leaves has
both modes enabled, because the field is assigned before the check runs. -/
theorem C25_setter_error_leaves_both_modes :
    ∃ ps : ProtobufSerializer,
      NewProtobufSerializer
        (Descriptor.message "pkg.M" 0 (Descriptor.file (FileDescriptor.mk "a.proto" []))) none
        = Run.ret (Except.ok ps) ∧
      ps.useLatestVersion = false ∧ ps.autoRegisterSchemas = true ∧
      (SetUseLatestVersion ps [(UseLatestVersion, ConfigValue.bool true)]).1
        = some "cannot enable both use.latest.version and auto.register.schemas" ∧
      (SetUseLatestVersion ps [(UseLatestVersion, ConfigValue.bool true)]).2.1.useLatestVersion
        = true ∧
      (SetUseLatestVersion ps [(UseLatestVersion, ConfigValue.bool true)]).2.1.autoRegisterSchemas
        = true :=
  ⟨_, rfl, rfl, rfl, rfl, rfl, rfl⟩

/-! ## The slices and the panics of `Deserialize` (C26) -/

/-- The element loop of `Deserialize`, started within the buffer and within the
array, returns: it never slices past the buffer nor writes past the array, and
the offset it ends with is within the buffer. -/
theorem decodeIndexes_ret (bytes : List Nat) (n i tot : Nat) (arr : List Int)
    (hb : wireFormatLen + tot ≤ bytes.length) (harr : i + n ≤ arr.length) :
    decodeIndexes bytes n i tot arr = Run.ret (Except.error msgIndexValueErrMsg) ∨
    ∃ arr' tot', decodeIndexes bytes n i tot arr = Run.ret (Except.ok (arr', tot')) ∧
      wireFormatLen + tot' ≤ bytes.length := by
  obtain ⟨h1, h2⟩ := decodeIndexes_skipVarints bytes n i tot arr hb harr
  cases hskip : skipVarints n (bytes.drop (wireFormatLen + tot)) with
  | none => exact Or.inl (h1 hskip)
  | some m =>
    obtain ⟨arr', ha⟩ := h2 m hskip
    have hbound := (skipVarints_bounds _ _ _ hskip).2
    simp only [List.length_drop] at hbound
    exact Or.inr ⟨arr', tot + m, ha, by omega⟩

/-- The method `Deserialize` returns for every buffer, except when the header
declares an array that `make` refuses to allocate: then, and only then, it
panics, with the runtime error of `make`. -/
theorem Deserialize_ret_or_makeslice {μ ε : Type} (Unmarshal : List Nat → μ → Option ε × μ)
    (bytes : List Nat) (pb : μ) :
    (∃ r, Deserialize Unmarshal bytes pb = Run.ret r) ∨
    (Deserialize Unmarshal bytes pb = Run.panic makesliceLenOutOfRange ∧
      minBytesLen ≤ bytes.length ∧ bytes.head? = some magicByte ∧
      0 < (Varint (bytes.drop wireFormatLen)).2 ∧
      (maxAlloc : Int) < 8 * (Varint (bytes.drop wireFormatLen)).1) := by
  unfold Deserialize
  by_cases hlen : bytes.length < minBytesLen
  · rw [if_pos hlen]
    exact Or.inl ⟨_, rfl⟩
  rw [if_neg hlen]
  by_cases hfirst : bytes.head? ≠ some magicByte
  · rw [if_pos hfirst]
    exact Or.inl ⟨_, rfl⟩
  rw [if_neg hfirst]
  have hwl : ¬ wireFormatLen > bytes.length := by
    unfold minBytesLen at hlen
    unfold wireFormatLen
    omega
  have hle := Varint_bytesRead_le (bytes.drop wireFormatLen)
  simp only [List.length_drop] at hle
  unfold decodeMsgIndexArray
  rw [if_neg hwl]
  simp only []
  by_cases hneg : (Varint (bytes.drop wireFormatLen)).1 < 0
  · rw [if_pos hneg]
    exact Or.inl ⟨_, rfl⟩
  rw [if_neg hneg]
  by_cases hread : (Varint (bytes.drop wireFormatLen)).2 ≤ 0
  · rw [if_pos hread]
    exact Or.inl ⟨_, rfl⟩
  rw [if_neg hread]
  unfold makeInt64Slice
  by_cases halloc : (Varint (bytes.drop wireFormatLen)).1 < 0 ∨
      (maxAlloc : Int) < 8 * (Varint (bytes.drop wireFormatLen)).1
  · rw [if_pos halloc]
    right
    refine ⟨rfl, by omega, by simpa using hfirst, by omega, ?_⟩
    rcases halloc with h | h
    · exact absurd h hneg
    · exact h
  · rw [if_neg halloc, Run.bind_ret]
    left
    have hb : wireFormatLen + (Varint (bytes.drop wireFormatLen)).2.toNat ≤ bytes.length := by
      omega
    rcases decodeIndexes_ret bytes (Varint (bytes.drop wireFormatLen)).1.toNat 0
      (Varint (bytes.drop wireFormatLen)).2.toNat
      (List.replicate (Varint (bytes.drop wireFormatLen)).1.toNat 0) hb (by simp)
      with hd | ⟨arr', tot', hd, hbound⟩
    · rw [hd]
      exact ⟨_, rfl⟩
    · rw [hd, Run.bind_ret]
      simp only []
      rw [if_neg (by omega)]
      cases (Unmarshal (bytes.drop (wireFormatLen + tot')) pb).1 with
      | none => exact ⟨_, rfl⟩
      | some err => exact ⟨_, rfl⟩

/-- The element loop of `Deserialize`, when it decodes all of its `n` elements,
has read at least `n` bytes and has stayed within the buffer: so it decodes at
most `len(bytes) - 5` elements, whatever `n` is. -/
theorem decodeIndexes_ok_bound (bytes : List Nat) (n i tot : Nat) (arr arr' : List Int)
    (tot' : Nat) (hb : wireFormatLen + tot ≤ bytes.length) (harr : i + n ≤ arr.length)
    (h : decodeIndexes bytes n i tot arr = Run.ret (Except.ok (arr', tot'))) :
    tot + n ≤ tot' ∧ wireFormatLen + tot' ≤ bytes.length := by
  obtain ⟨h1, h2⟩ := decodeIndexes_skipVarints bytes n i tot arr hb harr
  cases hskip : skipVarints n (bytes.drop (wireFormatLen + tot)) with
  | none =>
    rw [h1 hskip] at h
    cases h
  | some m =>
    obtain ⟨arr'', ha⟩ := h2 m hskip
    rw [ha] at h
    injection h with h
    injection h with h
    injection h with _ h
    have hbound := skipVarints_bounds _ _ _ hskip
    simp only [List.length_drop] at hbound
    omega

/-- C26. For every buffer, `Deserialize` either returns or panics with the
runtime error of `make`: it never slices out of range and never writes past the
index array. But it is not total: for the 18-byte buffer with magic byte 0,
schema ID 1, a well-formed ten-byte varint that declares `2 ^ 63 - 1` elements,
two element bytes and one payload byte, `make([]int64, arrayLen)` panics before
the element loop is entered, so the loop neither finishes nor returns the
index-value error. -/
theorem C26_header_parsing_not_total :
    (∀ (μ ε : Type) (Unmarshal : List Nat → μ → Option ε × μ) (bytes : List Nat) (pb : μ),
      (∃ r, Deserialize Unmarshal bytes pb = Run.ret r) ∨
      (Deserialize Unmarshal bytes pb = Run.panic makesliceLenOutOfRange ∧
        (maxAlloc : Int) < 8 * (Varint (bytes.drop wireFormatLen)).1)) ∧
    Varint (([0, 0, 0, 0, 1, 0xfe, 0xff, 0xff, 0xff, 0xff, 0xff, 0xff, 0xff, 0xff, 0x01, 2, 4, 7]
      : List Nat).drop wireFormatLen) = (2 ^ 63 - 1, 10) ∧
    Deserialize (fun (b : List Nat) (_ : List Nat) => ((none : Option Unit), b))
      [0, 0, 0, 0, 1, 0xfe, 0xff, 0xff, 0xff, 0xff, 0xff, 0xff, 0xff, 0xff, 0x01, 2, 4, 7] []
      = Run.panic makesliceLenOutOfRange := by
  refine ⟨?_, by decide, by decide⟩
  intro μ ε Unmarshal bytes pb
  rcases Deserialize_ret_or_makeslice Unmarshal bytes pb with h | ⟨h, _, _, _, halloc⟩
  · exact Or.inl h
  · exact Or.inr ⟨h, halloc⟩

end Serdes
